import Mathlib

set_option autoImplicit false

/-
Verification development for the mailio message-model layer (message.cpp):
shallow embedding of the RFC 5322 address-list parser, date-time codec,
mailbox formatter, header codec and multipart assembler, with theorems
checking the natural-language specification against the code.
-/

namespace Mailio

/-- Characters that the scanner treats specially, built by code point
to keep the source text plain. -/
def apos : Char := Char.ofNat 39

/-- Backtick character. -/
def btick : Char := Char.ofNat 96

/-- Left curly brace character. -/
def lbraceC : Char := Char.ofNat 123

/-- Right curly brace character. -/
def rbraceC : Char := Char.ofNat 125

/-- Double quote character (codec::QUOTE_CHAR). -/
def dquote : Char := Char.ofNat 34

/-- Backslash character (codec::BACKSLASH_CHAR). -/
def bslash : Char := Char.ofNat 92

/-- Tilde character. -/
def tildeC : Char := Char.ofNat 126

/-- ASCII alphabetic test, matching C `isalpha` in the default locale. -/
def isAlphaC (c : Char) : Bool := c.isAlpha

/-- ASCII digit test, matching C `isdigit`. -/
def isDigitC (c : Char) : Bool := c.isDigit

/-- Whitespace test matching C `isspace`: space, tab, newline, vertical
tab, form feed, carriage return. -/
def isSpaceC (c : Char) : Bool :=
  c = ' ' || c = '\t' || c = '\n' || c = Char.ofNat 11 || c = Char.ofNat 12 || c = '\r'

/-- The `message::ATEXT` constant: special characters allowed in atom text,
`"!#$%&'*+-./=?^_`(backtick)(braces)|~"`. -/
def ATEXT : List Char :=
  ['!', '#', '$', '%', '&', apos, '*', '+', '-', '.', '/', '=', '?', '^', '_',
   btick, lbraceC, '|', rbraceC, tildeC]

/-- The `message::DTEXT` constant: ATEXT with the monkey (at-sign). -/
def DTEXT : List Char :=
  ['!', '#', '$', '%', '&', apos, '*', '+', '-', '.', '@', '/', '=', '?', '^', '_',
   btick, lbraceC, '|', rbraceC, tildeC]

/-- Modelled from the spec: `message::QTEXT` is declared outside the given
source file; per the glossary it is the RFC 5322 character class for
quoted-string text, the printable ASCII characters without the double
quote and the backslash. -/
def QTEXT : List Char :=
  ((List.range 94).map (fun n => Char.ofNat (33 + n))).filter
    (fun c => c ≠ dquote && c ≠ bslash)

/-- A single mailbox: display name and address (mailio `mail_address`). -/
structure MailAddress where
  name : String
  address : String
deriving DecidableEq, Repr

/-- The cleared mail address, as produced by `mail_address::clear`. -/
def MailAddress.clear : MailAddress := ⟨"", ""⟩

/-- A named group of mailboxes (mailio `mail_group`). -/
structure MailGroup where
  name : String
  members : List MailAddress
deriving DecidableEq, Repr

/-- The cleared mail group, as produced by `mail_group::clear`. -/
def MailGroup.clear : MailGroup := ⟨"", []⟩

/-- `mail_group::add`: append a list of members. -/
def MailGroup.add (g : MailGroup) (l : List MailAddress) : MailGroup :=
  ⟨g.name, g.members ++ l⟩

/-- The parsed form of a recipient-style header (mailio `mailboxes`). -/
structure Mailboxes where
  addresses : List MailAddress
  groups : List MailGroup
deriving DecidableEq, Repr

/-- Trim of a character list: drop C-whitespace from both ends, matching
`boost::trim`. -/
def trimList (l : List Char) : List Char :=
  ((l.dropWhile isSpaceC).reverse.dropWhile isSpaceC).reverse

/-- Trim of a string, matching `boost::trim` / `boost::trim_copy`. -/
def trimCopy (s : String) : String := String.mk (trimList s.toList)

/-- Error message thrown throughout address parsing and formatting. -/
def badAddrMsg : String := "Bad address or group."

/-- States of the `parse_address_list` state machine (`state_t`). -/
inductive PalSt where
  | BEGIN | NAMEADDRGRP | QNAMEADDRBEG | ADDR | NAME | QNAMEADDREND
  | ADDRBRBEG | ADDRBREND | GROUPBEG | GROUPEND | COMMBEG | COMMEND | EOL
deriving DecidableEq, Repr

/-- The full mutable state of the `parse_address_list` loop. -/
structure PalState where
  st : PalSt
  mailList : List MailAddress
  groupList : List MailGroup
  curAddress : MailAddress
  curGroup : MailGroup
  mailAddrs : List MailAddress
  monkeyFound : Bool
  groupFound : Bool
  token : String
deriving DecidableEq, Repr

/-- Initial state of the `parse_address_list` loop. -/
def initPalState : PalState :=
  ⟨.BEGIN, [], [], MailAddress.clear, MailGroup.clear, [], false, false, ""⟩

/-- Character class test used all over the state machine:
`isalpha(*ch) || isdigit(*ch) || ATEXT.find(*ch) != string::npos`. -/
def isAtextChar (c : Char) : Bool :=
  isAlphaC c || isDigitC c || ATEXT.contains c

/-- BEGIN state, main branch. -/
def beginMain (s : PalState) (c : Char) : Except String PalState :=
  if isSpaceC c then .ok s
  else if isAtextChar c then
    .ok { s with token := s.token.push c, st := .NAMEADDRGRP }
  else if c = dquote then .ok { s with st := .QNAMEADDRBEG }
  else if c = '<' then .ok { s with st := .ADDRBRBEG }
  else .error badAddrMsg

/-- BEGIN state, end-of-input branch. -/
def beginLast (s : PalState) : Except String PalState :=
  match s.st with
  | .BEGIN => .ok s
  | .NAMEADDRGRP =>
    if s.groupFound then .error badAddrMsg
    else if s.token ≠ "" then
      let ca : MailAddress := { s.curAddress with name := trimCopy s.token }
      .ok { s with curAddress := ca, mailList := s.mailList ++ [ca] }
    else .ok s
  | _ => .error badAddrMsg

/-- NAMEADDRGRP state, main branch. -/
def nameAddrGrpMain (s : PalState) (c : Char) : Except String PalState :=
  if isAtextChar c then .ok { s with token := s.token.push c }
  else if c = '@' then
    .ok { s with token := s.token.push c, st := .ADDR, monkeyFound := true }
  else if isSpaceC c then
    .ok { s with token := s.token.push c, st := .NAME }
  else if c = ',' then
    let ca : MailAddress := { s.curAddress with name := trimCopy s.token }
    .ok { s with curAddress := MailAddress.clear, token := "",
                 mailAddrs := s.mailAddrs ++ [ca], monkeyFound := false, st := .BEGIN }
  else if c = ':' then
    if s.groupFound then .error badAddrMsg
    else
      .ok { s with mailList := s.mailList ++ s.mailAddrs, mailAddrs := [],
                   curGroup := { s.curGroup with name := s.token }, token := "",
                   groupFound := true, st := .GROUPBEG }
  else .error badAddrMsg

/-- NAMEADDRGRP state, end-of-input branch. -/
def nameAddrGrpLast (s : PalState) : Except String PalState :=
  match s.st with
  | .NAMEADDRGRP =>
    if s.groupFound then .error badAddrMsg
    else if s.token ≠ "" then
      let ca : MailAddress := { s.curAddress with name := s.token }
      let ma := s.mailAddrs ++ [ca]
      .ok { s with curAddress := ca, mailAddrs := ma, mailList := s.mailList ++ ma }
    else .ok s
  | .ADDR => .error badAddrMsg
  | .NAME => .error badAddrMsg
  | .BEGIN =>
    if s.groupFound then .error badAddrMsg
    else .ok { s with mailList := s.mailList ++ s.mailAddrs }
  | .GROUPBEG => .error badAddrMsg
  | _ => .ok s

/-- NAME state, main branch. -/
def nameMain (s : PalState) (c : Char) : Except String PalState :=
  if isAtextChar c || isSpaceC c then .ok { s with token := s.token.push c }
  else if c = '<' then
    let ca : MailAddress := { s.curAddress with name := trimCopy s.token }
    .ok { s with curAddress := ca, token := "", st := .ADDRBRBEG }
  else .error badAddrMsg

/-- ADDR state, main branch. -/
def addrMain (s : PalState) (c : Char) : Except String PalState :=
  if isAtextChar c then .ok { s with token := s.token.push c }
  else if c = '@' then
    .ok { s with token := s.token.push c, monkeyFound := true }
  else if isSpaceC c then .ok s
  else if c = ',' then
    if s.monkeyFound then
      let ca : MailAddress := { s.curAddress with address := s.token }
      .ok { s with curAddress := MailAddress.clear, token := "",
                   mailAddrs := s.mailAddrs ++ [ca], monkeyFound := false, st := .BEGIN }
    else .error badAddrMsg
  else if c = ';' then
    if s.groupFound then
      let ca : MailAddress := { s.curAddress with address := s.token }
      let ma := s.mailAddrs ++ [ca]
      .ok { s with curAddress := MailAddress.clear, token := "",
                   mailAddrs := [],
                   curGroup := MailGroup.clear,
                   groupList := s.groupList ++ [s.curGroup.add ma],
                   groupFound := false, st := .GROUPEND }
    else .error badAddrMsg
  else if c = '(' then
    if s.groupFound then .error badAddrMsg
    else if s.monkeyFound then
      let ca : MailAddress := { s.curAddress with address := s.token }
      let ma := s.mailAddrs ++ [ca]
      .ok { s with curAddress := MailAddress.clear, token := "",
                   mailAddrs := ma, mailList := s.mailList ++ ma, st := .COMMBEG }
    else .error badAddrMsg
  else .error badAddrMsg

/-- ADDR state, end-of-input branch. -/
def addrLast (s : PalState) : Except String PalState :=
  match s.st with
  | .ADDR =>
    if s.groupFound then .error badAddrMsg
    else if ¬ s.monkeyFound then .error badAddrMsg
    else if s.token ≠ "" then
      let ca : MailAddress := { s.curAddress with address := s.token }
      let ma := s.mailAddrs ++ [ca]
      .ok { s with curAddress := ca, mailAddrs := ma, mailList := s.mailList ++ ma }
    else .ok s
  | .BEGIN =>
    if s.groupFound then .error badAddrMsg
    else .ok { s with mailList := s.mailList ++ s.mailAddrs }
  | .GROUPEND => .ok s
  | .COMMBEG => .error badAddrMsg
  | _ => .ok s

/-- QNAMEADDRBEG state, main branch. -/
def qNameAddrBegMain (s : PalState) (c : Char) : Except String PalState :=
  if isAlphaC c || isDigitC c || isSpaceC c || QTEXT.contains c then
    .ok { s with token := s.token.push c }
  else if c = bslash then .ok s
  else if c = dquote then
    let ca : MailAddress := { s.curAddress with name := s.token }
    .ok { s with curAddress := ca, token := "", st := .QNAMEADDREND }
  else .error badAddrMsg

/-- QNAMEADDREND state, main branch. -/
def qNameAddrEndMain (s : PalState) (c : Char) : Except String PalState :=
  if isSpaceC c then .ok s
  else if c = '<' then .ok { s with st := .ADDRBRBEG }
  else .error badAddrMsg

/-- ADDRBRBEG state, main branch. -/
def addrBrBegMain (s : PalState) (c : Char) : Except String PalState :=
  if isAtextChar c then .ok { s with token := s.token.push c }
  else if c = '@' then
    .ok { s with token := s.token.push c, monkeyFound := true }
  else if c = '>' then
    if s.monkeyFound then
      let ca : MailAddress := { s.curAddress with address := s.token }
      .ok { s with curAddress := MailAddress.clear, token := "",
                   mailAddrs := s.mailAddrs ++ [ca], monkeyFound := false,
                   st := .ADDRBREND }
    else .error badAddrMsg
  else .error badAddrMsg

/-- ADDRBRBEG state, end-of-input branch. -/
def addrBrBegLast (s : PalState) : Except String PalState :=
  match s.st with
  | .ADDRBRBEG => .error badAddrMsg
  | .ADDRBREND =>
    if s.groupFound then
      .ok { s with curGroup := s.curGroup.add s.mailAddrs,
                   groupList := s.groupList ++ [s.curGroup.add s.mailAddrs] }
    else .ok { s with mailList := s.mailList ++ s.mailAddrs }
  | _ => .ok s

/-- ADDRBREND state, main branch; note the silent fall-through on
characters outside the recognized set. -/
def addrBrEndMain (s : PalState) (c : Char) : Except String PalState :=
  if isSpaceC c then .ok s
  else if c = ',' then .ok { s with st := .BEGIN }
  else if c = ';' then
    if s.groupFound then
      .ok { s with curGroup := MailGroup.clear,
                   mailAddrs := [],
                   groupList := s.groupList ++ [s.curGroup.add s.mailAddrs],
                   groupFound := false, st := .GROUPEND }
    else .error badAddrMsg
  else if c = '(' then
    if s.groupFound then .error badAddrMsg
    else .ok { s with mailList := s.mailList ++ s.mailAddrs, st := .COMMBEG }
  else .ok s

/-- ADDRBREND state, end-of-input branch. -/
def addrBrEndLast (s : PalState) : Except String PalState :=
  match s.st with
  | .ADDRBREND =>
    if s.groupFound then .error badAddrMsg
    else .ok { s with mailList := s.mailList ++ s.mailAddrs }
  | .BEGIN =>
    if s.groupFound then .error badAddrMsg
    else .ok { s with mailList := s.mailList ++ s.mailAddrs }
  | .COMMBEG => .error badAddrMsg
  | _ => .ok s

/-- GROUPBEG state, main branch; unrecognized characters fall through. -/
def groupBegMain (s : PalState) (c : Char) : Except String PalState :=
  if isAtextChar c then .ok { s with token := s.token.push c, st := .BEGIN }
  else if isSpaceC c then .ok s
  else if c = '<' then .ok { s with st := .ADDRBRBEG }
  else if c = ';' then
    .ok { s with curGroup := MailGroup.clear,
                 mailAddrs := [],
                 groupList := s.groupList ++ [s.curGroup.add s.mailAddrs],
                 groupFound := false, st := .GROUPEND }
  else .ok s

/-- GROUPBEG state, end-of-input branch. -/
def groupBegLast (s : PalState) : Except String PalState :=
  match s.st with
  | .BEGIN => .error badAddrMsg
  | .ADDRBRBEG => .error badAddrMsg
  | _ => .ok s

/-- GROUPEND state, main branch; unrecognized characters fall through. -/
def groupEndMain (s : PalState) (c : Char) : Except String PalState :=
  if isAtextChar c then .ok { s with token := s.token.push c, st := .BEGIN }
  else if c = '(' then .ok { s with st := .COMMBEG }
  else .ok s

/-- GROUPEND state, end-of-input branch. -/
def groupEndLast (s : PalState) : Except String PalState :=
  match s.st with
  | .BEGIN => .error badAddrMsg
  | .COMMBEG => .error badAddrMsg
  | _ => .ok s

/-- COMMBEG state, main branch. -/
def commBegMain (s : PalState) (c : Char) : Except String PalState :=
  if isAtextChar c || isSpaceC c then .ok s
  else if c = ')' then .ok { s with st := .COMMEND }
  else .error badAddrMsg

/-- COMMEND state, main branch. -/
def commEndMain (s : PalState) (c : Char) : Except String PalState :=
  if isSpaceC c then .ok s
  else .error badAddrMsg

/-- One iteration of the `parse_address_list` loop: the per-state main
branch followed, when the current character is the last one, by that
state's end-of-input validation. -/
def palStep (isLast : Bool) (s : PalState) (c : Char) : Except String PalState :=
  match s.st with
  | .BEGIN => (beginMain s c).bind (fun s1 => if isLast then beginLast s1 else .ok s1)
  | .NAMEADDRGRP =>
    (nameAddrGrpMain s c).bind (fun s1 => if isLast then nameAddrGrpLast s1 else .ok s1)
  | .NAME =>
    (nameMain s c).bind (fun s1 => if isLast then .error badAddrMsg else .ok s1)
  | .ADDR => (addrMain s c).bind (fun s1 => if isLast then addrLast s1 else .ok s1)
  | .QNAMEADDRBEG =>
    (qNameAddrBegMain s c).bind (fun s1 => if isLast then .error badAddrMsg else .ok s1)
  | .QNAMEADDREND =>
    (qNameAddrEndMain s c).bind (fun s1 => if isLast then .error badAddrMsg else .ok s1)
  | .ADDRBRBEG =>
    (addrBrBegMain s c).bind (fun s1 => if isLast then addrBrBegLast s1 else .ok s1)
  | .ADDRBREND =>
    (addrBrEndMain s c).bind (fun s1 => if isLast then addrBrEndLast s1 else .ok s1)
  | .GROUPBEG =>
    (groupBegMain s c).bind (fun s1 => if isLast then groupBegLast s1 else .ok s1)
  | .GROUPEND =>
    (groupEndMain s c).bind (fun s1 => if isLast then groupEndLast s1 else .ok s1)
  | .COMMBEG => (commBegMain s c).bind (fun s1 => .ok s1)
  | .COMMEND => (commEndMain s c).bind (fun s1 => .ok s1)
  | .EOL => .ok { s with mailAddrs := s.mailAddrs ++ [s.curAddress] }

/-- The character loop of `parse_address_list`: each character is processed
with the flag telling whether it is the last one of the input. -/
def palRun (s : PalState) : List Char → Except String PalState
  | [] => .ok s
  | [c] => palStep true s c
  | c :: c2 :: rest => (palStep false s c).bind (fun s1 => palRun s1 (c2 :: rest))

/-- `message::parse_address_list`: run the state machine over the text and
collect the accumulated addresses and groups. -/
def parse_address_list (addressList : String) : Except String Mailboxes :=
  (palRun initPalState addressList.toList).map (fun s => ⟨s.mailList, s.groupList⟩)

/-- Media types of `media_type_t`. -/
inductive MediaTypeT where
  | NONE | TEXT | IMAGE | AUDIO | VIDEO | MESSAGE | APPLICATION | MULTIPART
deriving DecidableEq, Repr

/-- Content type: media type and subtype (`content_type_t`). -/
structure ContentTypeT where
  type : MediaTypeT
  subtype : String
deriving DecidableEq, Repr

/-- Transfer encodings of `content_transfer_encoding_t`. -/
inductive ContentTransferEncodingT where
  | NONE | BIT_7 | BIT_8 | BASE_64 | QUOTED_PRINTABLE
deriving DecidableEq, Repr

/-- Content dispositions of `content_disposition_t`. -/
inductive ContentDispositionT where
  | NONE | ATTACHMENT | INLINE
deriving DecidableEq, Repr

/-- A MIME entity (the collaborator `mime` class): content metadata, raw
content, boundary, version and nested parts. -/
inductive Mime where
  | mk (contentType : ContentTypeT) (encoding : ContentTransferEncodingT)
       (disposition : ContentDispositionT) (name : String) (content : String)
       (boundary : String) (version : String) (parts : List Mime)

/-- Content type of a MIME part. -/
def Mime.contentType : Mime → ContentTypeT | .mk ct _ _ _ _ _ _ _ => ct

/-- Transfer encoding of a MIME part. -/
def Mime.encoding : Mime → ContentTransferEncodingT | .mk _ e _ _ _ _ _ _ => e

/-- Disposition of a MIME part. -/
def Mime.disposition : Mime → ContentDispositionT | .mk _ _ d _ _ _ _ _ => d

/-- Name (attachment filename) of a MIME part. -/
def Mime.name : Mime → String | .mk _ _ _ n _ _ _ _ => n

/-- Raw content bytes of a MIME part. -/
def Mime.content : Mime → String | .mk _ _ _ _ c _ _ _ => c

/-- Boundary token of a MIME part. -/
def Mime.boundary : Mime → String | .mk _ _ _ _ _ b _ _ => b

/-- MIME version string of a part. -/
def Mime.version : Mime → String | .mk _ _ _ _ _ _ v _ => v

/-- Child parts of a MIME part. -/
def Mime.parts : Mime → List Mime | .mk _ _ _ _ _ _ _ p => p

/-- A date-time value with a UTC offset, supporting the distinguished
"not set" sentinel of `boost::local_time::not_a_date_time`. -/
inductive LocalDateTime where
  | notADateTime
  | mk (year month day hour minute second : Nat) (offsetMinutes : Int)
deriving DecidableEq, Repr

/-- The `message` entity: extends the MIME fields with sender, reply
address, recipient collections, subject and date-time. The default field
values model the constructors (`mime()` and `message::message()`); the
constructor's current-timestamp date is an arbitrary set date, so the
date field carries no code-determined default. -/
structure Message where
  contentType : ContentTypeT := ⟨.NONE, ""⟩
  encoding : ContentTransferEncodingT := .NONE
  disposition : ContentDispositionT := .NONE
  attName : String := ""
  content : String := ""
  boundary : String := ""
  version : String := "1.0"
  parts : List Mime := []
  sender : MailAddress := MailAddress.clear
  replyAddress : MailAddress := MailAddress.clear
  recipients : Mailboxes := ⟨[], []⟩
  ccRecipients : Mailboxes := ⟨[], []⟩
  bccRecipients : Mailboxes := ⟨[], []⟩
  subject : String := ""
  dateTime : LocalDateTime := .notADateTime

/-- Modelled from the spec: the codec `COLON` separator between a header
name and its value; the wire format is `Name: value`. -/
def COLON : String := ": "

/-- Carriage return + line feed, the header line terminator. -/
def CRLF : String := "\r\n"

/-- Error message for a non-multipart message with a boundary. -/
def nonMultipartMsg : String := "Non multipart message with boundary."

/-- Character class of the local regex `[A-Za-z0-9\ \t]*` used by
`format_address` for an unquoted display name. -/
def plainNameChar (c : Char) : Bool :=
  isAlphaC c || isDigitC c || c = ' ' || c = '\t'

/-- The special characters of the local `QTEXT_REGEX` of `format_address`. -/
def QTEXT_SPECIALS : List Char :=
  ['!', '#', '$', '%', '&', apos, '(', ')', '*', '+', ',', '-', '.', '@', '/',
   ':', ';', '<', '=', '>', '?', '[', ']', '^', '_',
   btick, lbraceC, '|', rbraceC, tildeC]

/-- Character class of the local `QTEXT_REGEX` used by `format_address`
for a quotable display name. -/
def qtextRegexChar (c : Char) : Bool :=
  isAlphaC c || isDigitC c || c = ' ' || c = '\t' || QTEXT_SPECIALS.contains c

/-- The special characters of the local `DTEXT_REGEX` of `format_address`. -/
def DTEXT_SPECIALS : List Char :=
  ['!', '#', '$', '%', '&', apos, '*', '+', '-', '.', '@', '/', '=', '?', '^', '_',
   btick, lbraceC, '|', rbraceC, tildeC]

/-- Character class of the local `DTEXT_REGEX` used by `format_address`
for the address part. -/
def dtextRegexChar (c : Char) : Bool :=
  isAlphaC c || isDigitC c || DTEXT_SPECIALS.contains c

/-- Character class of the `ATEXT_REGEX` used by `format_mailbox` to
validate group names. -/
def groupNameChar (c : Char) : Bool :=
  isAlphaC c || isDigitC c || ATEXT.contains c

/-- `message::format_address`: render one name/address pair, quoting or
rejecting the name and validating the address character class. -/
def format_address (nm addr : String) : Except String String :=
  if nm = "" && addr = "" then .ok ""
  else
    (if nm.toList.all plainNameChar then (.ok nm : Except String String)
     else if nm.toList.all qtextRegexChar then
       .ok (String.singleton dquote ++ nm ++ String.singleton dquote)
     else .error badAddrMsg).bind (fun sndName =>
    (if addr ≠ "" then
       if addr.toList.all dtextRegexChar then
         (.ok ("<" ++ addr ++ ">") : Except String String)
       else .error badAddrMsg
     else .ok "").bind (fun a =>
    .ok (if sndName = "" then a else sndName ++ (if a = "" then "" else " " ++ a))))

/-- The address-joining loop of `format_mailbox`: comma-separated
rendering of a list of addresses. -/
def format_address_list : List MailAddress → Except String String
  | [] => .ok ""
  | [a] => format_address a.name a.address
  | a :: b :: rest =>
    (format_address a.name a.address).bind (fun s =>
      (format_address_list (b :: rest)).map (fun t => s ++ ", " ++ t))

/-- The group-joining loop of `format_mailbox`: each group is rendered as
`name: member, member, ...;` after its name passes the ATEXT check. -/
def format_group_list : List MailGroup → Except String String
  | [] => .ok ""
  | g :: rest =>
    if g.name.toList.all groupNameChar then
      (format_address_list g.members).bind (fun ms =>
        (format_group_list rest).map (fun t =>
          g.name ++ COLON ++ ms ++ (if rest.isEmpty then ";" else "; ") ++ t))
    else .error badAddrMsg

/-- `message::format_mailbox`: addresses comma-joined, then a comma if any
group follows, then the semicolon-joined groups. -/
def format_mailbox (mb : Mailboxes) : Except String String :=
  (format_address_list mb.addresses).bind (fun as =>
  (format_group_list mb.groups).map (fun gs =>
    as ++ (if mb.groups.isEmpty then "" else ", ") ++ gs))

/-- ASCII digit character for `n % 10`. -/
def digitChar (n : Nat) : Char := Char.ofNat (48 + n % 10)

/-- Two-digit zero-padded decimal rendering. -/
def pad2 (n : Nat) : String := String.mk [digitChar (n / 10), digitChar n]

/-- Four-digit zero-padded decimal rendering. -/
def pad4 (n : Nat) : String :=
  String.mk [digitChar (n / 1000), digitChar (n / 100), digitChar (n / 10), digitChar n]

/-- Abbreviated weekday names in `tm_wday` order. -/
def dowNames : List String := ["Sun", "Mon", "Tue", "Wed", "Thu", "Fri", "Sat"]

/-- Abbreviated month names. -/
def monNames : List String :=
  ["Jan", "Feb", "Mar", "Apr", "May", "Jun", "Jul", "Aug", "Sep", "Oct", "Nov", "Dec"]

/-- Day of week by Zeller's congruence, 0 = Sunday. -/
def zellerDow (y m d : Nat) : Nat :=
  let y1 := if m < 3 then y - 1 else y
  let m1 := if m < 3 then m + 12 else m
  (d + 13 * (m1 + 1) / 5 + y1 + y1 / 4 + 6 * (y1 / 100) + y1 / 400 + 6) % 7

/-- Month abbreviation for a 1-based month number. -/
def monName (m : Nat) : String := monNames.getD (m - 1) "Jan"

/-- Modelled from the spec: the boost `local_time_facet` with format
`"%a, %d %b %Y %H:%M:%S %q"` used by `format_header` to render the Date
header (spec section 4.2: `"<Dow>, <DD> <Mon> <YYYY> <HH:MM:SS> <±HHMM>"`). -/
def formatDateRfc (y mo d h mi s : Nat) (off : Int) : String :=
  dowNames.getD (zellerDow y mo d) "Sun" ++ ", " ++ pad2 d ++ " " ++ monName mo ++ " " ++
  pad4 y ++ " " ++ pad2 h ++ ":" ++ pad2 mi ++ ":" ++ pad2 s ++ " " ++
  (if off < 0 then "-" else "+") ++ pad2 (off.natAbs / 60) ++ pad2 (off.natAbs % 60)

/-- Wire name of a media type. -/
def mediaTypeStr : MediaTypeT → String
  | .NONE => ""
  | .TEXT => "text"
  | .IMAGE => "image"
  | .VIDEO => "video"
  | .MESSAGE => "message"
  | .APPLICATION => "application"
  | .MULTIPART => "multipart"
  | _ => "audio"

/-- Wire name of a transfer encoding. -/
def encodingStr : ContentTransferEncodingT → String
  | .NONE => ""
  | .BIT_7 => "7bit"
  | .BIT_8 => "8bit"
  | .BASE_64 => "base64"
  | .QUOTED_PRINTABLE => "quoted-printable"

/-- Wire name of a content disposition. -/
def dispositionStr : ContentDispositionT → String
  | .NONE => ""
  | .ATTACHMENT => "attachment"
  | .INLINE => "inline"

/-- Modelled from the spec: the collaborator `mime::format_header` (not in
the given source file) renders the content-type header (with boundary and
name parameters when set), the transfer-encoding header and the
disposition header, each as `Name: value` lines, and nothing when the
fields are unset. -/
def mimeHeaderOf (ct : ContentTypeT) (enc : ContentTransferEncodingT)
    (disp : ContentDispositionT) (nm boundary : String) : String :=
  (if ct.type = .NONE then ""
   else
     "Content-Type" ++ COLON ++ mediaTypeStr ct.type ++ "/" ++ ct.subtype ++
     (if boundary = "" then ""
      else "; boundary=" ++ String.singleton dquote ++ boundary ++ String.singleton dquote) ++
     (if nm = "" then ""
      else "; name=" ++ String.singleton dquote ++ nm ++ String.singleton dquote) ++ CRLF) ++
  (if enc = .NONE then ""
   else "Content-Transfer-Encoding" ++ COLON ++ encodingStr enc ++ CRLF) ++
  (if disp = .NONE then ""
   else "Content-Disposition" ++ COLON ++ dispositionStr disp ++ CRLF)

/-- Base64 alphabet. -/
def b64Table : List Char :=
  "ABCDEFGHIJKLMNOPQRSTUVWXYZabcdefghijklmnopqrstuvwxyz0123456789+/".toList

/-- One base64 output character. -/
def b64Char (n : Nat) : Char := b64Table.getD (n % 64) 'A'

/-- Base64 encoding of a byte list. -/
def base64Go : List Nat → List Char
  | [] => []
  | [a] => [b64Char (a / 4), b64Char (a % 4 * 16), '=', '=']
  | [a, b] => [b64Char (a / 4), b64Char (a % 4 * 16 + b / 16), b64Char (b % 16 * 4), '=']
  | a :: b :: c :: rest =>
    b64Char (a / 4) :: b64Char (a % 4 * 16 + b / 16) :: b64Char (b % 16 * 4 + c / 64) ::
    b64Char (c % 64) :: base64Go rest

/-- Modelled from the spec: the base64 transfer codec is an external
collaborator (out of scope, spec section 1); modelled without line wrapping
since no claim depends on the byte-level encoding. -/
def base64Encode (s : String) : String :=
  String.mk (base64Go (s.toList.map Char.toNat))

/-- Hexadecimal digit. -/
def hexChar (n : Nat) : Char :=
  if n % 16 < 10 then Char.ofNat (48 + n % 16) else Char.ofNat (55 + n % 16)

/-- Modelled from the spec: the quoted-printable transfer codec is an
external collaborator (out of scope, spec section 1); modelled as plain
`=XX` escaping without soft line breaks. -/
def qpEncode (s : String) : String :=
  String.mk (s.toList.foldr
    (fun c acc =>
      let n := c.toNat
      if 32 ≤ n && n ≤ 126 && n ≠ 61 then c :: acc
      else '=' :: hexChar (n / 16) :: hexChar n :: acc) [])

/-- Dot escaping of line-leading periods (spec section 4.5): a period at
the start of a line is doubled. -/
def dotStuffGo : Bool → List Char → List Char
  | _, [] => []
  | atStart, c :: rest =>
    if atStart && c = '.' then '.' :: '.' :: dotStuffGo false rest
    else c :: dotStuffGo (c = '\n') rest

/-- Modelled from the spec: the collaborator `mime::format_content`
applies the selected transfer codec to the stored content and the
dot-escaping policy for line-leading periods when requested. -/
def mimeContentOf (enc : ContentTransferEncodingT) (content : String)
    (dotEscape : Bool) : String :=
  let encoded :=
    match enc with
    | .BASE_64 => base64Encode content
    | .QUOTED_PRINTABLE => qpEncode content
    | _ => content
  if dotEscape then String.mk (dotStuffGo true encoded.toList) else encoded

/-- Modelled from the spec: the collaborator `mime::format` renders a
part's header block, a blank line, the encoded content, and, when child
parts exist, each child wrapped in boundary delimiters with the closing
delimiter, the same multipart wire shape as `message::format`
(spec sections 4.5 and 6). -/
def Mime.format (dotEscape : Bool) : Mime → String
  | .mk ct enc disp nm content boundary _ver parts =>
    let hdr := mimeHeaderOf ct enc disp nm boundary ++ CRLF
    let contentStr := mimeContentOf enc content dotEscape
    hdr ++ contentStr ++
    (if parts.isEmpty then ""
     else
       (if contentStr = "" then "" else CRLF) ++
       String.join (parts.attach.map (fun p =>
         "--" ++ boundary ++ CRLF ++ Mime.format dotEscape p.1 ++ CRLF)) ++
       "--" ++ boundary ++ "--" ++ CRLF)
decreasing_by
  have hm := List.sizeOf_lt_of_mem p.2
  simp only [Mime.mk.sizeOf_spec]
  omega

/-- The message's own `format_content` (inherited from the collaborator
`mime`): encode the message body. -/
def message_format_content (m : Message) (dotEscape : Bool) : String :=
  mimeContentOf m.encoding m.content dotEscape

/-- `mailboxes::empty`: no addresses and no groups. -/
def mailboxesEmpty (mb : Mailboxes) : Bool :=
  mb.addresses.isEmpty && mb.groups.isEmpty

/-- `message::sender_to_string`. -/
def sender_to_string (m : Message) : Except String String :=
  format_address m.sender.name m.sender.address

/-- `message::reply_address_to_string`. -/
def reply_address_to_string (m : Message) : Except String String :=
  format_address m.replyAddress.name m.replyAddress.address

/-- `message::recipients_to_string`. -/
def recipients_to_string (m : Message) : Except String String :=
  format_mailbox m.recipients

/-- `message::cc_recipients_to_string`. -/
def cc_recipients_to_string (m : Message) : Except String String :=
  format_mailbox m.ccRecipients

/-- `message::bcc_recipients_to_string`. -/
def bcc_recipients_to_string (m : Message) : Except String String :=
  format_mailbox m.bccRecipients

/-- The Date header body of `format_header`: nothing when the date is the
not-a-date-time sentinel, the facet-formatted line otherwise. -/
def datePartOf : LocalDateTime → String
  | .notADateTime => ""
  | .mk y mo d h mi s off => "Date" ++ COLON ++ formatDateRfc y mo d h mi s off ++ CRLF

/-- `message::format_header`: the boundary/content-type consistency check,
then the fixed-order header block ending in the blank separator line. -/
def format_header (m : Message) : Except String String :=
  if m.boundary ≠ "" ∧ m.contentType.type ≠ .MULTIPART then .error nonMultipartMsg
  else
    (sender_to_string m).bind (fun fromStr =>
    (if m.replyAddress.name = "" then .ok ""
     else (reply_address_to_string m).map
       (fun s => "Reply-To" ++ COLON ++ s ++ CRLF)).bind (fun replyPart =>
    (recipients_to_string m).bind (fun toStr =>
    (if mailboxesEmpty m.ccRecipients then .ok ""
     else (cc_recipients_to_string m).map
       (fun s => "Cc" ++ COLON ++ s ++ CRLF)).bind (fun ccPart =>
    (if mailboxesEmpty m.bccRecipients then .ok ""
     else (bcc_recipients_to_string m).map
       (fun s => "Bcc" ++ COLON ++ s ++ CRLF)).map (fun bccPart =>
    "From" ++ COLON ++ fromStr ++ CRLF ++ replyPart ++
    "To" ++ COLON ++ toStr ++ CRLF ++ ccPart ++ bccPart ++
    datePartOf m.dateTime ++
    (if m.parts.isEmpty then "" else "MIME-Version" ++ COLON ++ m.version ++ CRLF) ++
    mimeHeaderOf m.contentType m.encoding m.disposition m.attName m.boundary ++
    "Subject" ++ COLON ++ m.subject ++ CRLF ++ CRLF)))))

/-- `message::format`: append the header block and the message's own
content to the accumulated string, then, when child parts exist, the CRLF
separator (only after non-empty content), each child's recursive
rendering wrapped in boundary delimiters, and the closing delimiter. -/
def message_format (m : Message) (messageStr : String) (dotEscape : Bool) :
    Except String String :=
  (format_header m).map (fun hdr =>
    let content := message_format_content m dotEscape
    messageStr ++ hdr ++ content ++
    (if m.parts.isEmpty then ""
     else
       (if content = "" then "" else CRLF) ++
       String.join (m.parts.map (fun p =>
         "--" ++ m.boundary ++ CRLF ++ Mime.format dotEscape p ++ CRLF)) ++
       "--" ++ m.boundary ++ "--" ++ CRLF))

/-- `message::attach`: the generated boundary token comes from the
collaborator `make_boundary`, modelled as the explicit `newBoundary`
argument; the content stream is already read into `attStrm`. -/
def attach (m : Message) (newBoundary : String) (attStrm attName : String)
    (type : MediaTypeT) (subtype : String) : Message :=
  { m with
    boundary := if m.boundary = "" then newBoundary else m.boundary,
    contentType := ⟨.MULTIPART, "mixed"⟩,
    parts := m.parts ++
      [Mime.mk ⟨type, subtype⟩ .BASE_64 .ATTACHMENT attName attStrm "" "1.0" []] }

/-- `message::attachments_size`: count the parts with attachment
disposition. -/
def attachments_size (m : Message) : Nat :=
  (m.parts.filter (fun p => p.disposition = .ATTACHMENT)).length

/-- Error message of `message::attachment`. -/
def noAttachmentMsg : String := "No attachment at the given index."

/-- The counting loop of `message::attachment`: walk the parts, counting
attachment-disposition ones, and stop at the requested 1-based index. -/
def attachmentLoop : List Mime → Nat → Nat → Nat × Option Mime
  | [], no, _ => (no, none)
  | p :: rest, no, index =>
    if p.disposition = .ATTACHMENT then
      if no + 1 = index then (no + 1, some p)
      else attachmentLoop rest (no + 1) index
    else attachmentLoop rest no index

/-- Whitespace class `[\ \t]` of the date regex. -/
def isWsChar (c : Char) : Bool := c = ' ' || c = '\t'

/-- Error message of `message::parse_date`. -/
def badDateMsg : String := "Bad date format."

/-- The date regex of `parse_date`,
`([A-Za-z]{3}[\ \t]*,)[\ \t]+(\d{1,2}[\ \t]+[A-Za-z]{3}[\ \t]+\d{4})[\ \t]+(\d{2}:\d{2}:\d{2}[\ \t]+(\+|\-)\d{4}).*`,
implemented as a deterministic anchored matcher returning the three
capture groups; under boost's default match flags the dot matches any
character, newline included, so the trailing part is unconstrained. -/
def dateRegexCaptures (s : String) : Option (String × String × String) :=
  let l := s.toList
  let dow := l.take 3
  if dow.length = 3 && dow.all isAlphaC then
    let r1 := l.drop 3
    let ws1 := r1.takeWhile isWsChar
    match r1.dropWhile isWsChar with
    | ',' :: r2 =>
      let ws2 := r2.takeWhile isWsChar
      let r3 := r2.dropWhile isWsChar
      let day := r3.takeWhile isDigitC
      if ws2.isEmpty || day.isEmpty || day.length > 2 then none
      else
        let r4 := r3.dropWhile isDigitC
        let ws3 := r4.takeWhile isWsChar
        let r5 := r4.dropWhile isWsChar
        let mon := r5.take 3
        if ws3.isEmpty || ¬ (mon.length = 3 && mon.all isAlphaC) then none
        else
          let r6 := r5.drop 3
          let ws4 := r6.takeWhile isWsChar
          let r7 := r6.dropWhile isWsChar
          let yr := r7.takeWhile isDigitC
          if ws4.isEmpty || yr.length ≠ 4 then none
          else
            let r8 := r7.drop 4
            let ws5 := r8.takeWhile isWsChar
            let r9 := r8.dropWhile isWsChar
            match r9 with
            | h1 :: h2 :: ':' :: m1 :: m2 :: ':' :: s1 :: s2 :: r10 =>
              if ws5.isEmpty ||
                 ¬ ([h1, h2, m1, m2, s1, s2].all isDigitC) then none
              else
                let ws6 := r10.takeWhile isWsChar
                match r10.dropWhile isWsChar with
                | sgn :: r11 =>
                  let zone := r11.take 4
                  if ws6.isEmpty || ¬ (sgn = '+' || sgn = '-') ||
                     ¬ (zone.length = 4 && zone.all isDigitC) then none
                  else
                    some (String.mk (dow ++ ws1 ++ [',']),
                          String.mk (day ++ ws3 ++ mon ++ ws4 ++ yr),
                          String.mk ([h1, h2, ':', m1, m2, ':', s1, s2] ++ ws6 ++ sgn :: zone))
                | [] => none
            | _ => none
    | _ => none
  else none

/-- The string rebuilt by `parse_date` from the regex captures before the
facet parse: `m[1] + " " + (zero pad when the day has a single digit) +
m[2] + " " + m[3].substr(0,12) + ":" + m[3].substr(12)`. -/
def dateDttz (s : String) : Option String :=
  (dateRegexCaptures s).map (fun c =>
    c.1 ++ " " ++ (if c.2.1.toList.getD 1 ' ' = ' ' then "0" else "") ++ c.2.1 ++ " " ++
    String.mk (c.2.2.toList.take 12) ++ ":" ++ String.mk (c.2.2.toList.drop 12))

/-- Gregorian leap year. -/
def isLeapYear (y : Nat) : Bool := (y % 4 = 0 && y % 100 ≠ 0) || y % 400 = 0

/-- Days in a month of the Gregorian calendar. -/
def daysInMonth (y m : Nat) : Nat :=
  match m with
  | 2 => if isLeapYear y then 29 else 28
  | 4 => 30
  | 6 => 30
  | 9 => 30
  | 11 => 30
  | _ => 31

/-- Numeric value of a digit list, most significant first. -/
def digitsVal (l : List Char) : Nat :=
  l.foldl (fun acc c => acc * 10 + (c.toNat - 48)) 0

/-- Month number (1-12) of a month abbreviation, if valid. -/
def monthNumber (s : String) : Option Nat :=
  match monNames.indexOf? s with
  | some i => some (i + 1)
  | none => none

/-- Modelled from the spec: the boost `local_time_input_facet` parse with
format `"%a %d %b %Y %H:%M:%S %ZP"`, an external collaborator. It reads a
weekday abbreviation (an optional comma after it is skipped), day, month
abbreviation, year, time and a posix `±HH:MM` zone, and fails — raising
the stream failbit, so an exception in the source — on an unknown name,
a malformed field or an invalid calendar date (boost years span
1400-9999). The weekday is not checked against the date. -/
def facetParse (s : String) : Option LocalDateTime :=
  let l := s.toList
  let dow := l.takeWhile isAlphaC
  if ¬ dowNames.contains (String.mk dow) then none
  else
    let r1 := l.dropWhile isAlphaC
    let r2 := match r1 with
      | ',' :: r => r
      | r => r
    let ws1 := r2.takeWhile isSpaceC
    let r3 := r2.dropWhile isSpaceC
    let day := r3.takeWhile isDigitC
    if ws1.isEmpty || day.isEmpty || day.length > 2 then none
    else
      let r4 := (r3.dropWhile isDigitC).dropWhile isSpaceC
      let mon := r4.takeWhile isAlphaC
      match monthNumber (String.mk mon) with
      | none => none
      | some monthv =>
        let r5 := (r4.dropWhile isAlphaC).dropWhile isSpaceC
        let yr := r5.takeWhile isDigitC
        if yr.isEmpty || yr.length > 4 then none
        else
          let r6 := (r5.dropWhile isDigitC).dropWhile isSpaceC
          match r6 with
          | h1 :: h2 :: ':' :: m1 :: m2 :: ':' :: s1 :: s2 :: r7 =>
            if ¬ ([h1, h2, m1, m2, s1, s2].all isDigitC) then none
            else
              let ws2 := r7.takeWhile isSpaceC
              match r7.dropWhile isSpaceC with
              | sgn :: r8 =>
                if ws2.isEmpty || ¬ (sgn = '+' || sgn = '-') then none
                else
                  let zh := r8.takeWhile isDigitC
                  if zh.isEmpty || zh.length > 2 then none
                  else
                    let zm :=
                      match r8.dropWhile isDigitC with
                      | ':' :: t => some (t.takeWhile isDigitC, t.dropWhile isDigitC)
                      | t => some ([], t)
                    match zm with
                    | some (zmd, r9) =>
                      if ¬ r9.all isSpaceC then none
                      else if ¬ (zmd.isEmpty || zmd.length = 2) then none
                      else
                        let y := digitsVal yr
                        let d := digitsVal day
                        let hh := digitsVal [h1, h2]
                        let mi := digitsVal [m1, m2]
                        let ss := digitsVal [s1, s2]
                        let offAbs := digitsVal zh * 60 + digitsVal zmd
                        if 1400 ≤ y && y ≤ 9999 && 1 ≤ d && d ≤ daysInMonth y monthv &&
                           hh ≤ 23 && mi ≤ 59 && ss ≤ 59 && digitsVal zmd ≤ 59 then
                          some (.mk y monthv d hh mi ss
                            (if sgn = '-' then -(offAbs : Int) else (offAbs : Int)))
                        else none
                    | none => none
              | [] => none
          | _ => none

/-- `message::parse_date`: when the regex does not match, the
not-a-date-time sentinel is returned with no error; when it matches, the
rebuilt string is parsed by the facet, and any exception from the
underlying date computation is re-signaled as the date-format error. -/
def parse_date (dateStr : String) : Except String LocalDateTime :=
  match dateDttz dateStr with
  | none => .ok .notADateTime
  | some dttz =>
    match facetParse dttz with
    | some ldt => .ok ldt
    | none => .error badDateMsg

/-- The `From` header name constant. -/
def FROM_HEADER : String := "From"

/-- The `Reply-To` header name constant. -/
def REPLY_TO_HEADER : String := "Reply-To"

/-- The `To` header name constant. -/
def TO_HEADER : String := "To"

/-- The `Cc` header name constant. -/
def CC_HEADER : String := "Cc"

/-- The `Bcc` header name constant. -/
def BCC_HEADER : String := "Bcc"

/-- The `Subject` header name constant. -/
def SUBJECT_HEADER : String := "Subject"

/-- The `Date` header name constant. -/
def DATE_HEADER : String := "Date"

/-- The `MIME-Version` header name constant. -/
def MIME_VERSION_HEADER : String := "MIME-Version"

/-- Error message for a `From` header with no parsable address. -/
def badSenderMsg : String := "Bad sender."

/-- ASCII lower-casing of one character, as `std::tolower` in the
default locale. -/
def lowerChar (c : Char) : Char :=
  if 65 ≤ c.toNat ∧ c.toNat ≤ 90 then Char.ofNat (c.toNat + 32) else c

/-- Case-insensitive ASCII string comparison, `boost::iequals`. -/
def iequals (a b : String) : Bool :=
  a.toList.map lowerChar == b.toList.map lowerChar

/-- Split a character list at the first colon. -/
def splitAtColon : List Char → List Char × List Char
  | [] => ([], [])
  | c :: rest =>
    if c = ':' then ([], rest)
    else
      let r := splitAtColon rest
      (c :: r.1, r.2)

/-- Modelled from the spec: `mime::parse_header_name_value` splits an
unfolded header line into name and value at the colon (wire format
`Name: value`); the handlers trim the value themselves where needed. -/
def parse_header_name_value (line : String) : String × String :=
  let r := splitAtColon line.toList
  (String.mk r.1, String.mk r.2)

/-- Modelled from the spec: the collaborator `mime::parse_header_line`
handles only content-metadata headers (spec section 4.3: any header other
than the fixed message set is delegated to the MIME codec and out of
scope); it never touches the message-level fields compared by the claims,
so it is modelled as the identity on the message. -/
def mimeParseHeaderLine (m : Message) (_line : String) : Message := m

/-- `message::parse_header_line`: delegate to the collaborator, split the
line, and dispatch case-insensitively on the fixed header names. -/
def parse_header_line (m : Message) (headerLine : String) : Except String Message :=
  let m0 := mimeParseHeaderLine m headerLine
  let hv := parse_header_name_value headerLine
  if iequals hv.1 FROM_HEADER then
    (parse_address_list hv.2).bind (fun mbx =>
      match mbx.addresses with
      | [] => .error badSenderMsg
      | a :: _ => .ok { m0 with sender := a })
  else if iequals hv.1 REPLY_TO_HEADER then
    (parse_address_list hv.2).map (fun mbx =>
      match mbx.addresses with
      | [] => m0
      | a :: _ => { m0 with replyAddress := a })
  else if iequals hv.1 TO_HEADER then
    (parse_address_list hv.2).map (fun mbx => { m0 with recipients := mbx })
  else if iequals hv.1 CC_HEADER then
    (parse_address_list hv.2).map (fun mbx => { m0 with ccRecipients := mbx })
  else if iequals hv.1 SUBJECT_HEADER then .ok { m0 with subject := trimCopy hv.2 }
  else if iequals hv.1 DATE_HEADER then
    (parse_date (trimCopy hv.2)).map (fun dt => { m0 with dateTime := dt })
  else if iequals hv.1 MIME_VERSION_HEADER then
    .ok { m0 with version := trimCopy hv.2 }
  else .ok m0

/-- Feed a list of already-unfolded header lines, one at a time, as the
parsing path does. -/
def feed_header_lines (m : Message) : List String → Except String Message
  | [] => .ok m
  | l :: rest => (parse_header_line m l).bind (fun m1 => feed_header_lines m1 rest)

/-- Split a character list on CRLF separators. -/
def splitCRLF : List Char → List (List Char)
  | [] => [[]]
  | [c] => [[c]]
  | c :: c2 :: rest =>
    if c = '\r' ∧ c2 = '\n' then [] :: splitCRLF rest
    else
      match splitCRLF (c2 :: rest) with
      | [] => [[c]]
      | l :: ls => (c :: l) :: ls

/-- The non-empty header lines of a formatted header block. -/
def header_lines (s : String) : List String :=
  ((splitCRLF s.toList).map String.mk).filter (fun l => l ≠ "")

/-- `message::attachment`: index 0 is rejected up front; the loop writes
the found part's content to the output stream and assigns the filename;
the trailing check compares the counter with the total number of parts.
The result models (bytes written, filename assigned), with `none` when
the loop finds no part and leaves the name untouched. -/
def attachment (m : Message) (index : Nat) :
    Except String (String × Option String) :=
  if index = 0 then .error noAttachmentMsg
  else
    let r := attachmentLoop m.parts 0 index
    if r.1 > m.parts.length then .error noAttachmentMsg
    else
      .ok (match r.2 with
        | some p => (p.content, some p.name)
        | none => ("", none))

/-- A message with exactly one attachment, used to exercise the
attachment indexing paths. -/
def oneAttachmentMsg : Message :=
  attach {} "MYBOUND" "PDFBYTES" "report.pdf" .APPLICATION "pdf"

/-- A message whose reply address has an empty display name but a
non-empty address. -/
def emptyNameReplyMsg : Message := { replyAddress := ⟨"", "r@x.io"⟩ }

/-- The header block of `emptyNameReplyMsg`. -/
def emptyNameReplyHdr : String :=
  "From" ++ COLON ++ CRLF ++ "To" ++ COLON ++ CRLF ++
  "Subject" ++ COLON ++ CRLF ++ CRLF

/-- A multipart message whose own content is empty. -/
def emptyContentMultipartMsg : Message :=
  { boundary := "B", contentType := ⟨.MULTIPART, "mixed"⟩,
    parts := [Mime.mk ⟨.TEXT, "plain"⟩ .BIT_7 .NONE "" "hello" "" "1.0" []] }

/-- The header block of `emptyContentMultipartMsg`. -/
def emptyContentMultipartHdr : String :=
  ((format_header emptyContentMultipartMsg).toOption).getD ""

/-- The multipart block of `emptyContentMultipartMsg`: each child wrapped
in boundary delimiters plus the closing delimiter. -/
def emptyContentMultipartBlock : String :=
  String.join (emptyContentMultipartMsg.parts.map (fun p =>
    "--" ++ emptyContentMultipartMsg.boundary ++ CRLF ++ Mime.format false p ++ CRLF)) ++
  "--" ++ emptyContentMultipartMsg.boundary ++ "--" ++ CRLF

/-- Does the first list start with the second one? -/
def startsWith : List Char → List Char → Bool
  | _, [] => true
  | [], _ :: _ => false
  | c :: l, p :: ps => c = p && startsWith l ps

/-- Does the first list contain the second one as a contiguous run? -/
def hasSubstring : List Char → List Char → Bool
  | [], p => p.isEmpty
  | c :: l, p => startsWith (c :: l) p || hasSubstring l p

/-- The parsed result of the duplicated-mailbox input used against the
group-exclusivity claim. -/
def dupGroupParse : Mailboxes :=
  ((parse_address_list "ab@c, G: ab@c;").toOption).getD ⟨[], []⟩

/-- A state of the address-list machine sitting right after a closing
angle bracket. -/
def afterBracketSt : PalState := { initPalState with st := .ADDRBREND }

/-- A state of the address-list machine inside angle brackets with no
monkey char seen. -/
def inBracketSt : PalState :=
  { initPalState with st := .ADDRBRBEG, token := "ab" }

/-- A message exercising every conditional header of `format_header`. -/
def orderedHdrMsg : Message :=
  { sender := ⟨"", "s@x.io"⟩, replyAddress := ⟨"R", "r@x.io"⟩,
    recipients := ⟨[⟨"", "t@x.io"⟩], []⟩,
    ccRecipients := ⟨[⟨"", "c@x.io"⟩], []⟩,
    bccRecipients := ⟨[⟨"", "b@x.io"⟩], []⟩,
    subject := "S", dateTime := .mk 2014 7 17 10 31 49 120 }

/-- A mail address paired with the serial number of the occurrence that
produced it: the instrumentation used to state that each parsed
occurrence is stored exactly once. -/
abbrev TAddr := MailAddress × Nat

/-- A group with tagged members. -/
abbrev TGroup := String × List TAddr

/-- The state of the tagged variant of the address-list machine: the
fields of `PalState` with tags on stored addresses and the counter of
occurrences flushed so far. -/
structure TPalState where
  st : PalSt
  mailList : List TAddr
  groupList : List TGroup
  curAddress : MailAddress
  curGroup : TGroup
  mailAddrs : List TAddr
  monkeyFound : Bool
  groupFound : Bool
  token : String
  ctr : Nat
deriving DecidableEq, Repr

/-- Initial tagged state. -/
def initTPalState : TPalState :=
  ⟨.BEGIN, [], [], MailAddress.clear, ("", []), [], false, false, "", 0⟩

/-- Drop the tags of a tagged address list. -/
def eraseA (l : List TAddr) : List MailAddress := l.map Prod.fst

/-- Drop the tags of a tagged group. -/
def eraseGrp (g : TGroup) : MailGroup := ⟨g.1, eraseA g.2⟩

/-- Drop the instrumentation of a tagged machine state. -/
def eraseTS (ts : TPalState) : PalState :=
  ⟨ts.st, eraseA ts.mailList, ts.groupList.map eraseGrp, ts.curAddress,
   eraseGrp ts.curGroup, eraseA ts.mailAddrs, ts.monkeyFound, ts.groupFound, ts.token⟩

/-- Tags of a tagged address list. -/
def tagsA (l : List TAddr) : List Nat := l.map Prod.snd

/-- Tags of all members of a tagged group list. -/
def tagsG (l : List TGroup) : List Nat := (l.map (fun g => tagsA g.2)).join

/-- Tagged BEGIN main branch. -/
def beginMainT (s : TPalState) (c : Char) : Except String TPalState :=
  if isSpaceC c then .ok s
  else if isAtextChar c then
    .ok { s with token := s.token.push c, st := .NAMEADDRGRP }
  else if c = dquote then .ok { s with st := .QNAMEADDRBEG }
  else if c = '<' then .ok { s with st := .ADDRBRBEG }
  else .error badAddrMsg

/-- Tagged BEGIN end-of-input branch. -/
def beginLastT (s : TPalState) : Except String TPalState :=
  match s.st with
  | .BEGIN => .ok s
  | .NAMEADDRGRP =>
    if s.groupFound then .error badAddrMsg
    else if s.token ≠ "" then
      let ca : MailAddress := { s.curAddress with name := trimCopy s.token }
      .ok { s with curAddress := ca, mailList := s.mailList ++ [(ca, s.ctr)],
                   ctr := s.ctr + 1 }
    else .ok s
  | _ => .error badAddrMsg

/-- Tagged NAMEADDRGRP main branch. -/
def nameAddrGrpMainT (s : TPalState) (c : Char) : Except String TPalState :=
  if isAtextChar c then .ok { s with token := s.token.push c }
  else if c = '@' then
    .ok { s with token := s.token.push c, st := .ADDR, monkeyFound := true }
  else if isSpaceC c then
    .ok { s with token := s.token.push c, st := .NAME }
  else if c = ',' then
    let ca : MailAddress := { s.curAddress with name := trimCopy s.token }
    .ok { s with curAddress := MailAddress.clear, token := "",
                 mailAddrs := s.mailAddrs ++ [(ca, s.ctr)], ctr := s.ctr + 1,
                 monkeyFound := false, st := .BEGIN }
  else if c = ':' then
    if s.groupFound then .error badAddrMsg
    else
      .ok { s with mailList := s.mailList ++ s.mailAddrs, mailAddrs := [],
                   curGroup := (s.token, s.curGroup.2), token := "",
                   groupFound := true, st := .GROUPBEG }
  else .error badAddrMsg

/-- Tagged NAMEADDRGRP end-of-input branch. -/
def nameAddrGrpLastT (s : TPalState) : Except String TPalState :=
  match s.st with
  | .NAMEADDRGRP =>
    if s.groupFound then .error badAddrMsg
    else if s.token ≠ "" then
      let ca : MailAddress := { s.curAddress with name := s.token }
      let ma := s.mailAddrs ++ [(ca, s.ctr)]
      .ok { s with curAddress := ca, mailAddrs := ma,
                   mailList := s.mailList ++ ma, ctr := s.ctr + 1 }
    else .ok s
  | .ADDR => .error badAddrMsg
  | .NAME => .error badAddrMsg
  | .BEGIN =>
    if s.groupFound then .error badAddrMsg
    else .ok { s with mailList := s.mailList ++ s.mailAddrs }
  | .GROUPBEG => .error badAddrMsg
  | _ => .ok s

/-- Tagged NAME main branch. -/
def nameMainT (s : TPalState) (c : Char) : Except String TPalState :=
  if isAtextChar c || isSpaceC c then .ok { s with token := s.token.push c }
  else if c = '<' then
    let ca : MailAddress := { s.curAddress with name := trimCopy s.token }
    .ok { s with curAddress := ca, token := "", st := .ADDRBRBEG }
  else .error badAddrMsg

/-- Tagged ADDR main branch. -/
def addrMainT (s : TPalState) (c : Char) : Except String TPalState :=
  if isAtextChar c then .ok { s with token := s.token.push c }
  else if c = '@' then
    .ok { s with token := s.token.push c, monkeyFound := true }
  else if isSpaceC c then .ok s
  else if c = ',' then
    if s.monkeyFound then
      let ca : MailAddress := { s.curAddress with address := s.token }
      .ok { s with curAddress := MailAddress.clear, token := "",
                   mailAddrs := s.mailAddrs ++ [(ca, s.ctr)], ctr := s.ctr + 1,
                   monkeyFound := false, st := .BEGIN }
    else .error badAddrMsg
  else if c = ';' then
    if s.groupFound then
      let ca : MailAddress := { s.curAddress with address := s.token }
      let ma := s.mailAddrs ++ [(ca, s.ctr)]
      .ok { s with curAddress := MailAddress.clear, token := "",
                   mailAddrs := [], ctr := s.ctr + 1,
                   curGroup := ("", []),
                   groupList := s.groupList ++ [(s.curGroup.1, s.curGroup.2 ++ ma)],
                   groupFound := false, st := .GROUPEND }
    else .error badAddrMsg
  else if c = '(' then
    if s.groupFound then .error badAddrMsg
    else if s.monkeyFound then
      let ca : MailAddress := { s.curAddress with address := s.token }
      let ma := s.mailAddrs ++ [(ca, s.ctr)]
      .ok { s with curAddress := MailAddress.clear, token := "",
                   mailAddrs := ma, mailList := s.mailList ++ ma,
                   ctr := s.ctr + 1, st := .COMMBEG }
    else .error badAddrMsg
  else .error badAddrMsg

/-- Tagged ADDR end-of-input branch. -/
def addrLastT (s : TPalState) : Except String TPalState :=
  match s.st with
  | .ADDR =>
    if s.groupFound then .error badAddrMsg
    else if ¬ s.monkeyFound then .error badAddrMsg
    else if s.token ≠ "" then
      let ca : MailAddress := { s.curAddress with address := s.token }
      let ma := s.mailAddrs ++ [(ca, s.ctr)]
      .ok { s with curAddress := ca, mailAddrs := ma,
                   mailList := s.mailList ++ ma, ctr := s.ctr + 1 }
    else .ok s
  | .BEGIN =>
    if s.groupFound then .error badAddrMsg
    else .ok { s with mailList := s.mailList ++ s.mailAddrs }
  | .GROUPEND => .ok s
  | .COMMBEG => .error badAddrMsg
  | _ => .ok s

/-- Tagged QNAMEADDRBEG main branch. -/
def qNameAddrBegMainT (s : TPalState) (c : Char) : Except String TPalState :=
  if isAlphaC c || isDigitC c || isSpaceC c || QTEXT.contains c then
    .ok { s with token := s.token.push c }
  else if c = bslash then .ok s
  else if c = dquote then
    let ca : MailAddress := { s.curAddress with name := s.token }
    .ok { s with curAddress := ca, token := "", st := .QNAMEADDREND }
  else .error badAddrMsg

/-- Tagged QNAMEADDREND main branch. -/
def qNameAddrEndMainT (s : TPalState) (c : Char) : Except String TPalState :=
  if isSpaceC c then .ok s
  else if c = '<' then .ok { s with st := .ADDRBRBEG }
  else .error badAddrMsg

/-- Tagged ADDRBRBEG main branch. -/
def addrBrBegMainT (s : TPalState) (c : Char) : Except String TPalState :=
  if isAtextChar c then .ok { s with token := s.token.push c }
  else if c = '@' then
    .ok { s with token := s.token.push c, monkeyFound := true }
  else if c = '>' then
    if s.monkeyFound then
      let ca : MailAddress := { s.curAddress with address := s.token }
      .ok { s with curAddress := MailAddress.clear, token := "",
                   mailAddrs := s.mailAddrs ++ [(ca, s.ctr)], ctr := s.ctr + 1,
                   monkeyFound := false, st := .ADDRBREND }
    else .error badAddrMsg
  else .error badAddrMsg

/-- Tagged ADDRBRBEG end-of-input branch. -/
def addrBrBegLastT (s : TPalState) : Except String TPalState :=
  match s.st with
  | .ADDRBRBEG => .error badAddrMsg
  | .ADDRBREND =>
    if s.groupFound then
      .ok { s with curGroup := (s.curGroup.1, s.curGroup.2 ++ s.mailAddrs),
                   groupList := s.groupList ++ [(s.curGroup.1, s.curGroup.2 ++ s.mailAddrs)] }
    else .ok { s with mailList := s.mailList ++ s.mailAddrs }
  | _ => .ok s

/-- Tagged ADDRBREND main branch. -/
def addrBrEndMainT (s : TPalState) (c : Char) : Except String TPalState :=
  if isSpaceC c then .ok s
  else if c = ',' then .ok { s with st := .BEGIN }
  else if c = ';' then
    if s.groupFound then
      .ok { s with curGroup := ("", []),
                   mailAddrs := [],
                   groupList := s.groupList ++ [(s.curGroup.1, s.curGroup.2 ++ s.mailAddrs)],
                   groupFound := false, st := .GROUPEND }
    else .error badAddrMsg
  else if c = '(' then
    if s.groupFound then .error badAddrMsg
    else .ok { s with mailList := s.mailList ++ s.mailAddrs, st := .COMMBEG }
  else .ok s

/-- Tagged ADDRBREND end-of-input branch. -/
def addrBrEndLastT (s : TPalState) : Except String TPalState :=
  match s.st with
  | .ADDRBREND =>
    if s.groupFound then .error badAddrMsg
    else .ok { s with mailList := s.mailList ++ s.mailAddrs }
  | .BEGIN =>
    if s.groupFound then .error badAddrMsg
    else .ok { s with mailList := s.mailList ++ s.mailAddrs }
  | .COMMBEG => .error badAddrMsg
  | _ => .ok s

/-- Tagged GROUPBEG main branch. -/
def groupBegMainT (s : TPalState) (c : Char) : Except String TPalState :=
  if isAtextChar c then .ok { s with token := s.token.push c, st := .BEGIN }
  else if isSpaceC c then .ok s
  else if c = '<' then .ok { s with st := .ADDRBRBEG }
  else if c = ';' then
    .ok { s with curGroup := ("", []),
                 mailAddrs := [],
                 groupList := s.groupList ++ [(s.curGroup.1, s.curGroup.2 ++ s.mailAddrs)],
                 groupFound := false, st := .GROUPEND }
  else .ok s

/-- Tagged GROUPBEG end-of-input branch. -/
def groupBegLastT (s : TPalState) : Except String TPalState :=
  match s.st with
  | .BEGIN => .error badAddrMsg
  | .ADDRBRBEG => .error badAddrMsg
  | _ => .ok s

/-- Tagged GROUPEND main branch. -/
def groupEndMainT (s : TPalState) (c : Char) : Except String TPalState :=
  if isAtextChar c then .ok { s with token := s.token.push c, st := .BEGIN }
  else if c = '(' then .ok { s with st := .COMMBEG }
  else .ok s

/-- Tagged GROUPEND end-of-input branch. -/
def groupEndLastT (s : TPalState) : Except String TPalState :=
  match s.st with
  | .BEGIN => .error badAddrMsg
  | .COMMBEG => .error badAddrMsg
  | _ => .ok s

/-- Tagged COMMBEG main branch. -/
def commBegMainT (s : TPalState) (c : Char) : Except String TPalState :=
  if isAtextChar c || isSpaceC c then .ok s
  else if c = ')' then .ok { s with st := .COMMEND }
  else .error badAddrMsg

/-- Tagged COMMEND main branch. -/
def commEndMainT (s : TPalState) (c : Char) : Except String TPalState :=
  if isSpaceC c then .ok s
  else .error badAddrMsg

/-- One iteration of the tagged machine, mirroring `palStep`. -/
def tpalStep (isLast : Bool) (s : TPalState) (c : Char) : Except String TPalState :=
  match s.st with
  | .BEGIN => (beginMainT s c).bind (fun s1 => if isLast then beginLastT s1 else .ok s1)
  | .NAMEADDRGRP =>
    (nameAddrGrpMainT s c).bind (fun s1 => if isLast then nameAddrGrpLastT s1 else .ok s1)
  | .NAME =>
    (nameMainT s c).bind (fun s1 => if isLast then .error badAddrMsg else .ok s1)
  | .ADDR => (addrMainT s c).bind (fun s1 => if isLast then addrLastT s1 else .ok s1)
  | .QNAMEADDRBEG =>
    (qNameAddrBegMainT s c).bind (fun s1 => if isLast then .error badAddrMsg else .ok s1)
  | .QNAMEADDREND =>
    (qNameAddrEndMainT s c).bind (fun s1 => if isLast then .error badAddrMsg else .ok s1)
  | .ADDRBRBEG =>
    (addrBrBegMainT s c).bind (fun s1 => if isLast then addrBrBegLastT s1 else .ok s1)
  | .ADDRBREND =>
    (addrBrEndMainT s c).bind (fun s1 => if isLast then addrBrEndLastT s1 else .ok s1)
  | .GROUPBEG =>
    (groupBegMainT s c).bind (fun s1 => if isLast then groupBegLastT s1 else .ok s1)
  | .GROUPEND =>
    (groupEndMainT s c).bind (fun s1 => if isLast then groupEndLastT s1 else .ok s1)
  | .COMMBEG => (commBegMainT s c).bind (fun s1 => .ok s1)
  | .COMMEND => (commEndMainT s c).bind (fun s1 => .ok s1)
  | .EOL => .ok { s with mailAddrs := s.mailAddrs ++ [(s.curAddress, s.ctr)], ctr := s.ctr + 1 }

/-- The character loop of the tagged machine. -/
def tpalRun (s : TPalState) : List Char → Except String TPalState
  | [] => .ok s
  | [c] => tpalStep true s c
  | c :: c2 :: rest => (tpalStep false s c).bind (fun s1 => tpalRun s1 (c2 :: rest))

/-- The group-exclusivity scenario input. -/
def friendsInput : String := "Friends: Alice <alice@x.io>, bob@x.io;"

/-- The final state of the tagged machine on the Friends scenario input. -/
def friendsTS : TPalState :=
  ⟨.GROUPEND, [],
   [("Friends", [(⟨"Alice", "alice@x.io"⟩, 0), (⟨"", "bob@x.io"⟩, 1)])],
   ⟨"", ""⟩, ("", []), [], true, false, "", 2⟩


/-- All tags of a list are below a bound. -/
def TagsBelow (n : Nat) (l : List Nat) : Prop := ∀ t ∈ l, t < n

/-- The instrumentation invariant of the tagged machine: every stored tag
is below the occurrence counter; the top-level tags avoid the member tags
of closed groups and of the group being built; the pending tags likewise;
and outside the comment dead-end states the pending tags avoid the
top-level tags (entering a comment copies the pending list into the
top-level list without clearing it, but no comment state ever stores the
pending list again). -/
def TInv (ts : TPalState) : Prop :=
  TagsBelow ts.ctr (tagsA ts.mailList) ∧
  TagsBelow ts.ctr (tagsG ts.groupList) ∧
  TagsBelow ts.ctr (tagsA ts.curGroup.2) ∧
  TagsBelow ts.ctr (tagsA ts.mailAddrs) ∧
  List.Disjoint (tagsA ts.mailList) (tagsG ts.groupList) ∧
  List.Disjoint (tagsA ts.mailList) (tagsA ts.curGroup.2) ∧
  List.Disjoint (tagsA ts.mailAddrs) (tagsG ts.groupList) ∧
  List.Disjoint (tagsA ts.mailAddrs) (tagsA ts.curGroup.2) ∧
  (ts.st ≠ .COMMBEG → ts.st ≠ .COMMEND →
    List.Disjoint (tagsA ts.mailList) (tagsA ts.mailAddrs))

/-- The character loop of `parse_address_list` restricted to non-final
characters, used to reason about the run one segment at a time. -/
def palRunMid (s : PalState) : List Char → Except String PalState
  | [] => .ok s
  | c :: rest => (palStep false s c).bind (fun s1 => palRunMid s1 rest)

/-- The round trip of the claim: format the message (empty accumulator,
no dot escaping) and feed each non-empty header line of the result, one
at a time, into the target message. -/
def roundTrip (m target : Message) : Except String Message :=
  (message_format m "" false).bind (fun s => feed_header_lines target (header_lines s))

/-- A message built through the public setters named by the claim:
sender, recipients, subject and date-time; all other fields keep their
constructor defaults. -/
def mkSetterMsg (a : MailAddress) (R : Mailboxes) (subj : String)
    (d : LocalDateTime) : Message :=
  { sender := a, recipients := R, subject := subj, dateTime := d }

/-- Base message for the round-trip counterexamples. -/
def rtBase : Message :=
  { sender := ⟨"", "s@x"⟩, recipients := ⟨[⟨"", "t@x"⟩], []⟩,
    subject := "x", dateTime := .mk 2014 7 17 10 31 49 120 }

/-- A string with no carriage return and no line feed. -/
def noCRLFstr (s : String) : Prop := '\r' ∉ s.toList ∧ '\n' ∉ s.toList

/-- An address field that survives the round trip: non-empty, inside the
formatter's address character class, and containing a monkey char. -/
def safeAddr (a : String) : Prop :=
  a ≠ "" ∧ a.toList.all dtextRegexChar = true ∧ '@' ∈ a.toList

/-- A display name that survives the round trip: either in the plain
class and equal to its trim, or quoted on output (some character outside
the plain class) with every character in the quotable class. -/
def safeName (n : String) : Prop :=
  (n.toList.all plainNameChar = true ∧ trimCopy n = n) ∨
  (n.toList.all plainNameChar = false ∧ n.toList.all qtextRegexChar = true)

/-- A top-level mailbox that survives the round trip. -/
def safeMailAddress (a : MailAddress) : Prop := safeName a.name ∧ safeAddr a.address

/-- A group member: plain trimmed name and a safe address. -/
def safePlainMember (a : MailAddress) : Prop :=
  a.name.toList.all plainNameChar = true ∧ trimCopy a.name = a.name ∧ safeAddr a.address

/-- The restriction the group-begin state imposes on the first member of
a group: an empty name, or a name of two or more characters whose second
character is not whitespace. -/
def safeFirstMember (g : MailGroup) : Prop :=
  match g.members with
  | [] => True
  | a :: _ =>
    a.name = "" ∨ ∃ c1 c2 t, a.name.toList = c1 :: c2 :: t ∧ isSpaceC c2 = false

/-- A group that survives the round trip. -/
def safeGroup (g : MailGroup) : Prop :=
  g.name ≠ "" ∧ g.name.toList.all groupNameChar = true ∧
  (∀ a ∈ g.members, safePlainMember a) ∧ safeFirstMember g

/-- A recipient collection that survives the round trip; the group-end
state additionally demands at least two characters of every group name
after the first. -/
def safeRecipients (R : Mailboxes) : Prop :=
  (∀ a ∈ R.addresses, safeMailAddress a) ∧
  (∀ g ∈ R.groups, safeGroup g) ∧
  (R.groups ≠ [] → R.addresses ≠ []) ∧
  (∀ g ∈ R.groups.tail, 2 ≤ g.name.toList.length)

/-- A set date-time representable by the underlying boost library: a
valid calendar date in boost's year span with an offset the `±HHMM`
rendering can carry. -/
def validDate : LocalDateTime → Prop
  | .notADateTime => False
  | .mk y mo d h mi s off =>
    1400 ≤ y ∧ y ≤ 9999 ∧ 1 ≤ mo ∧ mo ≤ 12 ∧ 1 ≤ d ∧ d ≤ daysInMonth y mo ∧
    h ≤ 23 ∧ mi ≤ 59 ∧ s ≤ 59 ∧ off.natAbs ≤ 5999

/-- The characters `format_address` emits before the closing angle
bracket for a safe name/address pair: the (possibly quoted) display name,
a space when the name is non-empty, and the bracketed address without its
final `>`. -/
def preChars (n a : String) : List Char :=
  (if n = "" then [] else
    if n.toList.all plainNameChar then n.toList ++ [' ']
    else dquote :: n.toList ++ [dquote, ' ']) ++ '<' :: a.toList

-- THEOREMS

@[simp] theorem eraseA_nil : eraseA [] = [] := rfl

@[simp] theorem eraseA_append (l1 l2 : List TAddr) :
    eraseA (l1 ++ l2) = eraseA l1 ++ eraseA l2 := List.map_append _ _ _

@[simp] theorem eraseA_singleton (a : TAddr) : eraseA [a] = [a.1] := rfl

@[simp] theorem eraseTS_mk (st ml gl ca cg mas mf gf tok ctr) :
    eraseTS ⟨st, ml, gl, ca, cg, mas, mf, gf, tok, ctr⟩ =
      ⟨st, eraseA ml, gl.map eraseGrp, ca, eraseGrp cg, eraseA mas, mf, gf, tok⟩ := rfl

@[simp] theorem eraseGrp_mk (n : String) (l : List TAddr) :
    eraseGrp (n, l) = ⟨n, eraseA l⟩ := rfl

theorem beginMainT_erase (s : TPalState) (c : Char) :
    (beginMainT s c).map eraseTS = beginMain (eraseTS s) c := by
  obtain ⟨st, ml, gl, ca, cg, mas, mf, gf, tok, ctr⟩ := s
  unfold beginMainT beginMain
  simp only [eraseTS_mk]
  split_ifs <;> simp [Except.map]

theorem beginLastT_erase (s : TPalState) :
    (beginLastT s).map eraseTS = beginLast (eraseTS s) := by
  obtain ⟨st, ml, gl, ca, cg, mas, mf, gf, tok, ctr⟩ := s
  cases st <;>
    (simp only [beginLastT, beginLast, eraseTS_mk]
     first
       | (split_ifs <;> simp [Except.map])
       | simp [Except.map]
       | rfl)

theorem nameAddrGrpMainT_erase (s : TPalState) (c : Char) :
    (nameAddrGrpMainT s c).map eraseTS = nameAddrGrpMain (eraseTS s) c := by
  obtain ⟨st, ml, gl, ca, cg, mas, mf, gf, tok, ctr⟩ := s
  unfold nameAddrGrpMainT nameAddrGrpMain
  simp only [eraseTS_mk]
  split_ifs <;> simp [Except.map, eraseGrp]

theorem nameAddrGrpLastT_erase (s : TPalState) :
    (nameAddrGrpLastT s).map eraseTS = nameAddrGrpLast (eraseTS s) := by
  obtain ⟨st, ml, gl, ca, cg, mas, mf, gf, tok, ctr⟩ := s
  cases st <;>
    (simp only [nameAddrGrpLastT, nameAddrGrpLast, eraseTS_mk]
     first
       | (split_ifs <;> simp [Except.map])
       | simp [Except.map]
       | rfl)

theorem nameMainT_erase (s : TPalState) (c : Char) :
    (nameMainT s c).map eraseTS = nameMain (eraseTS s) c := by
  obtain ⟨st, ml, gl, ca, cg, mas, mf, gf, tok, ctr⟩ := s
  unfold nameMainT nameMain
  simp only [eraseTS_mk]
  split_ifs <;> simp [Except.map]

theorem addrMainT_erase (s : TPalState) (c : Char) :
    (addrMainT s c).map eraseTS = addrMain (eraseTS s) c := by
  obtain ⟨st, ml, gl, ca, cg, mas, mf, gf, tok, ctr⟩ := s
  unfold addrMainT addrMain
  simp only [eraseTS_mk]
  split_ifs <;> simp [Except.map, MailGroup.add, MailGroup.clear, eraseGrp]

theorem addrLastT_erase (s : TPalState) :
    (addrLastT s).map eraseTS = addrLast (eraseTS s) := by
  obtain ⟨st, ml, gl, ca, cg, mas, mf, gf, tok, ctr⟩ := s
  cases st <;>
    (simp only [addrLastT, addrLast, eraseTS_mk]
     first
       | (split_ifs <;> simp [Except.map])
       | simp [Except.map]
       | rfl)

theorem qNameAddrBegMainT_erase (s : TPalState) (c : Char) :
    (qNameAddrBegMainT s c).map eraseTS = qNameAddrBegMain (eraseTS s) c := by
  obtain ⟨st, ml, gl, ca, cg, mas, mf, gf, tok, ctr⟩ := s
  unfold qNameAddrBegMainT qNameAddrBegMain
  simp only [eraseTS_mk]
  split_ifs <;> simp [Except.map]

theorem qNameAddrEndMainT_erase (s : TPalState) (c : Char) :
    (qNameAddrEndMainT s c).map eraseTS = qNameAddrEndMain (eraseTS s) c := by
  obtain ⟨st, ml, gl, ca, cg, mas, mf, gf, tok, ctr⟩ := s
  unfold qNameAddrEndMainT qNameAddrEndMain
  simp only [eraseTS_mk]
  split_ifs <;> simp [Except.map]

theorem addrBrBegMainT_erase (s : TPalState) (c : Char) :
    (addrBrBegMainT s c).map eraseTS = addrBrBegMain (eraseTS s) c := by
  obtain ⟨st, ml, gl, ca, cg, mas, mf, gf, tok, ctr⟩ := s
  unfold addrBrBegMainT addrBrBegMain
  simp only [eraseTS_mk]
  split_ifs <;> simp [Except.map, MailAddress.clear]

theorem addrBrBegLastT_erase (s : TPalState) :
    (addrBrBegLastT s).map eraseTS = addrBrBegLast (eraseTS s) := by
  obtain ⟨st, ml, gl, ca, cg, mas, mf, gf, tok, ctr⟩ := s
  cases st <;>
    (simp only [addrBrBegLastT, addrBrBegLast, eraseTS_mk]
     first
       | (split_ifs <;> simp [Except.map, MailGroup.add, eraseGrp])
       | simp [Except.map, MailGroup.add, eraseGrp]
       | rfl)

theorem addrBrEndMainT_erase (s : TPalState) (c : Char) :
    (addrBrEndMainT s c).map eraseTS = addrBrEndMain (eraseTS s) c := by
  obtain ⟨st, ml, gl, ca, cg, mas, mf, gf, tok, ctr⟩ := s
  unfold addrBrEndMainT addrBrEndMain
  simp only [eraseTS_mk]
  split_ifs <;> simp [Except.map, MailGroup.add, MailGroup.clear, eraseGrp]

theorem addrBrEndLastT_erase (s : TPalState) :
    (addrBrEndLastT s).map eraseTS = addrBrEndLast (eraseTS s) := by
  obtain ⟨st, ml, gl, ca, cg, mas, mf, gf, tok, ctr⟩ := s
  cases st <;>
    (simp only [addrBrEndLastT, addrBrEndLast, eraseTS_mk]
     first
       | (split_ifs <;> simp [Except.map])
       | simp [Except.map]
       | rfl)

theorem groupBegMainT_erase (s : TPalState) (c : Char) :
    (groupBegMainT s c).map eraseTS = groupBegMain (eraseTS s) c := by
  obtain ⟨st, ml, gl, ca, cg, mas, mf, gf, tok, ctr⟩ := s
  unfold groupBegMainT groupBegMain
  simp only [eraseTS_mk]
  split_ifs <;> simp [Except.map, MailGroup.add, MailGroup.clear, eraseGrp]

theorem groupBegLastT_erase (s : TPalState) :
    (groupBegLastT s).map eraseTS = groupBegLast (eraseTS s) := by
  obtain ⟨st, ml, gl, ca, cg, mas, mf, gf, tok, ctr⟩ := s
  cases st <;> simp [groupBegLastT, groupBegLast, Except.map]

theorem groupEndMainT_erase (s : TPalState) (c : Char) :
    (groupEndMainT s c).map eraseTS = groupEndMain (eraseTS s) c := by
  obtain ⟨st, ml, gl, ca, cg, mas, mf, gf, tok, ctr⟩ := s
  unfold groupEndMainT groupEndMain
  simp only [eraseTS_mk]
  split_ifs <;> simp [Except.map]

theorem groupEndLastT_erase (s : TPalState) :
    (groupEndLastT s).map eraseTS = groupEndLast (eraseTS s) := by
  obtain ⟨st, ml, gl, ca, cg, mas, mf, gf, tok, ctr⟩ := s
  cases st <;> simp [groupEndLastT, groupEndLast, Except.map]

theorem commBegMainT_erase (s : TPalState) (c : Char) :
    (commBegMainT s c).map eraseTS = commBegMain (eraseTS s) c := by
  obtain ⟨st, ml, gl, ca, cg, mas, mf, gf, tok, ctr⟩ := s
  unfold commBegMainT commBegMain
  simp only [eraseTS_mk]
  split_ifs <;> simp [Except.map]

theorem commEndMainT_erase (s : TPalState) (c : Char) :
    (commEndMainT s c).map eraseTS = commEndMain (eraseTS s) c := by
  obtain ⟨st, ml, gl, ca, cg, mas, mf, gf, tok, ctr⟩ := s
  unfold commEndMainT commEndMain
  simp only [eraseTS_mk]
  split_ifs <;> simp [Except.map]

/-- The tagged step erases to the source machine's step. -/
theorem tpalStep_erase (b : Bool) (s : TPalState) (c : Char) :
    (tpalStep b s c).map eraseTS = palStep b (eraseTS s) c := by
  have hst : (eraseTS s).st = s.st := rfl
  unfold tpalStep palStep
  rw [hst]
  cases s.st <;> simp only []
  case BEGIN =>
    rw [← beginMainT_erase]
    cases beginMainT s c <;> cases b <;>
      simp [Except.map, Except.bind, ← beginLastT_erase]
  case NAMEADDRGRP =>
    rw [← nameAddrGrpMainT_erase]
    cases nameAddrGrpMainT s c <;> cases b <;>
      simp [Except.map, Except.bind, ← nameAddrGrpLastT_erase]
  case NAME =>
    rw [← nameMainT_erase]
    cases nameMainT s c <;> cases b <;> simp [Except.map, Except.bind]
  case ADDR =>
    rw [← addrMainT_erase]
    cases addrMainT s c <;> cases b <;>
      simp [Except.map, Except.bind, ← addrLastT_erase]
  case QNAMEADDRBEG =>
    rw [← qNameAddrBegMainT_erase]
    cases qNameAddrBegMainT s c <;> cases b <;> simp [Except.map, Except.bind]
  case QNAMEADDREND =>
    rw [← qNameAddrEndMainT_erase]
    cases qNameAddrEndMainT s c <;> cases b <;> simp [Except.map, Except.bind]
  case ADDRBRBEG =>
    rw [← addrBrBegMainT_erase]
    cases addrBrBegMainT s c <;> cases b <;>
      simp [Except.map, Except.bind, ← addrBrBegLastT_erase]
  case ADDRBREND =>
    rw [← addrBrEndMainT_erase]
    cases addrBrEndMainT s c <;> cases b <;>
      simp [Except.map, Except.bind, ← addrBrEndLastT_erase]
  case GROUPBEG =>
    rw [← groupBegMainT_erase]
    cases groupBegMainT s c <;> cases b <;>
      simp [Except.map, Except.bind, ← groupBegLastT_erase]
  case GROUPEND =>
    rw [← groupEndMainT_erase]
    cases groupEndMainT s c <;> cases b <;>
      simp [Except.map, Except.bind, ← groupEndLastT_erase]
  case COMMBEG =>
    rw [← commBegMainT_erase]
    cases commBegMainT s c <;> simp [Except.map, Except.bind]
  case COMMEND =>
    rw [← commEndMainT_erase]
    cases commEndMainT s c <;> simp [Except.map, Except.bind]
  case EOL =>
    obtain ⟨st, ml, gl, ca, cg, mas, mf, gf, tok, ctr⟩ := s
    simp [Except.map]

/-- The tagged run erases to the source machine's run. -/
theorem tpalRun_erase (l : List Char) (s : TPalState) :
    (tpalRun s l).map eraseTS = palRun (eraseTS s) l := by
  induction l generalizing s with
  | nil => rfl
  | cons c rest ih =>
    cases rest with
    | nil => exact tpalStep_erase true s c
    | cons c2 rest2 =>
      show ((tpalStep false s c).bind (fun s1 => tpalRun s1 (c2 :: rest2))).map eraseTS =
        (palStep false (eraseTS s) c).bind (fun s1 => palRun s1 (c2 :: rest2))
      rw [← tpalStep_erase]
      cases tpalStep false s c with
      | error e => simp [Except.map, Except.bind]
      | ok s1 => simpa [Except.map, Except.bind] using ih s1

/-- C1: the claim says `attachment(k, ...)` for `k` beyond
`attachments_size()` fails with the index error and writes nothing. On a
message with exactly one attachment, index 0 errs and index 1 succeeds as
claimed, but index 2 returns normally — the loop counter can never exceed
the part count, so the final `no > _parts.size()` check never fires —
writing nothing to the stream and never assigning the filename. -/
theorem attachment_out_of_range_silently_succeeds :
    attachments_size oneAttachmentMsg = 1 ∧
    attachment oneAttachmentMsg 0 = .error noAttachmentMsg ∧
    attachment oneAttachmentMsg 1 = .ok ("PDFBYTES", some "report.pdf") ∧
    attachment oneAttachmentMsg 2 = .ok ("", none) :=
  ⟨rfl, rfl, rfl, rfl⟩

/-- C4: formatting a message whose boundary is non-empty while its
content type is not multipart fails with the structural error before any
text is appended: for every already-accumulated output the result is the
bare error, carrying no new output. -/
theorem format_nonmultipart_boundary_fails (m : Message) (msgStr : String)
    (de : Bool) (hb : m.boundary ≠ "") (ht : m.contentType.type ≠ .MULTIPART) :
    message_format m msgStr de = .error nonMultipartMsg := by
  unfold message_format format_header
  rw [if_pos ⟨hb, ht⟩]
  rfl

/-- Witness for C4 at a concrete text/plain message with boundary "B". -/
theorem format_nonmultipart_boundary_fails_witness :
    message_format { boundary := "B", contentType := ⟨.TEXT, "plain"⟩ } "already" true =
      .error nonMultipartMsg :=
  format_nonmultipart_boundary_fails _ "already" true (by decide) (by decide)

/-- C7: `"Thu, 17 Jul 2014 10:31:49 +0200 (CET)"` parses to day 17, July
2014, 10:31:49, offset +02:00 (120 minutes), the trailing comment
ignored; the single-digit day of `"Thu, 7 Jul 2014 10:31:49 +0200"` is
zero-padded in the rebuilt facet string before full parsing and yields
day 7 with the same remaining fields. -/
theorem parse_date_scenarios :
    parse_date "Thu, 17 Jul 2014 10:31:49 +0200 (CET)" = .ok (.mk 2014 7 17 10 31 49 120) ∧
    dateDttz "Thu, 7 Jul 2014 10:31:49 +0200" = some "Thu, 07 Jul 2014 10:31:49 +02:00" ∧
    parse_date "Thu, 7 Jul 2014 10:31:49 +0200" = .ok (.mk 2014 7 7 10 31 49 120) :=
  ⟨rfl, rfl, rfl⟩

/-- C3 counterexample: on text not matching the date shape the claim
expects the date-format error, but `parse_date` returns normally with the
not-a-date-time sentinel. -/
theorem parse_date_nonmatching_counterexample :
    dateRegexCaptures "not a date" = none ∧
    parse_date "not a date" = .ok .notADateTime :=
  ⟨rfl, rfl⟩

/-- C3 amended: text that does not match the regex shape yields the
not-a-date-time sentinel with no error; when the shape matches but the
underlying date computation fails, the failure is re-signaled as the one
date-format error, so no partial result is ever returned. -/
theorem parse_date_error_policy (s : String) :
    (dateDttz s = none → parse_date s = .ok .notADateTime) ∧
    (∀ d, dateDttz s = some d → facetParse d = none →
      parse_date s = .error badDateMsg) := by
  constructor
  · intro h
    simp [parse_date, h]
  · intro d hd hf
    simp [parse_date, hd, hf]

/-- Witness for C3 at two concrete inputs: a non-matching text and a
matching text whose underlying date parse fails (month `Xxx`). -/
theorem parse_date_error_policy_witness :
    parse_date "not a date" = .ok .notADateTime ∧
    parse_date "Xxx, 99 Xxx 9999 10:31:49 +0200" = .error badDateMsg :=
  ⟨(parse_date_error_policy "not a date").1 rfl,
   (parse_date_error_policy "Xxx, 99 Xxx 9999 10:31:49 +0200").2
     "Xxx, 99 Xxx 9999 10:31:49 +02:00" rfl rfl⟩

/-- C5 counterexample: the claim expects the grammar error when the
closing angle bracket is followed by a plain character; the parse instead
succeeds, silently ignoring the junk character. -/
theorem bracket_junk_counterexample :
    parse_address_list "<a@b>x" = .ok ⟨[⟨"", "a@b"⟩], []⟩ :=
  rfl

/-- C5 amended: in the bracket-end state a non-final character other than
whitespace, comma, semicolon and comment-start is silently ignored (the
machine state is entirely unchanged), rather than raising the grammar
error; a closing bracket reached with no monkey char seen inside the
brackets does fail with the grammar error, last character or not. -/
theorem bracket_end_policy (s s2 : PalState) (c : Char) (b : Bool)
    (hst : s.st = .ADDRBREND) (hsp : isSpaceC c = false)
    (hc1 : c ≠ ',') (hc2 : c ≠ ';') (hc3 : c ≠ '(')
    (hst2 : s2.st = .ADDRBRBEG) (hmk : s2.monkeyFound = false) :
    palStep false s c = .ok s ∧ palStep b s2 '>' = .error badAddrMsg := by
  constructor
  · simp [palStep, hst, addrBrEndMain, hsp, hc1, hc2, hc3, Except.bind]
  · have h1 : isAtextChar '>' = false := by decide
    cases b <;>
      simp [palStep, hst2, addrBrBegMain, h1, hmk, Except.bind]

/-- Witness for C5: the junk character `x` after a closed bracket leaves
the machine state untouched, and `>` with no monkey char errs. -/
theorem bracket_end_policy_witness :
    palStep false afterBracketSt 'x' = .ok afterBracketSt ∧
    palStep true inBracketSt '>' = .error badAddrMsg :=
  bracket_end_policy afterBracketSt inBracketSt 'x' true rfl rfl
    (by decide) (by decide) (by decide) rfl rfl

/-- C6 counterexample: the claim as stated says an address that is a
member of a parsed group never appears in the top-level address list; with
the same mailbox written once outside and once inside a group, the parsed
member value does appear top-level. -/
theorem group_member_value_counterexample :
    parse_address_list "ab@c, G: ab@c;" =
      .ok ⟨[⟨"", "ab@c"⟩], [⟨"G", [⟨"", "ab@c"⟩]⟩]⟩ ∧
    dupGroupParse.groups.getD 0 ⟨"", []⟩ = ⟨"G", [⟨"", "ab@c"⟩]⟩ ∧
    (⟨"", "ab@c"⟩ : MailAddress) ∈ dupGroupParse.addresses :=
  ⟨rfl, rfl, by decide⟩

/-- C8 counterexample: the claim says a reply address with a non-empty
address field (empty display name) makes `format_header` emit the
Reply-To header; the code tests only the name, so no Reply-To line is
emitted. -/
theorem replyto_empty_name_counterexample :
    emptyNameReplyMsg.replyAddress.address ≠ "" ∧
    format_header emptyNameReplyMsg = .ok emptyNameReplyHdr ∧
    hasSubstring emptyNameReplyHdr.toList REPLY_TO_HEADER.toList = false :=
  ⟨by decide, rfl, by decide⟩

/-- C8 amended: `format_header` emits the Reply-To line exactly when the
reply address's display name is non-empty (a non-empty address field with
an empty name does not trigger it), and the headers appear in the fixed
order From, Reply-To, To, Cc (only if non-empty), Bcc (only if
non-empty), Date (only if set: the not-a-date-time sentinel contributes
nothing), MIME-Version (only when the message has parts), collaborator
content headers, Subject, blank separator line. -/
theorem format_header_fixed_order (m : Message) (fS rS tS cS bS : String)
    (hb : ¬ (m.boundary ≠ "" ∧ m.contentType.type ≠ .MULTIPART))
    (hf : sender_to_string m = .ok fS)
    (hr : m.replyAddress.name ≠ "" → reply_address_to_string m = .ok rS)
    (ht : recipients_to_string m = .ok tS)
    (hc : mailboxesEmpty m.ccRecipients = false → cc_recipients_to_string m = .ok cS)
    (hbc : mailboxesEmpty m.bccRecipients = false → bcc_recipients_to_string m = .ok bS) :
    format_header m = .ok (
      "From" ++ COLON ++ fS ++ CRLF ++
      (if m.replyAddress.name = "" then "" else "Reply-To" ++ COLON ++ rS ++ CRLF) ++
      "To" ++ COLON ++ tS ++ CRLF ++
      (if mailboxesEmpty m.ccRecipients then "" else "Cc" ++ COLON ++ cS ++ CRLF) ++
      (if mailboxesEmpty m.bccRecipients then "" else "Bcc" ++ COLON ++ bS ++ CRLF) ++
      datePartOf m.dateTime ++
      (if m.parts.isEmpty then "" else "MIME-Version" ++ COLON ++ m.version ++ CRLF) ++
      mimeHeaderOf m.contentType m.encoding m.disposition m.attName m.boundary ++
      "Subject" ++ COLON ++ m.subject ++ CRLF ++ CRLF) ∧
    datePartOf .notADateTime = "" := by
  refine ⟨?_, rfl⟩
  have hrEq : (if m.replyAddress.name = "" then (.ok "" : Except String String)
      else (reply_address_to_string m).map (fun s => "Reply-To" ++ COLON ++ s ++ CRLF)) =
      .ok (if m.replyAddress.name = "" then "" else "Reply-To" ++ COLON ++ rS ++ CRLF) := by
    by_cases hn : m.replyAddress.name = ""
    · simp [hn]
    · simp [hn, hr hn, Except.map]
  have hcEq : (if mailboxesEmpty m.ccRecipients then (.ok "" : Except String String)
      else (cc_recipients_to_string m).map (fun s => "Cc" ++ COLON ++ s ++ CRLF)) =
      .ok (if mailboxesEmpty m.ccRecipients then "" else "Cc" ++ COLON ++ cS ++ CRLF) := by
    by_cases hcc : mailboxesEmpty m.ccRecipients
    · simp [hcc]
    · simp [hcc, hc (by simpa using hcc), Except.map]
  have hbcEq : (if mailboxesEmpty m.bccRecipients then (.ok "" : Except String String)
      else (bcc_recipients_to_string m).map (fun s => "Bcc" ++ COLON ++ s ++ CRLF)) =
      .ok (if mailboxesEmpty m.bccRecipients then "" else "Bcc" ++ COLON ++ bS ++ CRLF) := by
    by_cases hcc : mailboxesEmpty m.bccRecipients
    · simp [hcc]
    · simp [hcc, hbc (by simpa using hcc), Except.map]
  unfold format_header
  rw [if_neg hb, hf, hrEq, ht, hcEq, hbcEq]
  rfl

/-- Witness for C8 at a message with every conditional header present. -/
theorem format_header_fixed_order_witness :
    format_header orderedHdrMsg = .ok (
      "From" ++ COLON ++ "<s@x.io>" ++ CRLF ++
      (if orderedHdrMsg.replyAddress.name = "" then ""
       else "Reply-To" ++ COLON ++ "R <r@x.io>" ++ CRLF) ++
      "To" ++ COLON ++ "<t@x.io>" ++ CRLF ++
      (if mailboxesEmpty orderedHdrMsg.ccRecipients then ""
       else "Cc" ++ COLON ++ "<c@x.io>" ++ CRLF) ++
      (if mailboxesEmpty orderedHdrMsg.bccRecipients then ""
       else "Bcc" ++ COLON ++ "<b@x.io>" ++ CRLF) ++
      datePartOf orderedHdrMsg.dateTime ++
      (if orderedHdrMsg.parts.isEmpty then ""
       else "MIME-Version" ++ COLON ++ orderedHdrMsg.version ++ CRLF) ++
      mimeHeaderOf orderedHdrMsg.contentType orderedHdrMsg.encoding
        orderedHdrMsg.disposition orderedHdrMsg.attName orderedHdrMsg.boundary ++
      "Subject" ++ COLON ++ orderedHdrMsg.subject ++ CRLF ++ CRLF) ∧
    datePartOf .notADateTime = "" :=
  format_header_fixed_order orderedHdrMsg "<s@x.io>" "R <r@x.io>" "<t@x.io>"
    "<c@x.io>" "<b@x.io>" (by decide) rfl (fun _ => rfl) rfl
    (fun _ => rfl) (fun _ => rfl)

/-- C9 counterexample: the claim inserts an unconditional CRLF separator
between the message's own body content and the first boundary; with empty
content the code emits no separator, and the produced text differs from
the claimed shape. -/
theorem format_no_separator_counterexample :
    message_format_content emptyContentMultipartMsg false = "" ∧
    message_format emptyContentMultipartMsg "" false =
      .ok (emptyContentMultipartHdr ++ emptyContentMultipartBlock) ∧
    emptyContentMultipartHdr ++ emptyContentMultipartBlock ≠
      emptyContentMultipartHdr ++ CRLF ++ emptyContentMultipartBlock :=
  ⟨rfl, rfl, by decide⟩

/-- C9 amended: for every message with at least one child part whose
header formatting succeeds, `format` produces the header block, the
message's own content, a CRLF separator only when that content is
non-empty, then each child part in append order wrapped as
`--boundary CRLF child CRLF`, terminated by `--boundary-- CRLF`. -/
theorem format_multipart_layout (m : Message) (msgStr hdr : String) (de : Bool)
    (hp : m.parts ≠ []) (hh : format_header m = .ok hdr) :
    message_format m msgStr de =
      .ok (msgStr ++ hdr ++ message_format_content m de ++
        (if message_format_content m de = "" then "" else CRLF) ++
        String.join (m.parts.map (fun p =>
          "--" ++ m.boundary ++ CRLF ++ Mime.format de p ++ CRLF)) ++
        "--" ++ m.boundary ++ "--" ++ CRLF) := by
  unfold message_format
  rw [hh]
  have hne : m.parts.isEmpty = false := by
    cases hps : m.parts with
    | nil => exact absurd hps hp
    | cons a l => rfl
  simp only [Except.map, hne, Bool.false_eq_true, if_false]
  simp [String.append_assoc]

/-- Witness for C9 at the concrete multipart message with empty content. -/
theorem format_multipart_layout_witness :
    message_format emptyContentMultipartMsg "" false =
      .ok ("" ++ emptyContentMultipartHdr ++
        message_format_content emptyContentMultipartMsg false ++
        (if message_format_content emptyContentMultipartMsg false = "" then "" else CRLF) ++
        String.join (emptyContentMultipartMsg.parts.map (fun p =>
          "--" ++ emptyContentMultipartMsg.boundary ++ CRLF ++ Mime.format false p ++ CRLF)) ++
        "--" ++ emptyContentMultipartMsg.boundary ++ "--" ++ CRLF) :=
  format_multipart_layout emptyContentMultipartMsg "" emptyContentMultipartHdr false
    (by simp [emptyContentMultipartMsg]) rfl

/-- C10: `attach` preserves the sender, reply address, all recipient
collections, the subject and the date-time; appends exactly one part,
configured with the given content type, base64 encoding, attachment
disposition, filename and content; switches the content type to
multipart/mixed on every call; and replaces the boundary only when it was
empty, keeping a non-empty boundary unchanged. -/
theorem attach_frame_and_effects (m : Message) (b att nm : String)
    (ty : MediaTypeT) (st : String) :
    (attach m b att nm ty st).sender = m.sender ∧
    (attach m b att nm ty st).replyAddress = m.replyAddress ∧
    (attach m b att nm ty st).recipients = m.recipients ∧
    (attach m b att nm ty st).ccRecipients = m.ccRecipients ∧
    (attach m b att nm ty st).bccRecipients = m.bccRecipients ∧
    (attach m b att nm ty st).subject = m.subject ∧
    (attach m b att nm ty st).dateTime = m.dateTime ∧
    (attach m b att nm ty st).parts =
      m.parts ++ [Mime.mk ⟨ty, st⟩ .BASE_64 .ATTACHMENT nm att "" "1.0" []] ∧
    (attach m b att nm ty st).contentType = ⟨.MULTIPART, "mixed"⟩ ∧
    (attach m b att nm ty st).boundary = (if m.boundary = "" then b else m.boundary) :=
  ⟨rfl, rfl, rfl, rfl, rfl, rfl, rfl, rfl, rfl, rfl⟩

@[simp] theorem tagsA_nil : tagsA [] = [] := rfl

@[simp] theorem tagsA_append (l1 l2 : List TAddr) :
    tagsA (l1 ++ l2) = tagsA l1 ++ tagsA l2 := List.map_append _ _ _

@[simp] theorem tagsA_singleton (a : TAddr) : tagsA [a] = [a.2] := rfl

@[simp] theorem tagsG_nil : tagsG [] = [] := rfl

@[simp] theorem tagsG_append (l1 l2 : List TGroup) :
    tagsG (l1 ++ l2) = tagsG l1 ++ tagsG l2 := by
  simp [tagsG]

@[simp] theorem tagsG_singleton (g : TGroup) : tagsG [g] = tagsA g.2 := by
  simp [tagsG]

theorem tagsBelow_mono {n m : Nat} {l : List Nat} (h : n ≤ m)
    (hb : TagsBelow n l) : TagsBelow m l :=
  fun t ht => lt_of_lt_of_le (hb t ht) h

theorem tagsBelow_append {n : Nat} {l1 l2 : List Nat}
    (h1 : TagsBelow n l1) (h2 : TagsBelow n l2) : TagsBelow n (l1 ++ l2) := by
  intro t ht
  rcases List.mem_append.mp ht with h | h
  · exact h1 t h
  · exact h2 t h

@[simp] theorem tagsBelow_nil {n : Nat} : TagsBelow n [] :=
  fun t ht => absurd ht (List.not_mem_nil t)

theorem tagsBelow_single {n t : Nat} (h : t < n) : TagsBelow n [t] := by
  intro u hu
  rcases List.mem_singleton.mp hu with rfl
  exact h

theorem tagsBelow_notMem {n : Nat} {l : List Nat} (h : TagsBelow n l) : n ∉ l :=
  fun hm => lt_irrefl n (h n hm)

theorem disjAppL {l1 l2 l : List Nat} (h1 : l1.Disjoint l) (h2 : l2.Disjoint l) :
    (l1 ++ l2).Disjoint l := by
  intro a ha
  rcases List.mem_append.mp ha with h | h
  · exact h1 h
  · exact h2 h

theorem disjAppR {l l1 l2 : List Nat} (h1 : l.Disjoint l1) (h2 : l.Disjoint l2) :
    l.Disjoint (l1 ++ l2) := by
  intro a ha hb
  rcases List.mem_append.mp hb with h | h
  · exact h1 ha h
  · exact h2 ha h

theorem disjSingR {l : List Nat} {a : Nat} (h : a ∉ l) : l.Disjoint [a] := by
  intro x hx hy
  rcases List.mem_singleton.mp hy with rfl
  exact h hx

theorem disjSingL {l : List Nat} {a : Nat} (h : a ∉ l) : List.Disjoint [a] l := by
  intro x hx
  rcases List.mem_singleton.mp hx with rfl
  exact fun hy => h hy

@[simp] theorem disjNilL {l : List Nat} : List.Disjoint ([] : List Nat) l :=
  fun a ha => absurd ha (List.not_mem_nil a)

@[simp] theorem disjNilR {l : List Nat} : l.Disjoint ([] : List Nat) :=
  fun _ _ hb => absurd hb (List.not_mem_nil _)

/-- The initial tagged state satisfies the invariant. -/
theorem TInv_init : TInv initTPalState := by
  refine ⟨?_, ?_, ?_, ?_, ?_, ?_, ?_, ?_, ?_⟩ <;>
    simp [initTPalState, tagsG]

theorem beginMainT_inv {s s1 : TPalState} {c : Char} (hst : s.st = .BEGIN)
    (hinv : TInv s) (heq : beginMainT s c = .ok s1) : TInv s1 := by
  obtain ⟨h1, h2, h3, h4, h5, h6, h7, h8, h9⟩ := hinv
  have hd : List.Disjoint (tagsA s.mailList) (tagsA s.mailAddrs) :=
    h9 (by simp [hst]) (by simp [hst])
  unfold beginMainT at heq
  split_ifs at heq <;>
    first
      | exact Except.noConfusion heq
      | (injection heq with h; subst h;
         exact ⟨h1, h2, h3, h4, h5, h6, h7, h8, fun _ _ => hd⟩)

theorem nameMainT_inv {s s1 : TPalState} {c : Char} (hst : s.st = .NAME)
    (hinv : TInv s) (heq : nameMainT s c = .ok s1) : TInv s1 := by
  obtain ⟨h1, h2, h3, h4, h5, h6, h7, h8, h9⟩ := hinv
  have hd : List.Disjoint (tagsA s.mailList) (tagsA s.mailAddrs) :=
    h9 (by simp [hst]) (by simp [hst])
  unfold nameMainT at heq
  split_ifs at heq <;>
    first
      | exact Except.noConfusion heq
      | (injection heq with h; subst h;
         exact ⟨h1, h2, h3, h4, h5, h6, h7, h8, fun _ _ => hd⟩)

theorem qNameAddrBegMainT_inv {s s1 : TPalState} {c : Char}
    (hst : s.st = .QNAMEADDRBEG) (hinv : TInv s)
    (heq : qNameAddrBegMainT s c = .ok s1) : TInv s1 := by
  obtain ⟨h1, h2, h3, h4, h5, h6, h7, h8, h9⟩ := hinv
  have hd : List.Disjoint (tagsA s.mailList) (tagsA s.mailAddrs) :=
    h9 (by simp [hst]) (by simp [hst])
  unfold qNameAddrBegMainT at heq
  split_ifs at heq <;>
    first
      | exact Except.noConfusion heq
      | (injection heq with h; subst h;
         exact ⟨h1, h2, h3, h4, h5, h6, h7, h8, fun _ _ => hd⟩)

theorem qNameAddrEndMainT_inv {s s1 : TPalState} {c : Char}
    (hst : s.st = .QNAMEADDREND) (hinv : TInv s)
    (heq : qNameAddrEndMainT s c = .ok s1) : TInv s1 := by
  obtain ⟨h1, h2, h3, h4, h5, h6, h7, h8, h9⟩ := hinv
  have hd : List.Disjoint (tagsA s.mailList) (tagsA s.mailAddrs) :=
    h9 (by simp [hst]) (by simp [hst])
  unfold qNameAddrEndMainT at heq
  split_ifs at heq <;>
    first
      | exact Except.noConfusion heq
      | (injection heq with h; subst h;
         exact ⟨h1, h2, h3, h4, h5, h6, h7, h8, fun _ _ => hd⟩)

theorem commBegMainT_inv {s s1 : TPalState} {c : Char}
    (hinv : TInv s) (heq : commBegMainT s c = .ok s1) : TInv s1 := by
  obtain ⟨h1, h2, h3, h4, h5, h6, h7, h8, h9⟩ := hinv
  unfold commBegMainT at heq
  split_ifs at heq <;>
    first
      | exact Except.noConfusion heq
      | (injection heq with h; subst h;
         exact ⟨h1, h2, h3, h4, h5, h6, h7, h8, h9⟩)
      | (injection heq with h; subst h;
         exact ⟨h1, h2, h3, h4, h5, h6, h7, h8, fun _ hne => absurd rfl hne⟩)

theorem commEndMainT_inv {s s1 : TPalState} {c : Char}
    (hinv : TInv s) (heq : commEndMainT s c = .ok s1) : TInv s1 := by
  obtain ⟨h1, h2, h3, h4, h5, h6, h7, h8, h9⟩ := hinv
  unfold commEndMainT at heq
  split_ifs at heq <;>
    first
      | exact Except.noConfusion heq
      | (injection heq with h; subst h;
         exact ⟨h1, h2, h3, h4, h5, h6, h7, h8, h9⟩)

theorem groupEndMainT_inv {s s1 : TPalState} {c : Char}
    (hst : s.st = .GROUPEND) (hinv : TInv s)
    (heq : groupEndMainT s c = .ok s1) : TInv s1 := by
  obtain ⟨h1, h2, h3, h4, h5, h6, h7, h8, h9⟩ := hinv
  have hd : List.Disjoint (tagsA s.mailList) (tagsA s.mailAddrs) :=
    h9 (by simp [hst]) (by simp [hst])
  unfold groupEndMainT at heq
  split_ifs at heq <;>
    first
      | exact Except.noConfusion heq
      | (injection heq with h; subst h;
         exact ⟨h1, h2, h3, h4, h5, h6, h7, h8, fun _ _ => hd⟩)
      | (injection heq with h; subst h;
         exact ⟨h1, h2, h3, h4, h5, h6, h7, h8, fun hne _ => absurd rfl hne⟩)

theorem belowSnoc {n : Nat} {l : List Nat} (h : TagsBelow n l) :
    TagsBelow (n + 1) (l ++ [n]) :=
  tagsBelow_append (tagsBelow_mono (Nat.le_succ _) h) (tagsBelow_single (Nat.lt_succ_self _))

theorem below3 {n : Nat} {a b c : List Nat} (ha : TagsBelow n a) (hb : TagsBelow n b)
    (hc : TagsBelow (n + 1) c) : TagsBelow (n + 1) (a ++ (b ++ c)) :=
  tagsBelow_append (tagsBelow_mono (Nat.le_succ _) ha)
    (tagsBelow_append (tagsBelow_mono (Nat.le_succ _) hb) hc)

theorem disjSnocL {l1 l2 : List Nat} {n : Nat} (h : l1.Disjoint l2) (hn : n ∉ l2) :
    (l1 ++ [n]).Disjoint l2 := disjAppL h (disjSingL hn)

theorem disjSnocR {l1 l2 : List Nat} {n : Nat} (h : l1.Disjoint l2) (hn : n ∉ l1) :
    l1.Disjoint (l2 ++ [n]) := disjAppR h (disjSingR hn)

theorem disj3R {l a b c : List Nat} (ha : l.Disjoint a) (hb : l.Disjoint b)
    (hc : l.Disjoint c) : l.Disjoint (a ++ (b ++ c)) := disjAppR ha (disjAppR hb hc)

theorem nameAddrGrpMainT_inv {s s1 : TPalState} {c : Char}
    (hst : s.st = .NAMEADDRGRP) (hinv : TInv s)
    (heq : nameAddrGrpMainT s c = .ok s1) : TInv s1 := by
  obtain ⟨h1, h2, h3, h4, h5, h6, h7, h8, h9⟩ := hinv
  have hd : List.Disjoint (tagsA s.mailList) (tagsA s.mailAddrs) :=
    h9 (by simp [hst]) (by simp [hst])
  unfold nameAddrGrpMainT at heq
  split_ifs at heq <;>
    first
      | exact Except.noConfusion heq
      | (injection heq with h; subst h
         first
           | exact ⟨h1, h2, h3, h4, h5, h6, h7, h8, fun _ _ => hd⟩
           | exact ⟨tagsBelow_mono (Nat.le_succ _) h1, tagsBelow_mono (Nat.le_succ _) h2,
               tagsBelow_mono (Nat.le_succ _) h3, by simpa using belowSnoc h4, h5, h6,
               by simpa using disjSnocL h7 (tagsBelow_notMem h2),
               by simpa using disjSnocL h8 (tagsBelow_notMem h3),
               fun _ _ => by simpa using disjSnocR hd (tagsBelow_notMem h1)⟩
           | exact ⟨by simpa using tagsBelow_append h1 h4, h2, h3, by simp,
               by simpa using disjAppL h5 h7, by simpa using disjAppL h6 h8,
               by simp, by simp, fun _ _ => by simp⟩)

theorem addrMainT_inv {s s1 : TPalState} {c : Char}
    (hst : s.st = .ADDR) (hinv : TInv s)
    (heq : addrMainT s c = .ok s1) : TInv s1 := by
  obtain ⟨h1, h2, h3, h4, h5, h6, h7, h8, h9⟩ := hinv
  have hd : List.Disjoint (tagsA s.mailList) (tagsA s.mailAddrs) :=
    h9 (by simp [hst]) (by simp [hst])
  unfold addrMainT at heq
  split_ifs at heq <;>
    first
      | exact Except.noConfusion heq
      | (injection heq with h; subst h
         first
           | exact ⟨h1, h2, h3, h4, h5, h6, h7, h8, fun _ _ => hd⟩
           | exact ⟨tagsBelow_mono (Nat.le_succ _) h1, tagsBelow_mono (Nat.le_succ _) h2,
               tagsBelow_mono (Nat.le_succ _) h3, by simpa using belowSnoc h4, h5, h6,
               by simpa using disjSnocL h7 (tagsBelow_notMem h2),
               by simpa using disjSnocL h8 (tagsBelow_notMem h3),
               fun _ _ => by simpa using disjSnocR hd (tagsBelow_notMem h1)⟩
           | exact ⟨tagsBelow_mono (Nat.le_succ _) h1,
               by simpa using below3 h2 h3 (belowSnoc h4), by simp, by simp,
               by simpa using disj3R h5 h6 (disjSnocR hd (tagsBelow_notMem h1)),
               by simp, by simp, by simp, fun _ _ => by simp⟩
           | exact ⟨by simpa using tagsBelow_append (tagsBelow_mono (Nat.le_succ _) h1) (belowSnoc h4),
               tagsBelow_mono (Nat.le_succ _) h2, tagsBelow_mono (Nat.le_succ _) h3,
               by simpa using belowSnoc h4,
               by simpa using disjAppL h5 (disjSnocL h7 (tagsBelow_notMem h2)),
               by simpa using disjAppL h6 (disjSnocL h8 (tagsBelow_notMem h3)),
               by simpa using disjSnocL h7 (tagsBelow_notMem h2),
               by simpa using disjSnocL h8 (tagsBelow_notMem h3),
               fun hne _ => absurd rfl hne⟩)

theorem addrBrBegMainT_inv {s s1 : TPalState} {c : Char}
    (hst : s.st = .ADDRBRBEG) (hinv : TInv s)
    (heq : addrBrBegMainT s c = .ok s1) : TInv s1 := by
  obtain ⟨h1, h2, h3, h4, h5, h6, h7, h8, h9⟩ := hinv
  have hd : List.Disjoint (tagsA s.mailList) (tagsA s.mailAddrs) :=
    h9 (by simp [hst]) (by simp [hst])
  unfold addrBrBegMainT at heq
  split_ifs at heq <;>
    first
      | exact Except.noConfusion heq
      | (injection heq with h; subst h
         first
           | exact ⟨h1, h2, h3, h4, h5, h6, h7, h8, fun _ _ => hd⟩
           | exact ⟨tagsBelow_mono (Nat.le_succ _) h1, tagsBelow_mono (Nat.le_succ _) h2,
               tagsBelow_mono (Nat.le_succ _) h3, by simpa using belowSnoc h4, h5, h6,
               by simpa using disjSnocL h7 (tagsBelow_notMem h2),
               by simpa using disjSnocL h8 (tagsBelow_notMem h3),
               fun _ _ => by simpa using disjSnocR hd (tagsBelow_notMem h1)⟩)

theorem addrBrEndMainT_inv {s s1 : TPalState} {c : Char}
    (hst : s.st = .ADDRBREND) (hinv : TInv s)
    (heq : addrBrEndMainT s c = .ok s1) : TInv s1 := by
  obtain ⟨h1, h2, h3, h4, h5, h6, h7, h8, h9⟩ := hinv
  have hd : List.Disjoint (tagsA s.mailList) (tagsA s.mailAddrs) :=
    h9 (by simp [hst]) (by simp [hst])
  unfold addrBrEndMainT at heq
  split_ifs at heq <;>
    first
      | exact Except.noConfusion heq
      | (injection heq with h; subst h
         first
           | exact ⟨h1, h2, h3, h4, h5, h6, h7, h8, fun _ _ => hd⟩
           | exact ⟨h1, by simpa using tagsBelow_append h2 (tagsBelow_append h3 h4),
               by simp, by simp, by simpa using disj3R h5 h6 hd,
               by simp, by simp, by simp, fun _ _ => by simp⟩
           | exact ⟨by simpa using tagsBelow_append h1 h4, h2, h3, h4,
               by simpa using disjAppL h5 h7, by simpa using disjAppL h6 h8, h7, h8,
               fun hne _ => absurd rfl hne⟩)

theorem groupBegMainT_inv {s s1 : TPalState} {c : Char}
    (hst : s.st = .GROUPBEG) (hinv : TInv s)
    (heq : groupBegMainT s c = .ok s1) : TInv s1 := by
  obtain ⟨h1, h2, h3, h4, h5, h6, h7, h8, h9⟩ := hinv
  have hd : List.Disjoint (tagsA s.mailList) (tagsA s.mailAddrs) :=
    h9 (by simp [hst]) (by simp [hst])
  unfold groupBegMainT at heq
  split_ifs at heq <;>
    first
      | exact Except.noConfusion heq
      | (injection heq with h; subst h
         first
           | exact ⟨h1, h2, h3, h4, h5, h6, h7, h8, fun _ _ => hd⟩
           | exact ⟨h1, by simpa using tagsBelow_append h2 (tagsBelow_append h3 h4),
               by simp, by simp, by simpa using disj3R h5 h6 hd,
               by simp, by simp, by simp, fun _ _ => by simp⟩)

theorem beginLastT_disj {s s2 : TPalState} (hinv : TInv s)
    (heq : beginLastT s = .ok s2) :
    List.Disjoint (tagsA s2.mailList) (tagsG s2.groupList) := by
  obtain ⟨st, ml, gl, ca, cg, mas, mf, gf, tok, ctr⟩ := s
  obtain ⟨h1, h2, h3, h4, h5, h6, h7, h8, h9⟩ := hinv
  cases st <;> simp only [beginLastT, Except.ok.injEq] at heq <;>
    first
      | exact Except.noConfusion heq
      | (subst heq; exact h5)
      | (split_ifs at heq <;>
         first
           | exact Except.noConfusion heq
           | (injection heq with h; subst h
              first
                | exact h5
                | simpa using disjSnocL h5 (tagsBelow_notMem h2)))

theorem nameAddrGrpLastT_disj {s s2 : TPalState} (hinv : TInv s)
    (heq : nameAddrGrpLastT s = .ok s2) :
    List.Disjoint (tagsA s2.mailList) (tagsG s2.groupList) := by
  obtain ⟨st, ml, gl, ca, cg, mas, mf, gf, tok, ctr⟩ := s
  obtain ⟨h1, h2, h3, h4, h5, h6, h7, h8, h9⟩ := hinv
  cases st <;> simp only [nameAddrGrpLastT, Except.ok.injEq] at heq <;>
    first
      | exact Except.noConfusion heq
      | (subst heq; exact h5)
      | (split_ifs at heq <;>
         first
           | exact Except.noConfusion heq
           | (injection heq with h; subst h
              first
                | exact h5
                | simpa using disjAppL h5 (disjSnocL h7 (tagsBelow_notMem h2))
                | simpa using disjAppL h5 h7))

theorem addrLastT_disj {s s2 : TPalState} (hinv : TInv s)
    (heq : addrLastT s = .ok s2) :
    List.Disjoint (tagsA s2.mailList) (tagsG s2.groupList) := by
  obtain ⟨st, ml, gl, ca, cg, mas, mf, gf, tok, ctr⟩ := s
  obtain ⟨h1, h2, h3, h4, h5, h6, h7, h8, h9⟩ := hinv
  cases st <;> simp only [addrLastT, Except.ok.injEq] at heq <;>
    first
      | exact Except.noConfusion heq
      | (subst heq; exact h5)
      | (split_ifs at heq <;>
         first
           | exact Except.noConfusion heq
           | (injection heq with h; subst h
              first
                | exact h5
                | simpa using disjAppL h5 (disjSnocL h7 (tagsBelow_notMem h2))
                | simpa using disjAppL h5 h7))

theorem addrBrBegLastT_disj {s s2 : TPalState} (hinv : TInv s)
    (heq : addrBrBegLastT s = .ok s2) :
    List.Disjoint (tagsA s2.mailList) (tagsG s2.groupList) := by
  obtain ⟨st, ml, gl, ca, cg, mas, mf, gf, tok, ctr⟩ := s
  obtain ⟨h1, h2, h3, h4, h5, h6, h7, h8, h9⟩ := hinv
  cases st <;> simp only [addrBrBegLastT, Except.ok.injEq] at heq <;>
    first
      | exact Except.noConfusion heq
      | (subst heq; exact h5)
      | (split_ifs at heq <;>
         (injection heq with h; subst h
          first
            | simpa using disj3R h5 h6 (h9 (by simp) (by simp))
            | simpa using disjAppL h5 h7))

theorem addrBrEndLastT_disj {s s2 : TPalState} (hinv : TInv s)
    (heq : addrBrEndLastT s = .ok s2) :
    List.Disjoint (tagsA s2.mailList) (tagsG s2.groupList) := by
  obtain ⟨st, ml, gl, ca, cg, mas, mf, gf, tok, ctr⟩ := s
  obtain ⟨h1, h2, h3, h4, h5, h6, h7, h8, h9⟩ := hinv
  cases st <;> simp only [addrBrEndLastT, Except.ok.injEq] at heq <;>
    first
      | exact Except.noConfusion heq
      | (subst heq; exact h5)
      | (split_ifs at heq <;>
         first
           | exact Except.noConfusion heq
           | (injection heq with h; subst h
              first
                | exact h5
                | simpa using disjAppL h5 h7))

theorem groupBegLastT_disj {s s2 : TPalState} (hinv : TInv s)
    (heq : groupBegLastT s = .ok s2) :
    List.Disjoint (tagsA s2.mailList) (tagsG s2.groupList) := by
  obtain ⟨st, ml, gl, ca, cg, mas, mf, gf, tok, ctr⟩ := s
  obtain ⟨h1, h2, h3, h4, h5, h6, h7, h8, h9⟩ := hinv
  cases st <;> simp only [groupBegLastT, Except.ok.injEq] at heq <;>
    first
      | exact Except.noConfusion heq
      | (subst heq; exact h5)

theorem groupEndLastT_disj {s s2 : TPalState} (hinv : TInv s)
    (heq : groupEndLastT s = .ok s2) :
    List.Disjoint (tagsA s2.mailList) (tagsG s2.groupList) := by
  obtain ⟨st, ml, gl, ca, cg, mas, mf, gf, tok, ctr⟩ := s
  obtain ⟨h1, h2, h3, h4, h5, h6, h7, h8, h9⟩ := hinv
  cases st <;> simp only [groupEndLastT, Except.ok.injEq] at heq <;>
    first
      | exact Except.noConfusion heq
      | (subst heq; exact h5)

/-- A non-final step of the tagged machine preserves the invariant. -/
theorem tpalStep_inv {s s1 : TPalState} {c : Char} (hinv : TInv s)
    (heq : tpalStep false s c = .ok s1) : TInv s1 := by
  unfold tpalStep at heq
  cases hst : s.st <;> rw [hst] at heq
  case BEGIN =>
    cases hb : beginMainT s c with
    | error e => simp [hb, Except.bind] at heq
    | ok a =>
      simp only [hb, Except.bind, Bool.false_eq_true, if_false, Except.ok.injEq] at heq
      subst heq
      exact beginMainT_inv hst hinv hb
  case NAMEADDRGRP =>
    cases hb : nameAddrGrpMainT s c with
    | error e => simp [hb, Except.bind] at heq
    | ok a =>
      simp only [hb, Except.bind, Bool.false_eq_true, if_false, Except.ok.injEq] at heq
      subst heq
      exact nameAddrGrpMainT_inv hst hinv hb
  case NAME =>
    cases hb : nameMainT s c with
    | error e => simp [hb, Except.bind] at heq
    | ok a =>
      simp only [hb, Except.bind, Bool.false_eq_true, if_false, Except.ok.injEq] at heq
      subst heq
      exact nameMainT_inv hst hinv hb
  case ADDR =>
    cases hb : addrMainT s c with
    | error e => simp [hb, Except.bind] at heq
    | ok a =>
      simp only [hb, Except.bind, Bool.false_eq_true, if_false, Except.ok.injEq] at heq
      subst heq
      exact addrMainT_inv hst hinv hb
  case QNAMEADDRBEG =>
    cases hb : qNameAddrBegMainT s c with
    | error e => simp [hb, Except.bind] at heq
    | ok a =>
      simp only [hb, Except.bind, Bool.false_eq_true, if_false, Except.ok.injEq] at heq
      subst heq
      exact qNameAddrBegMainT_inv hst hinv hb
  case QNAMEADDREND =>
    cases hb : qNameAddrEndMainT s c with
    | error e => simp [hb, Except.bind] at heq
    | ok a =>
      simp only [hb, Except.bind, Bool.false_eq_true, if_false, Except.ok.injEq] at heq
      subst heq
      exact qNameAddrEndMainT_inv hst hinv hb
  case ADDRBRBEG =>
    cases hb : addrBrBegMainT s c with
    | error e => simp [hb, Except.bind] at heq
    | ok a =>
      simp only [hb, Except.bind, Bool.false_eq_true, if_false, Except.ok.injEq] at heq
      subst heq
      exact addrBrBegMainT_inv hst hinv hb
  case ADDRBREND =>
    cases hb : addrBrEndMainT s c with
    | error e => simp [hb, Except.bind] at heq
    | ok a =>
      simp only [hb, Except.bind, Bool.false_eq_true, if_false, Except.ok.injEq] at heq
      subst heq
      exact addrBrEndMainT_inv hst hinv hb
  case GROUPBEG =>
    cases hb : groupBegMainT s c with
    | error e => simp [hb, Except.bind] at heq
    | ok a =>
      simp only [hb, Except.bind, Bool.false_eq_true, if_false, Except.ok.injEq] at heq
      subst heq
      exact groupBegMainT_inv hst hinv hb
  case GROUPEND =>
    cases hb : groupEndMainT s c with
    | error e => simp [hb, Except.bind] at heq
    | ok a =>
      simp only [hb, Except.bind, Bool.false_eq_true, if_false, Except.ok.injEq] at heq
      subst heq
      exact groupEndMainT_inv hst hinv hb
  case COMMBEG =>
    cases hb : commBegMainT s c with
    | error e => simp [hb, Except.bind] at heq
    | ok a =>
      simp only [hb, Except.bind, Except.ok.injEq] at heq
      subst heq
      exact commBegMainT_inv hinv hb
  case COMMEND =>
    cases hb : commEndMainT s c with
    | error e => simp [hb, Except.bind] at heq
    | ok a =>
      simp only [hb, Except.bind, Except.ok.injEq] at heq
      subst heq
      exact commEndMainT_inv hinv hb
  case EOL =>
    simp only [Except.ok.injEq] at heq
    subst heq
    obtain ⟨h1, h2, h3, h4, h5, h6, h7, h8, h9⟩ := hinv
    have hd : List.Disjoint (tagsA s.mailList) (tagsA s.mailAddrs) :=
      h9 (by simp [hst]) (by simp [hst])
    exact ⟨tagsBelow_mono (Nat.le_succ _) h1, tagsBelow_mono (Nat.le_succ _) h2,
      tagsBelow_mono (Nat.le_succ _) h3, by simpa using belowSnoc h4, h5, h6,
      by simpa using disjSnocL h7 (tagsBelow_notMem h2),
      by simpa using disjSnocL h8 (tagsBelow_notMem h3),
      fun _ _ => by simpa using disjSnocR hd (tagsBelow_notMem h1)⟩

/-- The final step of the tagged machine yields disjoint top-level and
group-member tag sets. -/
theorem tpalStep_last_disj {s s2 : TPalState} {c : Char} (hinv : TInv s)
    (heq : tpalStep true s c = .ok s2) :
    List.Disjoint (tagsA s2.mailList) (tagsG s2.groupList) := by
  unfold tpalStep at heq
  cases hst : s.st <;> rw [hst] at heq
  case BEGIN =>
    cases hb : beginMainT s c with
    | error e => simp [hb, Except.bind] at heq
    | ok a =>
      simp only [hb, Except.bind, if_true] at heq
      exact beginLastT_disj (beginMainT_inv hst hinv hb) heq
  case NAMEADDRGRP =>
    cases hb : nameAddrGrpMainT s c with
    | error e => simp [hb, Except.bind] at heq
    | ok a =>
      simp only [hb, Except.bind, if_true] at heq
      exact nameAddrGrpLastT_disj (nameAddrGrpMainT_inv hst hinv hb) heq
  case NAME =>
    cases hb : nameMainT s c with
    | error e => simp [hb, Except.bind] at heq
    | ok a => simp [hb, Except.bind] at heq
  case ADDR =>
    cases hb : addrMainT s c with
    | error e => simp [hb, Except.bind] at heq
    | ok a =>
      simp only [hb, Except.bind, if_true] at heq
      exact addrLastT_disj (addrMainT_inv hst hinv hb) heq
  case QNAMEADDRBEG =>
    cases hb : qNameAddrBegMainT s c with
    | error e => simp [hb, Except.bind] at heq
    | ok a => simp [hb, Except.bind] at heq
  case QNAMEADDREND =>
    cases hb : qNameAddrEndMainT s c with
    | error e => simp [hb, Except.bind] at heq
    | ok a => simp [hb, Except.bind] at heq
  case ADDRBRBEG =>
    cases hb : addrBrBegMainT s c with
    | error e => simp [hb, Except.bind] at heq
    | ok a =>
      simp only [hb, Except.bind, if_true] at heq
      exact addrBrBegLastT_disj (addrBrBegMainT_inv hst hinv hb) heq
  case ADDRBREND =>
    cases hb : addrBrEndMainT s c with
    | error e => simp [hb, Except.bind] at heq
    | ok a =>
      simp only [hb, Except.bind, if_true] at heq
      exact addrBrEndLastT_disj (addrBrEndMainT_inv hst hinv hb) heq
  case GROUPBEG =>
    cases hb : groupBegMainT s c with
    | error e => simp [hb, Except.bind] at heq
    | ok a =>
      simp only [hb, Except.bind, if_true] at heq
      exact groupBegLastT_disj (groupBegMainT_inv hst hinv hb) heq
  case GROUPEND =>
    cases hb : groupEndMainT s c with
    | error e => simp [hb, Except.bind] at heq
    | ok a =>
      simp only [hb, Except.bind, if_true] at heq
      exact groupEndLastT_disj (groupEndMainT_inv hst hinv hb) heq
  case COMMBEG =>
    cases hb : commBegMainT s c with
    | error e => simp [hb, Except.bind] at heq
    | ok a =>
      simp only [hb, Except.bind, Except.ok.injEq] at heq
      subst heq
      exact (commBegMainT_inv hinv hb).2.2.2.2.1
  case COMMEND =>
    cases hb : commEndMainT s c with
    | error e => simp [hb, Except.bind] at heq
    | ok a =>
      simp only [hb, Except.bind, Except.ok.injEq] at heq
      subst heq
      exact (commEndMainT_inv hinv hb).2.2.2.2.1
  case EOL =>
    simp only [Except.ok.injEq] at heq
    subst heq
    exact hinv.2.2.2.2.1

/-- A successful run of the tagged machine from an invariant state ends
with disjoint top-level and group-member tag sets. -/
theorem tpalRun_disj (l : List Char) :
    ∀ s ts2 : TPalState, TInv s → tpalRun s l = .ok ts2 →
      List.Disjoint (tagsA ts2.mailList) (tagsG ts2.groupList) := by
  induction l with
  | nil =>
    intro s ts2 hinv heq
    simp only [tpalRun, Except.ok.injEq] at heq
    subst heq
    exact hinv.2.2.2.2.1
  | cons c rest ih =>
    intro s ts2 hinv heq
    cases rest with
    | nil => exact tpalStep_last_disj hinv heq
    | cons c2 rest2 =>
      have heq2 : (tpalStep false s c).bind (fun s1 => tpalRun s1 (c2 :: rest2)) =
          .ok ts2 := heq
      cases hb : tpalStep false s c with
      | error e => rw [hb] at heq2; exact Except.noConfusion heq2
      | ok a =>
        rw [hb] at heq2
        simp only [Except.bind] at heq2
        exact ih a ts2 (tpalStep_inv hinv hb) heq2

/-- C6 amended: each parsed address occurrence is stored exactly once:
running the occurrence-tagged variant of the machine (which erases to the
source machine, first conjunct), the tags of the top-level addresses and
the tags of all group members are disjoint, so an occurrence stored as a
group member is never also stored top-level (equal-valued addresses from
distinct occurrences may still appear in both places); in particular
`"Friends: Alice <alice@x.io>, bob@x.io;"` parses to one group named
Friends with the two members and zero top-level addresses. -/
theorem group_member_occurrence_exclusive (input : String) (ts : TPalState)
    (h : tpalRun initTPalState input.toList = .ok ts) :
    parse_address_list input = .ok ⟨eraseA ts.mailList, ts.groupList.map eraseGrp⟩ ∧
    List.Disjoint (tagsA ts.mailList) (tagsG ts.groupList) ∧
    parse_address_list friendsInput =
      .ok ⟨[], [⟨"Friends", [⟨"Alice", "alice@x.io"⟩, ⟨"", "bob@x.io"⟩]⟩]⟩ := by
  refine ⟨?_, tpalRun_disj input.toList initTPalState ts TInv_init h, rfl⟩
  have he := tpalRun_erase input.toList initTPalState
  rw [h] at he
  have hi : eraseTS initTPalState = initPalState := rfl
  rw [hi] at he
  unfold parse_address_list
  rw [← he]
  rfl

/-- Witness for C6 at the Friends scenario input, whose tagged run ends
in the state `friendsTS`. -/
theorem group_member_occurrence_exclusive_witness :
    parse_address_list friendsInput =
      .ok ⟨eraseA friendsTS.mailList, friendsTS.groupList.map eraseGrp⟩ ∧
    List.Disjoint (tagsA friendsTS.mailList) (tagsG friendsTS.groupList) ∧
    parse_address_list friendsInput =
      .ok ⟨[], [⟨"Friends", [⟨"Alice", "alice@x.io"⟩, ⟨"", "bob@x.io"⟩]⟩]⟩ :=
  group_member_occurrence_exclusive friendsInput friendsTS rfl

/-- C2 counterexample: messages built purely through the public setters
whose round trip does not reproduce the fields. A trailing-space subject
comes back trimmed; a sender address without a monkey char formats fine
but the parse of the produced From line fails; an untrimmed plain sender
name comes back trimmed; recipients with groups but no top-level
addresses format with a leading comma that fails to parse; a single
character first member name inside a group is mangled into the member's
address; and a single-character name of a second group fails to parse. -/
theorem roundtrip_counterexample :
    (roundTrip { rtBase with subject := "x " } {}).map Message.subject = .ok "x" ∧
    (message_format { rtBase with sender := ⟨"", "abc"⟩ } "" false).isOk = true ∧
    roundTrip { rtBase with sender := ⟨"", "abc"⟩ } {} = .error badAddrMsg ∧
    (roundTrip { rtBase with sender := ⟨"John ", "s@x"⟩ } {}).map Message.sender =
      .ok ⟨"John", "s@x"⟩ ∧
    roundTrip { rtBase with recipients := ⟨[], [⟨"G", [⟨"", "m@x"⟩]⟩]⟩ } {} =
      .error badAddrMsg ∧
    (roundTrip { rtBase with
        recipients := ⟨[⟨"", "t@x"⟩], [⟨"G", [⟨"J", "j@x"⟩]⟩]⟩ } {}).map
      Message.recipients = .ok ⟨[⟨"", "t@x"⟩], [⟨"G", [⟨"", "Jj@x"⟩]⟩]⟩ ∧
    roundTrip { rtBase with recipients := ⟨[⟨"", "t@x"⟩],
      [⟨"G2", [⟨"", "j@x"⟩]⟩, ⟨"H", [⟨"", "k@x"⟩]⟩]⟩ } {} = .error badAddrMsg := by
  refine ⟨?_, ?_, ?_, ?_, ?_, ?_, ?_⟩ <;> rfl

@[simp] theorem string_mk_append (l1 l2 : List Char) :
    String.mk l1 ++ String.mk l2 = String.mk (l1 ++ l2) := rfl

@[simp] theorem string_toList_append (s1 s2 : String) :
    (s1 ++ s2).toList = s1.toList ++ s2.toList := rfl

@[simp] theorem string_toList_mk (l : List Char) : (String.mk l).toList = l := rfl

@[simp] theorem string_mk_toList (s : String) : String.mk s.toList = s := rfl

@[simp] theorem string_push_mk (l : List Char) (c : Char) :
    (String.mk l).push c = String.mk (l ++ [c]) := rfl

theorem takeWhile_app_all {p : Char → Bool} {l1 l2 : List Char}
    (h1 : ∀ c ∈ l1, p c = true) (h2 : ∀ c, l2.head? = some c → p c = false) :
    (l1 ++ l2).takeWhile p = l1 ∧ (l1 ++ l2).dropWhile p = l2 := by
  induction l1 with
  | nil =>
    simp only [List.nil_append]
    cases l2 with
    | nil => simp
    | cons c t =>
      have := h2 c rfl
      simp [List.takeWhile_cons, List.dropWhile_cons, this]
  | cons c t ih =>
    have hc : p c = true := h1 c (List.mem_cons_self c t)
    have iht := ih (fun x hx => h1 x (List.mem_cons_of_mem c hx))
    simp [List.takeWhile_cons, List.dropWhile_cons, hc, iht.1, iht.2]

theorem splitAtColon_app {l1 l2 : List Char} (h : ':' ∉ l1) :
    splitAtColon (l1 ++ ':' :: l2) = (l1, l2) := by
  induction l1 with
  | nil => simp [splitAtColon]
  | cons c t ih =>
    have hc : c ≠ ':' := fun hce => h (hce ▸ List.mem_cons_self c t)
    have iht := ih (fun hm => h (List.mem_cons_of_mem c hm))
    simp [splitAtColon, hc, iht]

theorem splitCRLF_ne_nil (l : List Char) : splitCRLF l ≠ [] := by
  match l with
  | [] => simp [splitCRLF]
  | [c] => simp [splitCRLF]
  | c :: c2 :: rest =>
    unfold splitCRLF
    split_ifs
    · simp
    · cases h : splitCRLF (c2 :: rest) <;> simp

theorem splitCRLF_app {l1 l2 : List Char} (h : '\r' ∉ l1) :
    splitCRLF (l1 ++ '\r' :: '\n' :: l2) = l1 :: splitCRLF l2 := by
  induction l1 with
  | nil => simp [splitCRLF]
  | cons c t ih =>
    have hc : c ≠ '\r' := fun hce => h (hce ▸ List.mem_cons_self c t)
    have iht := ih (fun hm => h (List.mem_cons_of_mem c hm))
    cases t with
    | nil => simp [splitCRLF, hc]
    | cons c2 t2 =>
      simp only [List.cons_append] at iht ⊢
      simp [splitCRLF, hc, iht]

@[simp] theorem palRunMid_nil (s : PalState) : palRunMid s [] = .ok s := rfl

theorem palRunMid_cons_ok {s s1 : PalState} {c : Char} {l : List Char}
    (h : palStep false s c = .ok s1) :
    palRunMid s (c :: l) = palRunMid s1 l := by
  simp [palRunMid, h, Except.bind]

theorem palRunMid_app_ok {s s1 : PalState} {l1 : List Char} (l2 : List Char)
    (h : palRunMid s l1 = .ok s1) :
    palRunMid s (l1 ++ l2) = palRunMid s1 l2 := by
  induction l1 generalizing s with
  | nil =>
    simp only [palRunMid_nil, Except.ok.injEq] at h
    subst h
    rfl
  | cons c t ih =>
    cases hb : palStep false s c with
    | error e => simp [palRunMid, hb, Except.bind] at h
    | ok a =>
      rw [palRunMid_cons_ok hb] at h
      rw [List.cons_append, palRunMid_cons_ok hb]
      exact ih h

theorem palRun_of_mid {s s1 : PalState} {l1 l2 : List Char}
    (h : palRunMid s l1 = .ok s1) (hne : l2 ≠ []) :
    palRun s (l1 ++ l2) = palRun s1 l2 := by
  induction l1 generalizing s with
  | nil =>
    simp only [palRunMid_nil, Except.ok.injEq] at h
    subst h
    rfl
  | cons c t ih =>
    cases hb : palStep false s c with
    | error e => simp [palRunMid, hb, Except.bind] at h
    | ok a =>
      rw [palRunMid_cons_ok hb] at h
      have hstep : palRun s (c :: (t ++ l2)) = palRun a (t ++ l2) := by
        cases ht2 : t ++ l2 with
        | nil =>
          rcases List.append_eq_nil.mp ht2 with ⟨_, h2⟩
          exact absurd h2 hne
        | cons x xs => simp [palRun, hb, Except.bind]
      rw [List.cons_append, hstep]
      exact ih h

theorem palRun_single_last {s : PalState} (c : Char) :
    palRun s [c] = palStep true s c := rfl

theorem groupNameChar_eq_atext : groupNameChar = isAtextChar := rfl

theorem space_enum {c : Char} (h : isSpaceC c = true) :
    c = ' ' ∨ c = '\t' ∨ c = '\n' ∨ c = Char.ofNat 11 ∨ c = Char.ofNat 12 ∨ c = '\r' := by
  simp only [isSpaceC, Bool.or_eq_true, decide_eq_true_eq] at h
  tauto

theorem atext_not_space {c : Char} (h : isAtextChar c = true) : isSpaceC c = false := by
  by_contra hs
  rw [Bool.not_eq_false] at hs
  rcases space_enum hs with rfl | rfl | rfl | rfl | rfl | rfl <;>
    exact absurd h (by decide)

theorem atext_not_monkey {c : Char} (h : isAtextChar c = true) : c ≠ '@' :=
  fun hc => absurd (hc ▸ h) (by decide)

theorem space_not_atext {c : Char} (h : isSpaceC c = true) : isAtextChar c = false := by
  by_contra ha
  rw [Bool.not_eq_false] at ha
  rw [atext_not_space ha] at h
  exact absurd h (by simp)

theorem space_not_monkey {c : Char} (h : isSpaceC c = true) : c ≠ '@' := by
  rcases space_enum h with rfl | rfl | rfl | rfl | rfl | rfl <;> decide

theorem dtext_cases {c : Char} (h : dtextRegexChar c = true) :
    isAtextChar c = true ∨ c = '@' := by
  simp only [dtextRegexChar, Bool.or_eq_true] at h
  rcases h with (h | h) | h
  · exact Or.inl (by simp [isAtextChar, h])
  · exact Or.inl (by simp [isAtextChar, h])
  · have hall : ∀ x ∈ DTEXT_SPECIALS, isAtextChar x = true ∨ x = '@' := by decide
    exact hall c (by simpa using h)

theorem dtext_not_space {c : Char} (h : dtextRegexChar c = true) : isSpaceC c = false := by
  rcases dtext_cases h with h1 | rfl
  · exact atext_not_space h1
  · decide

theorem plain_cases {c : Char} (h : plainNameChar c = true) :
    (isAtextChar c = true ∧ isSpaceC c = false) ∨
    (isSpaceC c = true ∧ isAtextChar c = false ∧ c ≠ '@') := by
  simp only [plainNameChar, Bool.or_eq_true, decide_eq_true_eq] at h
  rcases h with ((h | h) | rfl) | rfl
  · have ha : isAtextChar c = true := by simp [isAtextChar, h]
    exact Or.inl ⟨ha, atext_not_space ha⟩
  · have ha : isAtextChar c = true := by simp [isAtextChar, h]
    exact Or.inl ⟨ha, atext_not_space ha⟩
  · exact Or.inr ⟨by decide, by decide, by decide⟩
  · exact Or.inr ⟨by decide, by decide, by decide⟩

theorem qtext_scan_ok {c : Char} (h : qtextRegexChar c = true) :
    (isAlphaC c || isDigitC c || isSpaceC c || QTEXT.contains c) = true := by
  simp only [qtextRegexChar, Bool.or_eq_true, decide_eq_true_eq] at h
  simp only [Bool.or_eq_true]
  rcases h with (((h | h) | rfl) | rfl) | h
  · exact Or.inl (Or.inl (Or.inl h))
  · exact Or.inl (Or.inl (Or.inr h))
  · exact Or.inl (Or.inr (by decide))
  · exact Or.inl (Or.inr (by decide))
  · have hall : ∀ x ∈ QTEXT_SPECIALS, QTEXT.contains x = true := by decide
    exact Or.inr (hall c (by simpa using h))

theorem qtext_not_crlf {c : Char} (h : qtextRegexChar c = true) :
    c ≠ '\r' ∧ c ≠ '\n' := by
  constructor <;> rintro rfl <;> exact absurd h (by decide)

theorem plain_not_crlf {c : Char} (h : plainNameChar c = true) :
    c ≠ '\r' ∧ c ≠ '\n' := by
  constructor <;> rintro rfl <;> exact absurd h (by decide)

theorem dtext_not_crlf {c : Char} (h : dtextRegexChar c = true) :
    c ≠ '\r' ∧ c ≠ '\n' := by
  constructor <;> rintro rfl <;> exact absurd h (by decide)

theorem string_push_toList (s : String) (c : Char) :
    (s.push c).toList = s.toList ++ [c] := rfl

theorem trim_space_cons (l : List Char) : trimList ((' ' : Char) :: l) = trimList l := by
  have hsp : isSpaceC ' ' = true := by decide
  simp [trimList, List.dropWhile_cons, hsp]

theorem trimmed_head {c : Char} {t : List Char}
    (h : trimList (c :: t) = c :: t) : isSpaceC c = false := by
  by_contra hs
  rw [Bool.not_eq_false] at hs
  have h1 : (c :: t).dropWhile isSpaceC = t.dropWhile isSpaceC := by
    simp [List.dropWhile_cons, hs]
  have hlen : (trimList (c :: t)).length ≤ t.length := by
    rw [trimList, h1]
    calc (((t.dropWhile isSpaceC).reverse.dropWhile isSpaceC).reverse).length
        = ((t.dropWhile isSpaceC).reverse.dropWhile isSpaceC).length := by
          rw [List.length_reverse]
      _ ≤ (t.dropWhile isSpaceC).reverse.length :=
          (List.dropWhile_sublist _).length_le
      _ = (t.dropWhile isSpaceC).length := List.length_reverse _
      _ ≤ t.length := (List.dropWhile_sublist _).length_le
  rw [h] at hlen
  simp at hlen

theorem trim_append_space {n : String} (h : trimCopy n = n) :
    trimList (n.toList ++ [' ']) = n.toList := by
  have h0 : trimList n.toList = n.toList := by
    have := congrArg String.toList h
    simpa [trimCopy] using this
  cases hn : n.toList with
  | nil => decide
  | cons c t =>
    rw [hn] at h0
    have hc : isSpaceC c = false := trimmed_head h0
    have hsp : isSpaceC ' ' = true := by decide
    have h2 : (c :: t).dropWhile isSpaceC = c :: t := by
      simp [List.dropWhile_cons, hc]
    have h4 := h0
    rw [trimList, h2] at h4
    have h3 : List.dropWhile isSpaceC (t.reverse ++ [c]) = t.reverse ++ [c] := by
      have h5 := congrArg List.reverse h4
      simpa using h5
    have h6 : ((c :: t) ++ [' ']).dropWhile isSpaceC = (c :: t) ++ [' '] := by
      simp [List.dropWhile_cons, hc]
    rw [trimList, h6]
    simp [List.dropWhile_cons, hsp, h3]

theorem trimCopy_space_cons {s : String} (h : trimCopy s = s) :
    trimCopy (String.mk ((' ' : Char) :: s.toList)) = s := by
  rw [trimCopy, string_toList_mk, trim_space_cons]
  have h0 : trimList s.toList = s.toList := by
    have := congrArg String.toList h
    simpa [trimCopy] using this
  rw [h0, string_mk_toList]

theorem trimCopy_name_space {n : String} (h : trimCopy n = n) :
    trimCopy (String.mk (n.toList ++ [' '])) = n := by
  rw [trimCopy, string_toList_mk, trim_append_space h, string_mk_toList]

theorem stepBeginSpace {s : PalState} {c : Char} (hst : s.st = .BEGIN)
    (hc : isSpaceC c = true) : palStep false s c = .ok s := by
  simp [palStep, hst, beginMain, hc, Except.bind]

theorem stepBeginAtext {s : PalState} {c : Char} (hst : s.st = .BEGIN)
    (hc : isAtextChar c = true) :
    palStep false s c = .ok { s with token := s.token.push c, st := .NAMEADDRGRP } := by
  simp [palStep, hst, beginMain, hc, atext_not_space hc, Except.bind]

theorem stepBeginQuote {s : PalState} (hst : s.st = .BEGIN) :
    palStep false s dquote = .ok { s with st := .QNAMEADDRBEG } := by
  have h1 : isSpaceC dquote = false := by decide
  have h2 : isAtextChar dquote = false := by decide
  simp [palStep, hst, beginMain, h1, h2, Except.bind]

theorem stepBeginLT {s : PalState} (hst : s.st = .BEGIN) :
    palStep false s '<' = .ok { s with st := .ADDRBRBEG } := by
  have h1 : isSpaceC '<' = false := by decide
  have h2 : isAtextChar '<' = false := by decide
  have h3 : ('<' : Char) ≠ dquote := by decide
  simp [palStep, hst, beginMain, h1, h2, h3, Except.bind]

theorem stepScanSpace {s : PalState} {c : Char}
    (hst : s.st = .NAMEADDRGRP ∨ s.st = .NAME) (hc : isSpaceC c = true) :
    palStep false s c = .ok { s with token := s.token.push c, st := .NAME } := by
  rcases hst with hst | hst
  · simp [palStep, hst, nameAddrGrpMain, space_not_atext hc, space_not_monkey hc,
      hc, Except.bind]
  · simp [palStep, hst, nameMain, hc, Except.bind]

theorem stepNameLT {s : PalState} (hst : s.st = .NAME) :
    palStep false s '<' = .ok { s with
      curAddress := { s.curAddress with name := trimCopy s.token },
      token := "", st := .ADDRBRBEG } := by
  have h1 : isAtextChar '<' = false := by decide
  have h2 : isSpaceC '<' = false := by decide
  simp [palStep, hst, nameMain, h1, h2, Except.bind]

theorem stepNAGcolon {s : PalState} (hst : s.st = .NAMEADDRGRP)
    (hg : s.groupFound = false) :
    palStep false s ':' = .ok { s with
      mailList := s.mailList ++ s.mailAddrs, mailAddrs := [],
      curGroup := { s.curGroup with name := s.token }, token := "",
      groupFound := true, st := .GROUPBEG } := by
  have h1 : isAtextChar ':' = false := by decide
  have h2 : isSpaceC ':' = false := by decide
  have h3 : (':' : Char) ≠ '@' := by decide
  have h4 : (':' : Char) ≠ ',' := by decide
  simp [palStep, hst, nameAddrGrpMain, h1, h2, h3, h4, hg, Except.bind]

theorem stepBrClose {s : PalState} (hst : s.st = .ADDRBRBEG)
    (hm : s.monkeyFound = true) :
    palStep false s '>' = .ok { s with
      curAddress := MailAddress.clear, token := "",
      mailAddrs := s.mailAddrs ++ [{ s.curAddress with address := s.token }],
      monkeyFound := false, st := .ADDRBREND } := by
  have h1 : isAtextChar '>' = false := by decide
  have h2 : ('>' : Char) ≠ '@' := by decide
  simp [palStep, hst, addrBrBegMain, h1, h2, hm, Except.bind]

theorem stepQBegClose {s : PalState} (hst : s.st = .QNAMEADDRBEG) :
    palStep false s dquote = .ok { s with
      curAddress := { s.curAddress with name := s.token },
      token := "", st := .QNAMEADDREND } := by
  have h1 : ¬ (((isAlphaC dquote = true ∨ isDigitC dquote = true) ∨
      isSpaceC dquote = true) ∨ dquote ∈ QTEXT) := by decide
  have h2 : dquote ≠ bslash := by decide
  simp [palStep, hst, qNameAddrBegMain, h1, h2, Except.bind]

theorem stepQEndSpace {s : PalState} {c : Char} (hst : s.st = .QNAMEADDREND)
    (hc : isSpaceC c = true) : palStep false s c = .ok s := by
  simp [palStep, hst, qNameAddrEndMain, hc, Except.bind]

theorem stepQEndLT {s : PalState} (hst : s.st = .QNAMEADDREND) :
    palStep false s '<' = .ok { s with st := .ADDRBRBEG } := by
  have h2 : isSpaceC '<' = false := by decide
  simp [palStep, hst, qNameAddrEndMain, h2, Except.bind]

theorem stepBrEndSpace {s : PalState} {c : Char} (hst : s.st = .ADDRBREND)
    (hc : isSpaceC c = true) : palStep false s c = .ok s := by
  simp [palStep, hst, addrBrEndMain, hc, Except.bind]

theorem stepBrEndComma {s : PalState} (hst : s.st = .ADDRBREND) :
    palStep false s ',' = .ok { s with st := .BEGIN } := by
  have h2 : isSpaceC ',' = false := by decide
  simp [palStep, hst, addrBrEndMain, h2, Except.bind]

theorem stepBrEndSemi {s : PalState} (hst : s.st = .ADDRBREND)
    (hg : s.groupFound = true) :
    palStep false s ';' = .ok { s with
      curGroup := MailGroup.clear, mailAddrs := [],
      groupList := s.groupList ++ [s.curGroup.add s.mailAddrs],
      groupFound := false, st := .GROUPEND } := by
  have h2 : isSpaceC ';' = false := by decide
  have h3 : (';' : Char) ≠ ',' := by decide
  simp [palStep, hst, addrBrEndMain, h2, h3, hg, Except.bind]

theorem stepGroupBegSpace {s : PalState} {c : Char} (hst : s.st = .GROUPBEG)
    (hc : isSpaceC c = true) : palStep false s c = .ok s := by
  simp [palStep, hst, groupBegMain, space_not_atext hc, hc, Except.bind]

theorem stepGroupBegAtext {s : PalState} {c : Char} (hst : s.st = .GROUPBEG)
    (hc : isAtextChar c = true) :
    palStep false s c = .ok { s with token := s.token.push c, st := .BEGIN } := by
  simp [palStep, hst, groupBegMain, hc, Except.bind]

theorem stepGroupBegLT {s : PalState} (hst : s.st = .GROUPBEG) :
    palStep false s '<' = .ok { s with st := .ADDRBRBEG } := by
  have h1 : isAtextChar '<' = false := by decide
  have h2 : isSpaceC '<' = false := by decide
  simp [palStep, hst, groupBegMain, h1, h2, Except.bind]

theorem stepSemiGroupBegMid {s : PalState} (hst : s.st = .GROUPBEG) :
    palStep false s ';' = .ok { s with
      curGroup := MailGroup.clear, mailAddrs := [],
      groupList := s.groupList ++ [s.curGroup.add s.mailAddrs],
      groupFound := false, st := .GROUPEND } := by
  have h1 : isAtextChar ';' = false := by decide
  have h2 : isSpaceC ';' = false := by decide
  have h3 : (';' : Char) ≠ '<' := by decide
  simp [palStep, hst, groupBegMain, h1, h2, h3, Except.bind]

theorem stepGroupEndSpace {s : PalState} {c : Char} (hst : s.st = .GROUPEND)
    (hc : isSpaceC c = true) : palStep false s c = .ok s := by
  have h3 : c ≠ '(' := by
    rcases space_enum hc with rfl | rfl | rfl | rfl | rfl | rfl <;> decide
  simp [palStep, hst, groupEndMain, space_not_atext hc, h3, Except.bind]

theorem stepGroupEndAtext {s : PalState} {c : Char} (hst : s.st = .GROUPEND)
    (hc : isAtextChar c = true) :
    palStep false s c = .ok { s with token := s.token.push c, st := .BEGIN } := by
  simp [palStep, hst, groupEndMain, hc, Except.bind]

theorem stepLastGT {s : PalState} (hst : s.st = .ADDRBRBEG)
    (hm : s.monkeyFound = true) (hg : s.groupFound = false) :
    palStep true s '>' = .ok { s with
      curAddress := MailAddress.clear, token := "",
      mailAddrs := s.mailAddrs ++ [{ s.curAddress with address := s.token }],
      monkeyFound := false, st := .ADDRBREND,
      mailList := s.mailList ++
        (s.mailAddrs ++ [{ s.curAddress with address := s.token }]) } := by
  have h1 : isAtextChar '>' = false := by decide
  have h2 : ('>' : Char) ≠ '@' := by decide
  simp [palStep, hst, addrBrBegMain, h1, h2, hm, addrBrBegLast, hg, Except.bind]

theorem stepLastSemiBrEnd {s : PalState} (hst : s.st = .ADDRBREND)
    (hg : s.groupFound = true) :
    palStep true s ';' = .ok { s with
      curGroup := MailGroup.clear, mailAddrs := [],
      groupList := s.groupList ++ [s.curGroup.add s.mailAddrs],
      groupFound := false, st := .GROUPEND } := by
  have h2 : isSpaceC ';' = false := by decide
  have h3 : (';' : Char) ≠ ',' := by decide
  simp [palStep, hst, addrBrEndMain, h2, h3, hg, addrBrEndLast, Except.bind]

theorem stepLastSemiGroupBeg {s : PalState} (hst : s.st = .GROUPBEG) :
    palStep true s ';' = .ok { s with
      curGroup := MailGroup.clear, mailAddrs := [],
      groupList := s.groupList ++ [s.curGroup.add s.mailAddrs],
      groupFound := false, st := .GROUPEND } := by
  have h1 : isAtextChar ';' = false := by decide
  have h2 : isSpaceC ';' = false := by decide
  have h3 : (';' : Char) ≠ '<' := by decide
  simp [palStep, hst, groupBegMain, h1, h2, h3, groupBegLast, Except.bind]

theorem stepLastSpaceBegin {s : PalState} {c : Char} (hst : s.st = .BEGIN)
    (hc : isSpaceC c = true) : palStep true s c = .ok s := by
  simp [palStep, hst, beginMain, hc, beginLast, Except.bind]

theorem scanPlain (w : List Char) :
    ∀ (s : PalState) (sp : Bool),
      s.st = (if sp then PalSt.NAME else PalSt.NAMEADDRGRP) →
      (∀ c ∈ w, plainNameChar c = true) →
      palRunMid s w = .ok { s with
        token := String.mk (s.token.toList ++ w),
        st := if sp || w.any isSpaceC then PalSt.NAME else PalSt.NAMEADDRGRP } := by
  induction w with
  | nil =>
    intro s sp hst hall
    show Except.ok s = _
    rw [List.append_nil, string_mk_toList]
    simp only [List.any_nil, Bool.or_false]
    rw [← hst]
  | cons c t ih =>
    intro s sp hst hall
    have hc := hall c (List.mem_cons_self c t)
    have hrest : ∀ x ∈ t, plainNameChar x = true :=
      fun x hx => hall x (List.mem_cons_of_mem c hx)
    rcases plain_cases hc with ⟨ha, hsp⟩ | ⟨hsp, ha, hm⟩
    · have hstep : palStep false s c = .ok { s with token := s.token.push c } := by
        cases sp <;> simp only [Bool.false_eq_true, if_false, if_true] at hst <;>
          simp [palStep, hst, nameAddrGrpMain, nameMain, ha, Except.bind]
      rw [palRunMid_cons_ok hstep,
        ih { s with token := s.token.push c } sp hst hrest]
      simp [string_push_toList, List.any_cons, hsp]
    · have hstep : palStep false s c =
          .ok { s with token := s.token.push c, st := .NAME } := by
        cases sp <;> simp only [Bool.false_eq_true, if_false, if_true] at hst <;>
          simp [palStep, hst, nameAddrGrpMain, nameMain, ha, hsp, hm, Except.bind]
      rw [palRunMid_cons_ok hstep,
        ih { s with token := s.token.push c, st := .NAME } true (by simp) hrest]
      simp [string_push_toList, List.any_cons, hsp]

theorem scanQuoted (w : List Char) :
    ∀ s : PalState, s.st = .QNAMEADDRBEG →
      (∀ c ∈ w, qtextRegexChar c = true) →
      palRunMid s w = .ok { s with token := String.mk (s.token.toList ++ w) } := by
  induction w with
  | nil =>
    intro s hst hall
    show Except.ok s = _
    rw [List.append_nil, string_mk_toList]
  | cons c t ih =>
    intro s hst hall
    have hc := qtext_scan_ok (hall c (List.mem_cons_self c t))
    have hrest : ∀ x ∈ t, qtextRegexChar x = true :=
      fun x hx => hall x (List.mem_cons_of_mem c hx)
    have hc2 : ((isAlphaC c = true ∨ isDigitC c = true) ∨ isSpaceC c = true) ∨
        c ∈ QTEXT := by simpa using hc
    have hstep : palStep false s c = .ok { s with token := s.token.push c } := by
      simp [palStep, hst, qNameAddrBegMain, hc2, Except.bind]
    rw [palRunMid_cons_ok hstep, ih { s with token := s.token.push c } hst hrest]
    simp [string_push_toList]

theorem scanBracket (w : List Char) :
    ∀ s : PalState, s.st = .ADDRBRBEG →
      (∀ c ∈ w, dtextRegexChar c = true) →
      palRunMid s w = .ok { s with
        token := String.mk (s.token.toList ++ w),
        monkeyFound := s.monkeyFound || w.contains '@' } := by
  induction w with
  | nil =>
    intro s hst hall
    show Except.ok s = _
    rw [List.append_nil, string_mk_toList]
    simp
  | cons c t ih =>
    intro s hst hall
    have hc := hall c (List.mem_cons_self c t)
    have hrest : ∀ x ∈ t, dtextRegexChar x = true :=
      fun x hx => hall x (List.mem_cons_of_mem c hx)
    rcases dtext_cases hc with ha | rfl
    · have hne := atext_not_monkey ha
      have hstep : palStep false s c = .ok { s with token := s.token.push c } := by
        simp [palStep, hst, addrBrBegMain, ha, Except.bind]
      rw [palRunMid_cons_ok hstep, ih { s with token := s.token.push c } hst hrest]
      have hbe : (c == '@') = false := by
        cases hb : c == '@'
        · rfl
        · exact absurd (by simpa using hb) hne
      simp [string_push_toList, List.contains_cons, hbe, Ne.symm hne]
    · have h64 : isAtextChar '@' = false := by decide
      have hstep : palStep false s '@' =
          .ok { s with token := s.token.push '@', monkeyFound := true } := by
        simp [palStep, hst, addrBrBegMain, h64, Except.bind]
      rw [palRunMid_cons_ok hstep,
        ih { s with token := s.token.push '@', monkeyFound := true } hst hrest]
      simp [string_push_toList, List.contains_cons]

theorem string_eq_of_toList {s t : String} (h : s.toList = t.toList) : s = t := by
  cases s
  cases t
  exact congrArg String.mk (by simpa using h)

theorem toList_lt_lit : "<".toList = ['<'] := rfl

theorem toList_gt_lit : ">".toList = ['>'] := rfl

theorem toList_sp_lit : " ".toList = [' '] := rfl

theorem toList_dq_lit : (String.singleton dquote).toList = [dquote] := rfl

theorem bracket_ne_empty (a : String) : ("<" ++ a ++ ">") ≠ "" := by
  intro h
  have h2 := congrArg String.toList h
  simp [toList_lt_lit, toList_gt_lit] at h2

theorem format_address_safe {n a : String} (hn : safeName n) (ha : safeAddr a) :
    format_address n a = .ok (String.mk (preChars n a ++ ['>'])) := by
  obtain ⟨hne, hdt, _⟩ := ha
  have hbne := bracket_ne_empty a
  have hdt2 : ∀ x ∈ a.data, dtextRegexChar x = true := List.all_eq_true.mp hdt
  rcases hn with ⟨hp, _⟩ | ⟨hp, hq⟩
  · have hp2 : ∀ x ∈ n.data, plainNameChar x = true := List.all_eq_true.mp hp
    by_cases hn0 : n = ""
    · subst hn0
      have hv : format_address "" a = .ok ("<" ++ a ++ ">") := by
        simp [format_address, hne, Except.bind]
        rw [if_pos hdt2]
      rw [hv]
      refine congrArg Except.ok (string_eq_of_toList ?_)
      simp [preChars, toList_lt_lit, toList_gt_lit]
    · have hv : format_address n a = .ok (n ++ (" " ++ ("<" ++ a ++ ">"))) := by
        simp [format_address, hne, hn0, hbne, Except.bind]
        rw [if_pos hp2, if_pos hdt2]
        simp [hn0, hbne, Except.bind]
      rw [hv]
      refine congrArg Except.ok (string_eq_of_toList ?_)
      rw [preChars, if_neg hn0]
      rw [if_pos hp]
      simp
  · have hn0 : n ≠ "" := by
      intro h
      subst h
      simp at hp
    have hp2 : ¬ ∀ x ∈ n.data, plainNameChar x = true := fun hall => by
      have hb : n.toList.all plainNameChar = true := List.all_eq_true.mpr hall
      rw [hp] at hb
      exact Bool.false_ne_true hb
    have hq2 : ∀ x ∈ n.data, qtextRegexChar x = true := List.all_eq_true.mp hq
    have hqne : (String.singleton dquote ++ n ++ String.singleton dquote) ≠ "" := by
      intro h
      have h2 := congrArg String.toList h
      simp [toList_dq_lit] at h2
    have hv : format_address n a =
        .ok ((String.singleton dquote ++ n ++ String.singleton dquote) ++
          (" " ++ ("<" ++ a ++ ">"))) := by
      simp [format_address, hne, hn0, hp2, hbne, hqne, Except.bind]
      rw [if_pos hq2, if_pos hdt2]
      simp [hqne, hbne, Except.bind]
    rw [hv]
    refine congrArg Except.ok (string_eq_of_toList ?_)
    rw [preChars, if_neg hn0]
    rw [if_neg (by rw [hp]; simp : ¬ n.toList.all plainNameChar = true)]
    simp [toList_dq_lit]

theorem contains_monkey {a : String} (ha : safeAddr a) :
    a.toList.contains '@' = true := by
  have hm := ha.2.2
  simpa using hm

theorem scanPre {n a : String} (hn : safeName n) (ha : safeAddr a) {s : PalState}
    (hst : s.st = .BEGIN) (htok : s.token = "") (hca : s.curAddress = MailAddress.clear)
    (hmf : s.monkeyFound = false) :
    palRunMid s (preChars n a) = .ok { s with
      st := .ADDRBRBEG, token := a,
      curAddress := ⟨n, ""⟩, monkeyFound := true } := by
  have hmky := contains_monkey ha
  have hmem : '@' ∈ a.data := ha.2.2
  have hdtall : ∀ c ∈ a.toList, dtextRegexChar c = true := by
    have := ha.2.1
    simpa [List.all_eq_true] using this
  rcases hn with ⟨hp, htr⟩ | ⟨hp, hq⟩
  · by_cases hn0 : n = ""
    · subst hn0
      have hpre : preChars "" a = '<' :: a.toList := by simp [preChars]
      rw [hpre, palRunMid_cons_ok (stepBeginLT hst)]
      rw [scanBracket a.toList _ rfl hdtall]
      simp [htok, hca, hmf, hmky, hmem, MailAddress.clear]
    · obtain ⟨c0, nt, hnl⟩ : ∃ c0 nt, n.toList = c0 :: nt := by
        cases hcl : n.toList with
        | nil => exact absurd (@string_eq_of_toList n "" hcl) hn0
        | cons x xs => exact ⟨x, xs, rfl⟩
      have hplist : ∀ c ∈ n.toList, plainNameChar c = true := by
        simpa [List.all_eq_true] using hp
      have htr0 : trimList n.toList = n.toList := by
        have := congrArg String.toList htr
        simpa [trimCopy] using this
      have hc0p : plainNameChar c0 = true := hplist c0 (by rw [hnl]; exact List.mem_cons_self _ _)
      have hc0s : isSpaceC c0 = false := trimmed_head (by rw [← hnl]; exact htr0)
      have hc0a : isAtextChar c0 = true := by
        rcases plain_cases hc0p with ⟨h1, _⟩ | ⟨h1, _, _⟩
        · exact h1
        · rw [h1] at hc0s
          exact absurd hc0s (by simp)
      have hpre : preChars n a = c0 :: (nt ++ ' ' :: '<' :: a.toList) := by
        rw [preChars, if_neg hn0, if_pos hp, hnl]
        simp
      rw [hpre, palRunMid_cons_ok (stepBeginAtext hst hc0a)]
      have hntp : ∀ c ∈ nt, plainNameChar c = true := by
        intro c hc
        exact hplist c (by rw [hnl]; exact List.mem_cons_of_mem _ hc)
      have hsp := scanPlain nt { s with token := s.token.push c0, st := .NAMEADDRGRP }
        false rfl hntp
      rw [palRunMid_app_ok (' ' :: '<' :: a.toList) hsp]
      have hspc : isSpaceC ' ' = true := by decide
      have htrv : trimCopy (String.mk (c0 :: (nt ++ [' ']))) = n := by
        have h9 : (c0 :: (nt ++ [' '])) = n.toList ++ [' '] := by
          rw [hnl, List.cons_append]
        rw [h9]
        exact trimCopy_name_space htr
      cases hany : nt.any isSpaceC with
      | false =>
        simp only [hany, Bool.false_or, Bool.false_eq_true, if_false]
        rw [palRunMid_cons_ok (stepScanSpace (Or.inl rfl) hspc)]
        rw [palRunMid_cons_ok (stepNameLT rfl)]
        rw [scanBracket a.toList _ rfl hdtall]
        simp [htok, hca, hmf, hmky, hmem, MailAddress.clear, string_push_toList, htrv]
      | true =>
        simp only [hany, Bool.false_or, if_true]
        rw [palRunMid_cons_ok (stepScanSpace (Or.inr rfl) hspc)]
        rw [palRunMid_cons_ok (stepNameLT rfl)]
        rw [scanBracket a.toList _ rfl hdtall]
        simp [htok, hca, hmf, hmky, hmem, MailAddress.clear, string_push_toList, htrv]
  · have hqlist : ∀ c ∈ n.toList, qtextRegexChar c = true := by
      simpa [List.all_eq_true] using hq
    have hn0 : n ≠ "" := by
      intro h
      subst h
      simp at hp
    have hpre : preChars n a = dquote :: (n.toList ++ dquote :: ' ' :: '<' :: a.toList) := by
      rw [preChars, if_neg hn0,
        if_neg (by rw [hp]; simp : ¬ n.toList.all plainNameChar = true)]
      simp
    rw [hpre, palRunMid_cons_ok (stepBeginQuote hst)]
    have hsq := scanQuoted n.toList { s with st := .QNAMEADDRBEG } rfl hqlist
    rw [palRunMid_app_ok (dquote :: ' ' :: '<' :: a.toList) hsq]
    rw [palRunMid_cons_ok (stepQBegClose rfl)]
    have hspc : isSpaceC ' ' = true := by decide
    rw [palRunMid_cons_ok (stepQEndSpace rfl hspc)]
    rw [palRunMid_cons_ok (stepQEndLT rfl)]
    rw [scanBracket a.toList _ rfl hdtall]
    simp [htok, hca, hmf, hmky, hmem, MailAddress.clear]

theorem scanOneFull {n a : String} (hn : safeName n) (ha : safeAddr a) {s : PalState}
    (hst : s.st = .BEGIN) (htok : s.token = "") (hca : s.curAddress = MailAddress.clear)
    (hmf : s.monkeyFound = false) :
    palRunMid s (preChars n a ++ ['>']) =
      .ok { s with st := .ADDRBREND, mailAddrs := s.mailAddrs ++ [⟨n, a⟩] } := by
  rw [palRunMid_app_ok _ (scanPre hn ha hst htok hca hmf)]
  rw [palRunMid_cons_ok (stepBrClose rfl rfl)]
  simp [htok, hca, hmf, hst]

theorem toList_comma_sp : ", ".toList = [',', ' '] := rfl

theorem scanMoreAddresses :
    ∀ (l : List MailAddress), (∀ x ∈ l, safeMailAddress x) → ∀ {fl : String},
      format_address_list l = .ok fl → ∀ {s : PalState}, s.st = .ADDRBREND →
      s.token = "" → s.curAddress = MailAddress.clear → s.monkeyFound = false →
      l ≠ [] →
      palRunMid s (',' :: ' ' :: fl.toList) = .ok { s with mailAddrs := s.mailAddrs ++ l }
  | [], _, _, _, _, _, _, _, _, h => absurd rfl h
  | [a], hsafe, fl, hfl, s, hst, htok, hca, hmf, _ => by
    have hsa := hsafe a (List.mem_cons_self _ _)
    rw [show format_address_list [a] = format_address a.name a.address from rfl,
      format_address_safe hsa.1 hsa.2] at hfl
    have hfl2 : fl = String.mk (preChars a.name a.address ++ ['>']) := by
      injection hfl with h
      exact h.symm
    subst hfl2
    have hspc : isSpaceC ' ' = true := by decide
    rw [string_toList_mk, palRunMid_cons_ok (stepBrEndComma hst),
      palRunMid_cons_ok (stepBeginSpace rfl hspc)]
    rw [@scanOneFull a.name a.address hsa.1 hsa.2 { s with st := .BEGIN } rfl htok hca hmf]
    simp [hst]
  | a :: b :: t, hsafe, fl, hfl, s, hst, htok, hca, hmf, _ => by
    have hsa := hsafe a (List.mem_cons_self _ _)
    have hsrest : ∀ x ∈ b :: t, safeMailAddress x :=
      fun x hx => hsafe x (List.mem_cons_of_mem _ hx)
    rw [show format_address_list (a :: b :: t) =
        (format_address a.name a.address).bind (fun s2 =>
          (format_address_list (b :: t)).map (fun t2 => s2 ++ ", " ++ t2)) from rfl,
      format_address_safe hsa.1 hsa.2] at hfl
    cases hr : format_address_list (b :: t) with
    | error e =>
      rw [hr] at hfl
      simp [Except.bind, Except.map] at hfl
    | ok f2 =>
      rw [hr] at hfl
      simp only [Except.bind, Except.map, Except.ok.injEq] at hfl
      have hfl2 : fl = String.mk (preChars a.name a.address ++ ['>']) ++ ", " ++ f2 :=
        hfl.symm
      subst hfl2
      have hspc : isSpaceC ' ' = true := by decide
      have ht : (String.mk (preChars a.name a.address ++ ['>']) ++ ", " ++ f2).toList =
          (preChars a.name a.address ++ ['>']) ++ ',' :: ' ' :: f2.toList := by
        simp [toList_comma_sp]
      rw [ht, palRunMid_cons_ok (stepBrEndComma hst),
        palRunMid_cons_ok (stepBeginSpace rfl hspc)]
      rw [palRunMid_app_ok _
        (@scanOneFull a.name a.address hsa.1 hsa.2 { s with st := .BEGIN } rfl htok hca hmf)]
      refine (scanMoreAddresses (b :: t) hsrest hr ?_ ?_ ?_ ?_ (by simp)).trans ?_
      · rfl
      · exact htok
      · exact hca
      · exact hmf
      · simp [hst]

theorem scanAddrListFull {l : List MailAddress} (hne : l ≠ [])
    (hsafe : ∀ x ∈ l, safeMailAddress x) {fl : String}
    (hfl : format_address_list l = .ok fl) {s : PalState} (hst : s.st = .BEGIN)
    (htok : s.token = "") (hca : s.curAddress = MailAddress.clear)
    (hmf : s.monkeyFound = false) :
    palRunMid s fl.toList = .ok { s with
      st := .ADDRBREND, mailAddrs := s.mailAddrs ++ l } := by
  match l, hne with
  | [a], _ =>
    have hsa := hsafe a (List.mem_cons_self _ _)
    rw [show format_address_list [a] = format_address a.name a.address from rfl,
      format_address_safe hsa.1 hsa.2] at hfl
    have hfl2 : fl = String.mk (preChars a.name a.address ++ ['>']) := by
      injection hfl with h
      exact h.symm
    subst hfl2
    rw [string_toList_mk, scanOneFull hsa.1 hsa.2 hst htok hca hmf]
  | a :: b :: t, _ =>
    have hsa := hsafe a (List.mem_cons_self _ _)
    have hsrest : ∀ x ∈ b :: t, safeMailAddress x :=
      fun x hx => hsafe x (List.mem_cons_of_mem _ hx)
    rw [show format_address_list (a :: b :: t) =
        (format_address a.name a.address).bind (fun s2 =>
          (format_address_list (b :: t)).map (fun t2 => s2 ++ ", " ++ t2)) from rfl,
      format_address_safe hsa.1 hsa.2] at hfl
    cases hr : format_address_list (b :: t) with
    | error e =>
      rw [hr] at hfl
      simp [Except.bind, Except.map] at hfl
    | ok f2 =>
      rw [hr] at hfl
      simp only [Except.bind, Except.map, Except.ok.injEq] at hfl
      have hfl2 : fl = String.mk (preChars a.name a.address ++ ['>']) ++ ", " ++ f2 :=
        hfl.symm
      subst hfl2
      have ht : (String.mk (preChars a.name a.address ++ ['>']) ++ ", " ++ f2).toList =
          (preChars a.name a.address ++ ['>']) ++ ',' :: ' ' :: f2.toList := by
        simp [toList_comma_sp]
      rw [ht, palRunMid_app_ok _ (scanOneFull hsa.1 hsa.2 hst htok hca hmf)]
      refine (scanMoreAddresses (b :: t) hsrest hr ?_ ?_ ?_ ?_ (by simp)).trans ?_
      · rfl
      · exact htok
      · exact hca
      · exact hmf
      · simp

theorem scanAtext (w : List Char) :
    ∀ s : PalState, s.st = .NAMEADDRGRP →
      (∀ c ∈ w, isAtextChar c = true) →
      palRunMid s w = .ok { s with token := String.mk (s.token.toList ++ w) } := by
  induction w with
  | nil =>
    intro s hst hall
    show Except.ok s = _
    rw [List.append_nil, string_mk_toList]
  | cons c t ih =>
    intro s hst hall
    have hc := hall c (List.mem_cons_self c t)
    have hrest : ∀ x ∈ t, isAtextChar x = true :=
      fun x hx => hall x (List.mem_cons_of_mem c hx)
    have hstep : palStep false s c = .ok { s with token := s.token.push c } := by
      simp [palStep, hst, nameAddrGrpMain, hc, Except.bind]
    rw [palRunMid_cons_ok hstep, ih { s with token := s.token.push c } hst hrest]
    simp [string_push_toList]

theorem scanGroupOpen {g : String} (hgname : g ≠ "")
    (hgch : g.toList.all groupNameChar = true) {s : PalState}
    (hentry : s.st = .BEGIN ∨ (s.st = .GROUPEND ∧ 2 ≤ g.toList.length))
    (htok : s.token = "") (hcg : s.curGroup = MailGroup.clear)
    (hgf : s.groupFound = false) :
    palRunMid s (g.toList ++ [':', ' ']) = .ok { s with
      st := .GROUPBEG, token := "",
      mailList := s.mailList ++ s.mailAddrs, mailAddrs := [],
      curGroup := ⟨g, []⟩, groupFound := true } := by
  have hat : ∀ c ∈ g.toList, isAtextChar c = true := by
    have h2 : ∀ c ∈ g.toList, groupNameChar c = true := by
      simpa [List.all_eq_true] using hgch
    intro c hc
    rw [← groupNameChar_eq_atext]
    exact h2 c hc
  have hspc : isSpaceC ' ' = true := by decide
  rcases hentry with hst | ⟨hst, hlen⟩
  · obtain ⟨c0, nt, hnl⟩ : ∃ c0 nt, g.toList = c0 :: nt := by
      cases hcl : g.toList with
      | nil => exact absurd (@string_eq_of_toList g "" hcl) hgname
      | cons x xs => exact ⟨x, xs, rfl⟩
    have hc0 : isAtextChar c0 = true := hat c0 (by rw [hnl]; exact List.mem_cons_self _ _)
    have hnt : ∀ c ∈ nt, isAtextChar c = true :=
      fun c hc => hat c (by rw [hnl]; exact List.mem_cons_of_mem _ hc)
    rw [hnl, List.cons_append, palRunMid_cons_ok (stepBeginAtext hst hc0)]
    rw [palRunMid_app_ok _ (scanAtext nt _ rfl hnt)]
    refine (palRunMid_cons_ok (stepNAGcolon ?_ ?_)).trans ?_
    · rfl
    · exact hgf
    refine (palRunMid_cons_ok (stepGroupBegSpace ?_ hspc)).trans ?_
    · rfl
    have htokv : String.mk (s.token.data ++ (c0 :: nt)) = g := by
      refine string_eq_of_toList ?_
      rw [string_toList_mk, htok, hnl]
      simp
    simp [htokv, hcg, MailGroup.clear]
  · obtain ⟨c0, c1, nt, hnl⟩ : ∃ c0 c1 nt, g.toList = c0 :: c1 :: nt := by
      cases hcl : g.toList with
      | nil => exact absurd (@string_eq_of_toList g "" hcl) hgname
      | cons x xs =>
        cases xs with
        | nil => rw [hcl] at hlen; simp at hlen
        | cons y ys => exact ⟨x, y, ys, rfl⟩
    have hc0 : isAtextChar c0 = true := hat c0 (by rw [hnl]; exact List.mem_cons_self _ _)
    have hc1 : isAtextChar c1 = true := hat c1 (by
      rw [hnl]
      exact List.mem_cons_of_mem _ (List.mem_cons_self _ _))
    have hnt : ∀ c ∈ nt, isAtextChar c = true := fun c hc => hat c (by
      rw [hnl]
      exact List.mem_cons_of_mem _ (List.mem_cons_of_mem _ hc))
    rw [hnl, List.cons_append, List.cons_append,
      palRunMid_cons_ok (stepGroupEndAtext hst hc0)]
    refine (palRunMid_cons_ok (stepBeginAtext ?_ hc1)).trans ?_
    · rfl
    rw [palRunMid_app_ok _ (scanAtext nt _ rfl hnt)]
    refine (palRunMid_cons_ok (stepNAGcolon ?_ ?_)).trans ?_
    · rfl
    · exact hgf
    refine (palRunMid_cons_ok (stepGroupBegSpace ?_ hspc)).trans ?_
    · rfl
    have htokv : String.mk (s.token.data ++ (c0 :: c1 :: nt)) = g := by
      refine string_eq_of_toList ?_
      rw [string_toList_mk, htok, hnl]
      simp
    simp [htokv, hcg, MailGroup.clear]

theorem scanFirstMemberFull {m : MailAddress} (hm : safePlainMember m)
    (hfm : m.name = "" ∨ ∃ c1 c2 t2, m.name.toList = c1 :: c2 :: t2 ∧ isSpaceC c2 = false)
    {s : PalState} (hst : s.st = .GROUPBEG) (htok : s.token = "")
    (hca : s.curAddress = MailAddress.clear) (hmf : s.monkeyFound = false) :
    palRunMid s (preChars m.name m.address ++ ['>']) = .ok { s with
      st := .ADDRBREND, mailAddrs := s.mailAddrs ++ [m] } := by
  obtain ⟨hp, htr, ha⟩ := hm
  have hmky := contains_monkey ha
  have hmem : '@' ∈ m.address.data := ha.2.2
  have hdtall : ∀ c ∈ m.address.toList, dtextRegexChar c = true := by
    have := ha.2.1
    simpa [List.all_eq_true] using this
  have hspc : isSpaceC ' ' = true := by decide
  rcases hfm with hn0 | ⟨c1, c2, t2, hnl, hc2s⟩
  · have hpre : preChars m.name m.address = '<' :: m.address.toList := by
      simp [preChars, hn0]
    rw [hpre]
    rw [show ('<' :: m.address.toList) ++ ['>'] = '<' :: (m.address.toList ++ ['>'])
      from rfl]
    rw [palRunMid_cons_ok (stepGroupBegLT hst)]
    rw [palRunMid_app_ok _ (scanBracket m.address.toList _ rfl hdtall)]
    refine (palRunMid_cons_ok (stepBrClose ?_ ?_)).trans ?_
    · rfl
    · simp [hmf, hmem]
    have hmv : MailAddress.mk "" m.address = m := by rw [← hn0]
    simp [htok, hca, hmf, hst, MailAddress.clear, hmv]
  · have hn0 : m.name ≠ "" := by
      intro h
      have h2 : ("" : String).toList = c1 :: c2 :: t2 := h ▸ hnl
      simp at h2
    have hplist : ∀ c ∈ m.name.toList, plainNameChar c = true := by
      simpa [List.all_eq_true] using hp
    have htr0 : trimList m.name.toList = m.name.toList := by
      have := congrArg String.toList htr
      simpa [trimCopy] using this
    have hc1p : plainNameChar c1 = true :=
      hplist c1 (by rw [hnl]; exact List.mem_cons_self _ _)
    have hc1s : isSpaceC c1 = false := trimmed_head (by rw [← hnl]; exact htr0)
    have hc1a : isAtextChar c1 = true := by
      rcases plain_cases hc1p with ⟨h1, _⟩ | ⟨h1, _, _⟩
      · exact h1
      · rw [h1] at hc1s
        exact absurd hc1s (by simp)
    have hc2p : plainNameChar c2 = true :=
      hplist c2 (by rw [hnl]; exact List.mem_cons_of_mem _ (List.mem_cons_self _ _))
    have hc2a : isAtextChar c2 = true := by
      rcases plain_cases hc2p with ⟨h1, _⟩ | ⟨h1, _, _⟩
      · exact h1
      · rw [h1] at hc2s
        exact absurd hc2s (by simp)
    have ht2p : ∀ c ∈ t2, plainNameChar c = true := fun c hc => hplist c (by
      rw [hnl]
      exact List.mem_cons_of_mem _ (List.mem_cons_of_mem _ hc))
    have hpre : preChars m.name m.address ++ ['>'] =
        c1 :: c2 :: (t2 ++ ' ' :: '<' :: (m.address.toList ++ ['>'])) := by
      rw [preChars, if_neg hn0, if_pos hp, hnl]
      simp
    rw [hpre, palRunMid_cons_ok (stepGroupBegAtext hst hc1a)]
    refine (palRunMid_cons_ok (stepBeginAtext ?_ hc2a)).trans ?_
    · rfl
    refine (palRunMid_app_ok _ (scanPlain t2 _ false ?_ ht2p)).trans ?_
    · rfl
    have htrv : trimCopy (String.mk (c1 :: c2 :: (t2 ++ [' ']))) = m.name := by
      have h9 : (c1 :: c2 :: (t2 ++ [' '])) = m.name.toList ++ [' '] := by
        rw [hnl, List.cons_append, List.cons_append]
      rw [h9]
      exact trimCopy_name_space htr
    cases hany : t2.any isSpaceC with
    | false =>
      simp only [hany, Bool.false_or, Bool.false_eq_true, if_false]
      refine (palRunMid_cons_ok (stepScanSpace (Or.inl ?_) hspc)).trans ?_
      · rfl
      refine (palRunMid_cons_ok (stepNameLT ?_)).trans ?_
      · rfl
      rw [palRunMid_app_ok _ (scanBracket m.address.toList _ rfl hdtall)]
      refine (palRunMid_cons_ok (stepBrClose ?_ ?_)).trans ?_
      · rfl
      · simp [hmf, hmem]
      simp [htok, hca, hmf, hst, MailAddress.clear, htrv]
    | true =>
      simp only [hany, Bool.false_or, if_true]
      refine (palRunMid_cons_ok (stepScanSpace (Or.inr ?_) hspc)).trans ?_
      · rfl
      refine (palRunMid_cons_ok (stepNameLT ?_)).trans ?_
      · rfl
      rw [palRunMid_app_ok _ (scanBracket m.address.toList _ rfl hdtall)]
      refine (palRunMid_cons_ok (stepBrClose ?_ ?_)).trans ?_
      · rfl
      · simp [hmf, hmem]
      simp [htok, hca, hmf, hst, MailAddress.clear, htrv]

theorem member_safeMailAddress {x : MailAddress} (h : safePlainMember x) :
    safeMailAddress x := ⟨Or.inl ⟨h.1, h.2.1⟩, h.2.2⟩

theorem scanMembersFull {l : List MailAddress} (hne : l ≠ [])
    (hsafe : ∀ x ∈ l, safePlainMember x)
    (hfm : ∀ m t2, l = m :: t2 →
      m.name = "" ∨ ∃ c1 c2 t3, m.name.toList = c1 :: c2 :: t3 ∧ isSpaceC c2 = false)
    {fl : String} (hfl : format_address_list l = .ok fl) {s : PalState}
    (hst : s.st = .GROUPBEG) (htok : s.token = "")
    (hca : s.curAddress = MailAddress.clear) (hmf : s.monkeyFound = false) :
    palRunMid s fl.toList = .ok { s with
      st := .ADDRBREND, mailAddrs := s.mailAddrs ++ l } := by
  match l, hne with
  | [a], _ =>
    have hsa := hsafe a (List.mem_cons_self _ _)
    rw [show format_address_list [a] = format_address a.name a.address from rfl,
      format_address_safe (member_safeMailAddress hsa).1
        (member_safeMailAddress hsa).2] at hfl
    have hfl2 : fl = String.mk (preChars a.name a.address ++ ['>']) := by
      injection hfl with h
      exact h.symm
    subst hfl2
    rw [string_toList_mk,
      scanFirstMemberFull hsa (hfm a [] rfl) hst htok hca hmf]
  | a :: b :: t, _ =>
    have hsa := hsafe a (List.mem_cons_self _ _)
    have hsrest : ∀ x ∈ b :: t, safeMailAddress x :=
      fun x hx => member_safeMailAddress (hsafe x (List.mem_cons_of_mem _ hx))
    rw [show format_address_list (a :: b :: t) =
        (format_address a.name a.address).bind (fun s2 =>
          (format_address_list (b :: t)).map (fun t2 => s2 ++ ", " ++ t2)) from rfl,
      format_address_safe (member_safeMailAddress hsa).1
        (member_safeMailAddress hsa).2] at hfl
    cases hr : format_address_list (b :: t) with
    | error e =>
      rw [hr] at hfl
      simp [Except.bind, Except.map] at hfl
    | ok f2 =>
      rw [hr] at hfl
      simp only [Except.bind, Except.map, Except.ok.injEq] at hfl
      have hfl2 : fl = String.mk (preChars a.name a.address ++ ['>']) ++ ", " ++ f2 :=
        hfl.symm
      subst hfl2
      have ht : (String.mk (preChars a.name a.address ++ ['>']) ++ ", " ++ f2).toList =
          (preChars a.name a.address ++ ['>']) ++ ',' :: ' ' :: f2.toList := by
        simp [toList_comma_sp]
      rw [ht, palRunMid_app_ok _
        (scanFirstMemberFull hsa (hfm a (b :: t) rfl) hst htok hca hmf)]
      refine (scanMoreAddresses (b :: t) hsrest hr ?_ ?_ ?_ ?_ (by simp)).trans ?_
      · rfl
      · exact htok
      · exact hca
      · exact hmf
      · simp

theorem scanGroupChunk {g : MailGroup} (hg : safeGroup g)
    {ms : String} (hms : format_address_list g.members = .ok ms)
    {s : PalState}
    (hentry : s.st = .BEGIN ∨ (s.st = .GROUPEND ∧ 2 ≤ g.name.toList.length))
    (htok : s.token = "") (hca : s.curAddress = MailAddress.clear)
    (hmf : s.monkeyFound = false) (hcg : s.curGroup = MailGroup.clear)
    (hgf : s.groupFound = false) :
    palRunMid s (g.name.toList ++ ':' :: ' ' :: ms.toList) = .ok { s with
      st := (match g.members with | [] => PalSt.GROUPBEG | _ :: _ => PalSt.ADDRBREND),
      mailList := s.mailList ++ s.mailAddrs, mailAddrs := g.members,
      curGroup := ⟨g.name, []⟩, groupFound := true } := by
  obtain ⟨hgname, hgch, hmembers, hfirst⟩ := hg
  rw [show g.name.toList ++ ':' :: ' ' :: ms.toList =
    (g.name.toList ++ [':', ' ']) ++ ms.toList by simp]
  rw [palRunMid_app_ok _ (scanGroupOpen hgname hgch hentry htok hcg hgf)]
  cases hmem : g.members with
  | nil =>
    rw [hmem] at hms
    have hms2 : ms = "" := by
      rw [show format_address_list [] = .ok "" from rfl] at hms
      injection hms with h
      exact h.symm
    subst hms2
    rw [show ("" : String).toList = [] from rfl, palRunMid_nil]
    simp [hmem, htok]
  | cons m mt =>
    rw [hmem] at hms
    have hsafe2 : ∀ x ∈ m :: mt, safePlainMember x := by
      rw [← hmem]
      exact hmembers
    have hfm2 : ∀ m2 t2, (m :: mt : List MailAddress) = m2 :: t2 →
        m2.name = "" ∨ ∃ c1 c2 t3, m2.name.toList = c1 :: c2 :: t3 ∧
          isSpaceC c2 = false := by
      intro m2 t2 heq
      injection heq with h1 h2
      subst h1
      unfold safeFirstMember at hfirst
      rw [hmem] at hfirst
      exact hfirst
    refine (scanMembersFull (by simp) hsafe2 hfm2 hms ?_ ?_ ?_ ?_).trans ?_
    · rfl
    · rfl
    · exact hca
    · exact hmf
    · simp [hmem, htok]

theorem stepSemiEither {s : PalState}
    (h : s.st = .GROUPBEG ∨ (s.st = .ADDRBREND ∧ s.groupFound = true)) (b : Bool) :
    palStep b s ';' = .ok { s with
      curGroup := MailGroup.clear, mailAddrs := [],
      groupList := s.groupList ++ [s.curGroup.add s.mailAddrs],
      groupFound := false, st := .GROUPEND } := by
  rcases h with hst | ⟨hst, hgf⟩
  · cases b
    · exact stepSemiGroupBegMid hst
    · exact stepLastSemiGroupBeg hst
  · cases b
    · exact stepBrEndSemi hst hgf
    · exact stepLastSemiBrEnd hst hgf

theorem toList_colon_sp : COLON.toList = [':', ' '] := rfl

theorem toList_semi : ";".toList = [';'] := rfl

theorem toList_semi_sp : "; ".toList = [';', ' '] := rfl

theorem data_colon_sp : COLON.data = [':', ' '] := rfl

theorem data_semi : ";".data = [';'] := rfl

theorem data_semi_sp : "; ".data = [';', ' '] := rfl

theorem scanGroupList :
    ∀ (gs : List MailGroup), gs ≠ [] → (∀ g ∈ gs, safeGroup g) →
      (∀ g ∈ gs.tail, 2 ≤ g.name.toList.length) →
      ∀ {fg : String}, format_group_list gs = .ok fg →
      ∀ {s : PalState},
      (s.st = .BEGIN ∨ (s.st = .GROUPEND ∧
        2 ≤ (gs.headD MailGroup.clear).name.toList.length)) →
      s.token = "" → s.curAddress = MailAddress.clear → s.monkeyFound = false →
      s.curGroup = MailGroup.clear → s.groupFound = false →
      ∃ mid s1, fg.toList = mid ++ [';'] ∧ palRunMid s mid = .ok s1 ∧
        ∀ b, palStep b s1 ';' = .ok { s with
          st := .GROUPEND,
          mailList := s.mailList ++ s.mailAddrs, mailAddrs := [],
          groupList := s.groupList ++ gs }
  | [g], _, hsafe, _, fg, hfg, s, hentry, htok, hca, hmf, hcg, hgf => by
    have hg := hsafe g (List.mem_cons_self _ _)
    rw [show format_group_list [g] =
        (if g.name.toList.all groupNameChar then
          (format_address_list g.members).bind (fun ms =>
            (format_group_list []).map (fun t => g.name ++ COLON ++ ms ++
              (if ([] : List MailGroup).isEmpty then ";" else "; ") ++ t))
        else .error badAddrMsg) from rfl, if_pos hg.2.1] at hfg
    cases hms : format_address_list g.members with
    | error e =>
      rw [hms] at hfg
      simp [Except.bind, Except.map] at hfg
    | ok ms =>
      rw [hms, show format_group_list [] = .ok "" from rfl] at hfg
      simp only [Except.bind, Except.map, Except.ok.injEq, List.isEmpty_nil,
        if_true] at hfg
      have hfg2 : fg = g.name ++ COLON ++ ms ++ ";" ++ "" := hfg.symm
      subst hfg2
      refine ⟨g.name.toList ++ ':' :: ' ' :: ms.toList, _, ?_,
        scanGroupChunk hg hms (by
          rcases hentry with h | ⟨h, hl⟩
          · exact Or.inl h
          · exact Or.inr ⟨h, by simpa using hl⟩) htok hca hmf hcg hgf, ?_⟩
      · simp [toList_colon_sp, toList_semi, data_colon_sp, data_semi]
      · intro b
        refine (stepSemiEither ?_ b).trans ?_
        · cases hmem : g.members with
          | nil => exact Or.inl (by simp [hmem])
          | cons x xs => exact Or.inr ⟨by simp [hmem], rfl⟩
        · simp [htok, hcg, hgf, MailGroup.add]
  | g :: g2 :: grest, _, hsafe, htail, fg, hfg, s, hentry, htok, hca, hmf, hcg, hgf => by
    have hg := hsafe g (List.mem_cons_self _ _)
    have hsafe2 : ∀ x ∈ g2 :: grest, safeGroup x :=
      fun x hx => hsafe x (List.mem_cons_of_mem _ hx)
    have htail2 : ∀ x ∈ (g2 :: grest).tail, 2 ≤ x.name.toList.length := by
      intro x hx
      exact htail x (List.mem_cons_of_mem _ hx)
    have hg2len : 2 ≤ g2.name.toList.length :=
      htail g2 (List.mem_cons_self _ _)
    rw [show format_group_list (g :: g2 :: grest) =
        (if g.name.toList.all groupNameChar then
          (format_address_list g.members).bind (fun ms =>
            (format_group_list (g2 :: grest)).map (fun t => g.name ++ COLON ++ ms ++
              (if (g2 :: grest).isEmpty then ";" else "; ") ++ t))
        else .error badAddrMsg) from rfl, if_pos hg.2.1] at hfg
    cases hms : format_address_list g.members with
    | error e =>
      rw [hms] at hfg
      simp [Except.bind, Except.map] at hfg
    | ok ms =>
      rw [hms] at hfg
      cases hfg2 : format_group_list (g2 :: grest) with
      | error e =>
        rw [hfg2] at hfg
        simp [Except.bind, Except.map] at hfg
      | ok f2 =>
        rw [hfg2] at hfg
        simp only [Except.bind, Except.map, Except.ok.injEq, List.isEmpty_cons,
          if_false, Bool.false_eq_true] at hfg
        have hfg3 : fg = g.name ++ COLON ++ ms ++ "; " ++ f2 := hfg.symm
        subst hfg3
        obtain ⟨mid2, s1, hsplit, hrun, hstep⟩ :=
          scanGroupList (g2 :: grest) (by simp) hsafe2 htail2 hfg2
            (s := { s with
              st := .GROUPEND,
              mailList := s.mailList ++ s.mailAddrs, mailAddrs := [],
              groupList := s.groupList ++ [g] })
            (Or.inr ⟨rfl, by simpa using hg2len⟩) htok hca hmf hcg hgf
        refine ⟨(g.name.toList ++ ':' :: ' ' :: ms.toList) ++ ';' :: ' ' :: mid2,
          s1, ?_, ?_, ?_⟩
        · have hsplit2 : f2.data = mid2 ++ [';'] := hsplit
          simp [toList_colon_sp, toList_semi_sp, data_colon_sp, data_semi_sp, hsplit2]
        · rw [palRunMid_app_ok _
            (scanGroupChunk hg hms (by
              rcases hentry with h | ⟨h, hl⟩
              · exact Or.inl h
              · exact Or.inr ⟨h, by simpa using hl⟩) htok hca hmf hcg hgf)]
          refine (palRunMid_cons_ok (stepSemiEither ?_ false)).trans ?_
          · cases hmem : g.members with
            | nil => exact Or.inl (by simp [hmem])
            | cons x xs => exact Or.inr ⟨by simp [hmem], rfl⟩
          refine (palRunMid_cons_ok (stepGroupEndSpace ?_ (by decide))).trans ?_
          · rfl
          refine Eq.trans ?_ hrun
          congr 1
          simp [htok, hcg, hgf, MailGroup.add]
        · intro b
          refine (hstep b).trans ?_
          simp [hgf]

theorem scanAddrListPending :
    ∀ (l : List MailAddress), l ≠ [] → (∀ x ∈ l, safeMailAddress x) →
      ∀ {fl : String}, format_address_list l = .ok fl →
      ∀ {s : PalState}, s.st = .BEGIN → s.token = "" →
      s.curAddress = MailAddress.clear → s.monkeyFound = false →
      s.groupFound = false →
      ∃ mid s1, fl.toList = mid ++ ['>'] ∧ palRunMid s mid = .ok s1 ∧
        palStep true s1 '>' = .ok { s with
          st := .ADDRBREND,
          mailAddrs := s.mailAddrs ++ l,
          mailList := s.mailList ++ (s.mailAddrs ++ l) }
  | [], h, _, _, _, _, _, _, _, _, _ => absurd rfl h
  | [a], _, hsafe, fl, hfl, s, hst, htok, hca, hmf, hgf => by
    have hsa := hsafe a (List.mem_cons_self _ _)
    rw [show format_address_list [a] = format_address a.name a.address from rfl,
      format_address_safe hsa.1 hsa.2] at hfl
    have hfl2 : fl = String.mk (preChars a.name a.address ++ ['>']) := by
      injection hfl with h
      exact h.symm
    subst hfl2
    refine ⟨preChars a.name a.address, _, by simp,
      scanPre hsa.1 hsa.2 hst htok hca hmf, ?_⟩
    refine (stepLastGT ?_ ?_ ?_).trans ?_
    · rfl
    · rfl
    · exact hgf
    simp [htok, hca, hmf]
  | a :: b :: t, _, hsafe, fl, hfl, s, hst, htok, hca, hmf, hgf => by
    have hsa := hsafe a (List.mem_cons_self _ _)
    have hsrest : ∀ x ∈ b :: t, safeMailAddress x :=
      fun x hx => hsafe x (List.mem_cons_of_mem _ hx)
    rw [show format_address_list (a :: b :: t) =
        (format_address a.name a.address).bind (fun s2 =>
          (format_address_list (b :: t)).map (fun t2 => s2 ++ ", " ++ t2)) from rfl,
      format_address_safe hsa.1 hsa.2] at hfl
    cases hr : format_address_list (b :: t) with
    | error e =>
      rw [hr] at hfl
      simp [Except.bind, Except.map] at hfl
    | ok f2 =>
      rw [hr] at hfl
      simp only [Except.bind, Except.map, Except.ok.injEq] at hfl
      have hfl2 : fl = String.mk (preChars a.name a.address ++ ['>']) ++ ", " ++ f2 :=
        hfl.symm
      subst hfl2
      obtain ⟨mid2, s1, hsplit, hrun, hstep⟩ :=
        scanAddrListPending (b :: t) (by simp) hsrest hr
          (s := { s with st := .BEGIN, mailAddrs := s.mailAddrs ++ [a] })
          rfl htok hca hmf hgf
      refine ⟨(preChars a.name a.address ++ ['>']) ++ ',' :: ' ' :: mid2, s1, ?_, ?_, ?_⟩
      · have hsplit2 : f2.data = mid2 ++ ['>'] := hsplit
        simp [toList_comma_sp, hsplit2]
      · rw [palRunMid_app_ok _ (scanOneFull hsa.1 hsa.2 hst htok hca hmf)]
        refine (palRunMid_cons_ok (stepBrEndComma ?_)).trans ?_
        · rfl
        refine (palRunMid_cons_ok (stepBeginSpace ?_ (by decide))).trans ?_
        · rfl
        refine Eq.trans ?_ hrun
        congr 1
      · refine hstep.trans ?_
        simp

theorem parse_format_mailbox {R : Mailboxes} (hR : safeRecipients R) {ts : String}
    (hts : format_mailbox R = .ok ts) :
    parse_address_list (String.mk (' ' :: ts.toList)) = .ok R := by
  obtain ⟨Ra, Rg⟩ := R
  obtain ⟨haddr, hgrp, hga, htail⟩ := hR
  rw [show format_mailbox ⟨Ra, Rg⟩ = (format_address_list Ra).bind (fun as =>
    (format_group_list Rg).map (fun gs2 => as ++
      (if Rg.isEmpty then "" else ", ") ++ gs2)) from rfl] at hts
  cases ha : format_address_list Ra with
  | error e =>
    rw [ha] at hts
    simp [Except.bind, Except.map] at hts
  | ok as =>
    rw [ha] at hts
    cases hg : format_group_list Rg with
    | error e =>
      rw [hg] at hts
      simp [Except.bind, Except.map] at hts
    | ok gsStr =>
      rw [hg] at hts
      simp only [Except.bind, Except.map, Except.ok.injEq] at hts
      cases hgs : Rg with
      | nil =>
        subst hgs
        rw [show format_group_list [] = .ok "" from rfl] at hg
        have hgs0 : gsStr = "" := by
          injection hg with h
          exact h.symm
        subst hgs0
        simp only [List.isEmpty_nil, if_true] at hts
        have hts2 : ts = as ++ "" ++ "" := hts.symm
        subst hts2
        cases haddrs : Ra with
        | nil =>
          subst haddrs
          rw [show format_address_list [] = .ok "" from rfl] at ha
          have has0 : as = "" := by
            injection ha with h
            exact h.symm
          subst has0
          show (palRun initPalState [' ']).map (fun s2 =>
            (⟨s2.mailList, s2.groupList⟩ : Mailboxes)) = .ok ⟨[], []⟩
          rw [palRun_single_last, stepLastSpaceBegin rfl (by decide)]
          rfl
        | cons a0 at0 =>
          subst haddrs
          obtain ⟨mid, s1, hsplit, hrun, hstep⟩ :=
            scanAddrListPending (a0 :: at0) (by simp) haddr ha
              (s := initPalState) rfl rfl rfl rfl rfl
          rw [show parse_address_list (String.mk (' ' :: (as ++ "" ++ "").toList)) =
            (palRun initPalState (' ' :: (as ++ "" ++ "").toList)).map (fun s2 =>
              (⟨s2.mailList, s2.groupList⟩ : Mailboxes)) from rfl]
          have hsplitd : as.data = mid ++ ['>'] := hsplit
          have hv : (' ' :: (as ++ "" ++ "").toList) = (' ' :: mid) ++ ['>'] := by
            simp [hsplitd]
          rw [hv]
          have hmid : palRunMid initPalState (' ' :: mid) = .ok s1 :=
            (palRunMid_cons_ok (stepBeginSpace rfl (by decide))).trans hrun
          rw [palRun_of_mid hmid (by simp), palRun_single_last, hstep]
          simp [initPalState, Except.map]
      | cons g1 grest =>
        have hane : Ra ≠ [] := by
          refine hga ?_
          rw [hgs]
          simp
        cases haddrs : Ra with
        | nil => exact absurd haddrs hane
        | cons a0 at0 =>
          subst haddrs
          subst hgs
          simp only [List.isEmpty_cons, if_false, Bool.false_eq_true] at hts
          have hts2 : ts = as ++ ", " ++ gsStr := hts.symm
          subst hts2
          obtain ⟨mid2, s1, hsplit, hrun, hstep⟩ :=
            scanGroupList (g1 :: grest) (by simp) hgrp htail hg
              (s := { initPalState with
                st := .BEGIN, mailAddrs := a0 :: at0 })
              (Or.inl rfl) rfl rfl rfl rfl rfl
          rw [show parse_address_list (String.mk (' ' :: (as ++ ", " ++ gsStr).toList)) =
            (palRun initPalState (' ' :: (as ++ ", " ++ gsStr).toList)).map (fun s2 =>
              (⟨s2.mailList, s2.groupList⟩ : Mailboxes)) from rfl]
          have hsplit2 : gsStr.data = mid2 ++ [';'] := hsplit
          have hv : (' ' :: (as ++ ", " ++ gsStr).toList) =
              (' ' :: (as.toList ++ ',' :: ' ' :: mid2)) ++ [';'] := by
            simp [toList_comma_sp, hsplit2]
          rw [hv]
          have hmid : palRunMid initPalState (' ' :: (as.toList ++ ',' :: ' ' :: mid2)) =
              .ok s1 := by
            refine (palRunMid_cons_ok (stepBeginSpace rfl (by decide))).trans ?_
            rw [palRunMid_app_ok _ (scanAddrListFull (by simp) haddr ha rfl rfl rfl rfl)]
            refine (palRunMid_cons_ok (stepBrEndComma ?_)).trans ?_
            · rfl
            refine (palRunMid_cons_ok (stepBeginSpace ?_ (by decide))).trans ?_
            · rfl
            refine Eq.trans ?_ hrun
            congr 1
          rw [palRun_of_mid hmid (by simp), palRun_single_last, hstep true]
          simp [initPalState, Except.map]

theorem digitChar_toNat (n : Nat) : (digitChar n).toNat = 48 + n % 10 := by
  have h : n % 10 < 10 := Nat.mod_lt _ (by omega)
  unfold digitChar
  set k := n % 10 with hk
  interval_cases k <;> decide

theorem digitChar_isDigit (n : Nat) : isDigitC (digitChar n) = true := by
  have h : n % 10 < 10 := Nat.mod_lt _ (by omega)
  unfold digitChar
  set k := n % 10 with hk
  interval_cases k <;> decide

theorem digitChar_not_ws (n : Nat) : isWsChar (digitChar n) = false := by
  have h : n % 10 < 10 := Nat.mod_lt _ (by omega)
  unfold digitChar
  set k := n % 10 with hk
  interval_cases k <;> decide

theorem digit_not_space {c : Char} (h : isDigitC c = true) : isSpaceC c = false := by
  by_contra hs
  rw [Bool.not_eq_false] at hs
  rcases space_enum hs with rfl | rfl | rfl | rfl | rfl | rfl <;>
    exact absurd h (by decide)

theorem alpha_not_ws {c : Char} (h : isAlphaC c = true) : isWsChar c = false := by
  by_contra hw
  rw [Bool.not_eq_false] at hw
  simp only [isWsChar, Bool.or_eq_true, decide_eq_true_eq] at hw
  rcases hw with rfl | rfl <;> exact absurd h (by decide)

theorem alpha_not_space {c : Char} (h : isAlphaC c = true) : isSpaceC c = false := by
  by_contra hs
  rw [Bool.not_eq_false] at hs
  rcases space_enum hs with rfl | rfl | rfl | rfl | rfl | rfl <;>
    exact absurd h (by decide)

theorem digitsVal_pad2 (n : Nat) (h : n < 100) :
    digitsVal [digitChar (n / 10), digitChar n] = n := by
  simp only [digitsVal, List.foldl, digitChar_toNat]
  omega

theorem digitsVal_pad4 (n : Nat) (h : n < 10000) :
    digitsVal [digitChar (n / 1000), digitChar (n / 100), digitChar (n / 10),
      digitChar n] = n := by
  simp only [digitsVal, List.foldl, digitChar_toNat]
  omega

theorem daysInMonth_le31 (y m : Nat) : daysInMonth y m ≤ 31 := by
  unfold daysInMonth
  split <;> first | (split_ifs <;> omega) | omega

theorem toList_colon_lit : ":".toList = [':'] := rfl

theorem zellerDow_lt (y m d : Nat) : zellerDow y m d < 7 := by
  unfold zellerDow
  exact Nat.mod_lt _ (by omega)

theorem string_append_empty (s : String) : s ++ "" = s := by
  refine string_eq_of_toList ?_
  simp

theorem format_address_list_ok :
    ∀ {l : List MailAddress}, (∀ x ∈ l, safeMailAddress x) →
      ∃ fl, format_address_list l = .ok fl
  | [], _ => ⟨"", rfl⟩
  | [a], hsafe => ⟨_, format_address_safe (hsafe a (List.mem_cons_self _ _)).1
      (hsafe a (List.mem_cons_self _ _)).2⟩
  | a :: b :: t, hsafe => by
    have hsa := hsafe a (List.mem_cons_self _ _)
    obtain ⟨f2, hf2⟩ := format_address_list_ok
      (fun x hx => hsafe x (List.mem_cons_of_mem a hx))
    refine ⟨String.mk (preChars a.name a.address ++ ['>']) ++ ", " ++ f2, ?_⟩
    rw [show format_address_list (a :: b :: t) =
        (format_address a.name a.address).bind (fun s2 =>
          (format_address_list (b :: t)).map (fun t2 => s2 ++ ", " ++ t2)) from rfl,
      format_address_safe hsa.1 hsa.2, hf2]
    rfl

theorem format_group_list_ok :
    ∀ {gs : List MailGroup}, (∀ g ∈ gs, safeGroup g) →
      ∃ fg, format_group_list gs = .ok fg
  | [], _ => ⟨"", rfl⟩
  | g :: rest, hsafe => by
    have hg := hsafe g (List.mem_cons_self _ _)
    obtain ⟨ms, hms⟩ := format_address_list_ok
      (fun x hx => member_safeMailAddress (hg.2.2.1 x hx))
    obtain ⟨f2, hf2⟩ := format_group_list_ok
      (fun x hx => hsafe x (List.mem_cons_of_mem g hx))
    refine ⟨g.name ++ COLON ++ ms ++ (if rest.isEmpty then ";" else "; ") ++ f2, ?_⟩
    rw [show format_group_list (g :: rest) =
        (if g.name.toList.all groupNameChar then
          (format_address_list g.members).bind (fun ms2 =>
            (format_group_list rest).map (fun t => g.name ++ COLON ++ ms2 ++
              (if rest.isEmpty then ";" else "; ") ++ t))
        else .error badAddrMsg) from rfl, if_pos hg.2.1, hms, hf2]
    rfl

theorem format_mailbox_ok {R : Mailboxes} (hR : safeRecipients R) :
    ∃ ts, format_mailbox R = .ok ts := by
  obtain ⟨as, has⟩ := format_address_list_ok hR.1
  obtain ⟨gs, hgs⟩ := format_group_list_ok hR.2.1
  refine ⟨as ++ (if R.groups.isEmpty then "" else ", ") ++ gs, ?_⟩
  rw [show format_mailbox R = (format_address_list R.addresses).bind (fun as2 =>
    (format_group_list R.groups).map (fun gs2 => as2 ++
      (if R.groups.isEmpty then "" else ", ") ++ gs2)) from rfl, has, hgs]
  rfl

theorem atext_not_crlf {c : Char} (h : isAtextChar c = true) :
    c ≠ '\r' ∧ c ≠ '\n' :=
  ⟨fun hc => absurd (hc ▸ h) (by decide), fun hc => absurd (hc ▸ h) (by decide)⟩

theorem preChars_no_cr {n a : String} (hn : safeName n) (ha : safeAddr a) :
    ∀ c ∈ preChars n a ++ ['>'], c ≠ '\r' := by
  intro c hc
  rw [preChars] at hc
  simp only [List.mem_append, List.mem_cons, List.not_mem_nil, or_false] at hc
  have hdt : ∀ x ∈ a.toList, dtextRegexChar x = true := by
    have := ha.2.1
    simpa [List.all_eq_true] using this
  rcases hc with (hif | (rfl | hmem)) | rfl
  · rcases hn with ⟨hp, _⟩ | ⟨hp, hq⟩
    · rw [if_pos hp] at hif
      by_cases hn0 : n = ""
      · rw [if_pos hn0] at hif
        exact absurd hif (List.not_mem_nil c)
      · rw [if_neg hn0] at hif
        simp only [List.mem_append, List.mem_cons, List.not_mem_nil, or_false] at hif
        rcases hif with hmem | rfl
        · have hpc : plainNameChar c = true := by
            have := List.all_eq_true.mp hp
            exact this c hmem
          exact (plain_not_crlf hpc).1
        · decide
    · have hn0 : n ≠ "" := by
        intro h2
        subst h2
        simp at hp
      rw [if_neg hn0, if_neg (by rw [hp]; simp : ¬ n.toList.all plainNameChar = true)]
        at hif
      simp only [List.cons_append, List.mem_cons, List.mem_append,
        List.not_mem_nil, or_false] at hif
      rcases hif with rfl | hmem | rfl | rfl
      · decide
      · have hqc : qtextRegexChar c = true := (List.all_eq_true.mp hq) c hmem
        exact (qtext_not_crlf hqc).1
      · decide
      · decide
  · decide
  · exact (dtext_not_crlf (hdt c hmem)).1
  · decide

theorem formatted_address_list_no_cr :
    ∀ {l : List MailAddress}, (∀ x ∈ l, safeMailAddress x) →
      ∀ {fl : String}, format_address_list l = .ok fl →
      ∀ c ∈ fl.toList, c ≠ '\r'
  | [], _, fl, hfl => by
    have : fl = "" := by
      injection hfl with h2
      exact h2.symm
    subst this
    intro c hc
    simp at hc
  | [a], hsafe, fl, hfl => by
    have hsa := hsafe a (List.mem_cons_self _ _)
    rw [show format_address_list [a] = format_address a.name a.address from rfl,
      format_address_safe hsa.1 hsa.2] at hfl
    have : fl = String.mk (preChars a.name a.address ++ ['>']) := by
      injection hfl with h2
      exact h2.symm
    subst this
    intro c hc
    rw [string_toList_mk] at hc
    exact preChars_no_cr hsa.1 hsa.2 c hc
  | a :: b :: t, hsafe, fl, hfl => by
    have hsa := hsafe a (List.mem_cons_self _ _)
    have hrest := fun x hx => hsafe x (List.mem_cons_of_mem a hx)
    rw [show format_address_list (a :: b :: t) =
        (format_address a.name a.address).bind (fun s2 =>
          (format_address_list (b :: t)).map (fun t2 => s2 ++ ", " ++ t2)) from rfl,
      format_address_safe hsa.1 hsa.2] at hfl
    cases hr : format_address_list (b :: t) with
    | error e =>
      rw [hr] at hfl
      simp [Except.bind, Except.map] at hfl
    | ok f2 =>
      rw [hr] at hfl
      simp only [Except.bind, Except.map, Except.ok.injEq] at hfl
      have hfl2 : fl = String.mk (preChars a.name a.address ++ ['>']) ++ ", " ++ f2 :=
        hfl.symm
      subst hfl2
      intro c hc
      simp only [string_toList_append, string_toList_mk, toList_comma_sp,
        List.mem_append, List.mem_cons, List.not_mem_nil, or_false] at hc
      rcases hc with ((hc | rfl) | rfl | rfl) | hc
      · exact preChars_no_cr hsa.1 hsa.2 c (List.mem_append.mpr (Or.inl hc))
      · exact preChars_no_cr hsa.1 hsa.2 _ (List.mem_append.mpr (Or.inr (by simp)))
      · decide
      · decide
      · exact formatted_address_list_no_cr hrest hr c hc

theorem formatted_group_list_no_cr :
    ∀ {gs : List MailGroup}, (∀ g ∈ gs, safeGroup g) →
      ∀ {fg : String}, format_group_list gs = .ok fg →
      ∀ c ∈ fg.toList, c ≠ '\r'
  | [], _, fg, hfg => by
    have : fg = "" := by
      injection hfg with h2
      exact h2.symm
    subst this
    intro c hc
    simp at hc
  | g :: rest, hsafe, fg, hfg => by
    have hg := hsafe g (List.mem_cons_self _ _)
    have hrest := fun x hx => hsafe x (List.mem_cons_of_mem g hx)
    rw [show format_group_list (g :: rest) =
        (if g.name.toList.all groupNameChar then
          (format_address_list g.members).bind (fun ms2 =>
            (format_group_list rest).map (fun t => g.name ++ COLON ++ ms2 ++
              (if rest.isEmpty then ";" else "; ") ++ t))
        else .error badAddrMsg) from rfl, if_pos hg.2.1] at hfg
    cases hms : format_address_list g.members with
    | error e =>
      rw [hms] at hfg
      simp [Except.bind, Except.map] at hfg
    | ok ms =>
      rw [hms] at hfg
      cases hf2 : format_group_list rest with
      | error e =>
        rw [hf2] at hfg
        simp [Except.bind, Except.map] at hfg
      | ok f2 =>
        rw [hf2] at hfg
        simp only [Except.bind, Except.map, Except.ok.injEq] at hfg
        have hfg2 : fg = g.name ++ COLON ++ ms ++
            (if rest.isEmpty then ";" else "; ") ++ f2 := hfg.symm
        subst hfg2
        intro c hc
        simp only [string_toList_append, toList_colon_sp, List.mem_append,
          List.mem_cons, List.not_mem_nil, or_false] at hc
        rcases hc with (((hc | rfl | rfl) | hc) | hc) | hc
        · have hgc : groupNameChar c = true := (List.all_eq_true.mp hg.2.1) c hc
          rw [groupNameChar_eq_atext] at hgc
          exact (atext_not_crlf hgc).1
        · decide
        · decide
        · exact formatted_address_list_no_cr
            (fun x hx => member_safeMailAddress (hg.2.2.1 x hx)) hms c hc
        · split_ifs at hc <;> simp only [toList_semi, toList_semi_sp,
            List.mem_cons, List.not_mem_nil, or_false] at hc
          · subst hc
            decide
          · rcases hc with rfl | rfl <;> decide
        · exact formatted_group_list_no_cr hrest hf2 c hc

theorem formatted_mailbox_no_cr {R : Mailboxes} (hR : safeRecipients R)
    {ts : String} (hts : format_mailbox R = .ok ts) :
    ∀ c ∈ ts.toList, c ≠ '\r' := by
  rw [show format_mailbox R = (format_address_list R.addresses).bind (fun as2 =>
    (format_group_list R.groups).map (fun gs2 => as2 ++
      (if R.groups.isEmpty then "" else ", ") ++ gs2)) from rfl] at hts
  cases ha : format_address_list R.addresses with
  | error e =>
    rw [ha] at hts
    simp [Except.bind, Except.map] at hts
  | ok as =>
    rw [ha] at hts
    cases hg : format_group_list R.groups with
    | error e =>
      rw [hg] at hts
      simp [Except.bind, Except.map] at hts
    | ok gs =>
      rw [hg] at hts
      simp only [Except.bind, Except.map, Except.ok.injEq] at hts
      have hts2 : ts = as ++ (if R.groups.isEmpty then "" else ", ") ++ gs := hts.symm
      subst hts2
      intro c hc
      simp only [string_toList_append, List.mem_append] at hc
      rcases hc with (hc | hc) | hc
      · exact formatted_address_list_no_cr hR.1 ha c hc
      · split_ifs at hc
        · rw [show ("" : String).toList = [] from rfl] at hc
          exact absurd hc (List.not_mem_nil c)
        · rw [toList_comma_sp] at hc
          simp only [List.mem_cons, List.not_mem_nil, or_false] at hc
          rcases hc with rfl | rfl <;> decide
      · exact formatted_group_list_no_cr hR.2.1 hg c hc

theorem trimList_id {l : List Char} {c1 c2 : Char} {m : List Char}
    (hl : l = c1 :: (m ++ [c2])) (h1 : isSpaceC c1 = false)
    (h2 : isSpaceC c2 = false) : trimList l = l := by
  subst hl
  rw [trimList]
  have hd1 : ((c1 :: (m ++ [c2])).dropWhile isSpaceC) = c1 :: (m ++ [c2]) := by
    simp [List.dropWhile_cons, h1]
  rw [hd1]
  have hrev : (c1 :: (m ++ [c2])).reverse = c2 :: (m.reverse ++ [c1]) := by
    simp
  rw [hrev]
  have hd2 : ((c2 :: (m.reverse ++ [c1])).dropWhile isSpaceC) =
      c2 :: (m.reverse ++ [c1]) := by
    simp [List.dropWhile_cons, h2]
  rw [hd2, ← hrev, List.reverse_reverse]

theorem alpha_ne_cr {c : Char} (h : isAlphaC c = true) : c ≠ '\r' ∧ c ≠ '\n' :=
  ⟨fun hc => absurd (hc ▸ h) (by decide), fun hc => absurd (hc ▸ h) (by decide)⟩

theorem digitChar_ne_cr (n : Nat) : digitChar n ≠ '\r' ∧ digitChar n ≠ '\n' := by
  constructor <;> intro hc <;>
    exact absurd (hc ▸ digitChar_isDigit n) (by decide)

theorem formatDateRfc_chars (y mo d h mi s : Nat) (off : Int)
    (hmo1 : 1 ≤ mo) (hmo2 : mo ≤ 12) :
    (∀ c ∈ (formatDateRfc y mo d h mi s off).toList, c ≠ '\r' ∧ c ≠ '\n') ∧
    trimCopy (formatDateRfc y mo d h mi s off) = formatDateRfc y mo d h mi s off := by
  obtain ⟨dA, dB, dC, hdl, hdA, hdB, hdC, hdmem⟩ :
      ∃ a b c, (dowNames.getD (zellerDow y mo d) "Sun").toList = [a, b, c] ∧
        isAlphaC a = true ∧ isAlphaC b = true ∧ isAlphaC c = true ∧
        dowNames.contains (dowNames.getD (zellerDow y mo d) "Sun") = true := by
    have h7 := zellerDow_lt y mo d
    set W := zellerDow y mo d with hW
    interval_cases W <;> exact ⟨_, _, _, rfl, by decide, by decide, by decide, by decide⟩
  obtain ⟨mA, mB, mC, hml, hmA, hmB, hmC, hmonnum⟩ :
      ∃ a b c, (monName mo).toList = [a, b, c] ∧
        isAlphaC a = true ∧ isAlphaC b = true ∧ isAlphaC c = true ∧
        monthNumber (monName mo) = some mo := by
    interval_cases mo <;> exact ⟨_, _, _, rfl, by decide, by decide, by decide, by decide⟩
  obtain ⟨sgnC, hsgnS, hsgn_or⟩ :
      ∃ c, (if off < 0 then ("-" : String) else "+").toList = [c] ∧
        (c = '+' ∨ c = '-') := by
    by_cases hneg : off < 0
    · exact ⟨'-', by rw [if_pos hneg]; rfl, Or.inr rfl⟩
    · exact ⟨'+', by rw [if_neg hneg]; rfl, Or.inl rfl⟩
  have hL : (formatDateRfc y mo d h mi s off).toList =
      dA :: dB :: dC :: ',' :: ' ' :: digitChar (d / 10) :: digitChar d :: ' ' ::
      mA :: mB :: mC :: ' ' ::
      digitChar (y / 1000) :: digitChar (y / 100) :: digitChar (y / 10) :: digitChar y ::
      ' ' :: digitChar (h / 10) :: digitChar h :: ':' ::
      digitChar (mi / 10) :: digitChar mi :: ':' ::
      digitChar (s / 10) :: digitChar s :: ' ' :: sgnC ::
      digitChar (off.natAbs / 60 / 10) :: digitChar (off.natAbs / 60) ::
      digitChar (off.natAbs % 60 / 10) :: digitChar (off.natAbs % 60) :: [] := by
    rw [formatDateRfc]
    simp only [string_toList_append, toList_comma_sp, toList_sp_lit, toList_colon_lit,
      pad2, pad4, string_toList_mk, hsgnS, hdl, hml, List.cons_append,
      List.append_assoc, List.nil_append, List.singleton_append]
  constructor
  · intro c hc
    rw [hL] at hc
    simp only [List.mem_cons, List.not_mem_nil, or_false] at hc
    rcases hc with rfl | rfl | rfl | rfl | rfl | rfl | rfl | rfl | rfl | rfl | rfl |
      rfl | rfl | rfl | rfl | rfl | rfl | rfl | rfl | rfl | rfl | rfl | rfl | rfl |
      rfl | rfl | rfl | rfl | rfl | rfl | rfl
    · exact alpha_ne_cr hdA
    · exact alpha_ne_cr hdB
    · exact alpha_ne_cr hdC
    · exact ⟨by decide, by decide⟩
    · exact ⟨by decide, by decide⟩
    · exact digitChar_ne_cr _
    · exact digitChar_ne_cr _
    · exact ⟨by decide, by decide⟩
    · exact alpha_ne_cr hmA
    · exact alpha_ne_cr hmB
    · exact alpha_ne_cr hmC
    · exact ⟨by decide, by decide⟩
    · exact digitChar_ne_cr _
    · exact digitChar_ne_cr _
    · exact digitChar_ne_cr _
    · exact digitChar_ne_cr _
    · exact ⟨by decide, by decide⟩
    · exact digitChar_ne_cr _
    · exact digitChar_ne_cr _
    · exact ⟨by decide, by decide⟩
    · exact digitChar_ne_cr _
    · exact digitChar_ne_cr _
    · exact ⟨by decide, by decide⟩
    · exact digitChar_ne_cr _
    · exact digitChar_ne_cr _
    · exact ⟨by decide, by decide⟩
    · rcases hsgn_or with rfl | rfl
      · exact ⟨by decide, by decide⟩
      · exact ⟨by decide, by decide⟩
    · exact digitChar_ne_cr _
    · exact digitChar_ne_cr _
    · exact digitChar_ne_cr _
    · exact digitChar_ne_cr _
  · rw [trimCopy, hL]
    rw [@trimList_id (dA :: dB :: dC :: ',' :: ' ' :: digitChar (d / 10) ::
        digitChar d :: ' ' :: mA :: mB :: mC :: ' ' ::
        digitChar (y / 1000) :: digitChar (y / 100) :: digitChar (y / 10) ::
        digitChar y :: ' ' :: digitChar (h / 10) :: digitChar h :: ':' ::
        digitChar (mi / 10) :: digitChar mi :: ':' ::
        digitChar (s / 10) :: digitChar s :: ' ' :: sgnC ::
        digitChar (off.natAbs / 60 / 10) :: digitChar (off.natAbs / 60) ::
        digitChar (off.natAbs % 60 / 10) :: digitChar (off.natAbs % 60) :: [])
      dA (digitChar (off.natAbs % 60))
      (dB :: dC :: ',' :: ' ' :: digitChar (d / 10) ::
        digitChar d :: ' ' :: mA :: mB :: mC :: ' ' ::
        digitChar (y / 1000) :: digitChar (y / 100) :: digitChar (y / 10) ::
        digitChar y :: ' ' :: digitChar (h / 10) :: digitChar h :: ':' ::
        digitChar (mi / 10) :: digitChar mi :: ':' ::
        digitChar (s / 10) :: digitChar s :: ' ' :: sgnC ::
        digitChar (off.natAbs / 60 / 10) :: digitChar (off.natAbs / 60) ::
        digitChar (off.natAbs % 60 / 10) :: []) rfl
      (alpha_not_space hdA) (digit_not_space (digitChar_isDigit _))]
    rw [← hL, string_mk_toList]

theorem parse_line_from (m0 : Message) {a : MailAddress} {fromStr : String}
    (hsa : safeMailAddress a)
    (hpf : parse_address_list (String.mk (' ' :: fromStr.toList)) = .ok ⟨[a], []⟩) :
    parse_header_line m0 (String.mk ("From".toList ++ ':' :: ' ' :: fromStr.toList)) =
      .ok { m0 with sender := a } := by
  unfold parse_header_line parse_header_name_value mimeParseHeaderLine
  rw [string_toList_mk, splitAtColon_app (by decide)]
  simp only [string_mk_toList]
  rw [if_pos (by decide : iequals "From" FROM_HEADER = true)]
  rw [hpf]
  rfl

theorem parse_line_to (m0 : Message) {R : Mailboxes} {toStr : String}
    (hpt : parse_address_list (String.mk (' ' :: toStr.toList)) = .ok R) :
    parse_header_line m0 (String.mk ("To".toList ++ ':' :: ' ' :: toStr.toList)) =
      .ok { m0 with recipients := R } := by
  unfold parse_header_line parse_header_name_value mimeParseHeaderLine
  rw [string_toList_mk, splitAtColon_app (by decide)]
  simp only [string_mk_toList]
  rw [if_neg (by decide : ¬ iequals "To" FROM_HEADER = true),
    if_neg (by decide : ¬ iequals "To" REPLY_TO_HEADER = true),
    if_pos (by decide : iequals "To" TO_HEADER = true)]
  rw [hpt]
  rfl

theorem parse_line_date (m0 : Message) {dstr : String} {d : LocalDateTime}
    (htrim : trimCopy dstr = dstr)
    (hpd : parse_date dstr = .ok d) :
    parse_header_line m0 (String.mk ("Date".toList ++ ':' :: ' ' :: dstr.toList)) =
      .ok { m0 with dateTime := d } := by
  unfold parse_header_line parse_header_name_value mimeParseHeaderLine
  rw [string_toList_mk, splitAtColon_app (by decide)]
  simp only [string_mk_toList]
  rw [if_neg (by decide : ¬ iequals "Date" FROM_HEADER = true),
    if_neg (by decide : ¬ iequals "Date" REPLY_TO_HEADER = true),
    if_neg (by decide : ¬ iequals "Date" TO_HEADER = true),
    if_neg (by decide : ¬ iequals "Date" CC_HEADER = true),
    if_neg (by decide : ¬ iequals "Date" SUBJECT_HEADER = true),
    if_pos (by decide : iequals "Date" DATE_HEADER = true)]
  rw [trimCopy_space_cons htrim, hpd]
  rfl

theorem parse_line_subject (m0 : Message) {subj : String}
    (htrim : trimCopy subj = subj) :
    parse_header_line m0 (String.mk ("Subject".toList ++ ':' :: ' ' :: subj.toList)) =
      .ok { m0 with subject := subj } := by
  unfold parse_header_line parse_header_name_value mimeParseHeaderLine
  rw [string_toList_mk, splitAtColon_app (by decide)]
  simp only [string_mk_toList]
  rw [if_neg (by decide : ¬ iequals "Subject" FROM_HEADER = true),
    if_neg (by decide : ¬ iequals "Subject" REPLY_TO_HEADER = true),
    if_neg (by decide : ¬ iequals "Subject" TO_HEADER = true),
    if_neg (by decide : ¬ iequals "Subject" CC_HEADER = true),
    if_pos (by decide : iequals "Subject" SUBJECT_HEADER = true)]
  rw [trimCopy_space_cons htrim]

theorem setter_format {a : MailAddress} {R : Mailboxes} {subj : String}
    {fromStr toStr : String} {y mo dd hh mi ss : Nat} {off : Int}
    (hfrom : format_address a.name a.address = .ok fromStr)
    (hto : format_mailbox R = .ok toStr) :
    ∃ hdr, message_format (mkSetterMsg a R subj (.mk y mo dd hh mi ss off)) "" false =
      .ok hdr ∧
      hdr.toList = "From".toList ++ ':' :: ' ' :: fromStr.toList ++ '\r' :: '\n' ::
        ("To".toList ++ ':' :: ' ' :: toStr.toList ++ '\r' :: '\n' ::
        ("Date".toList ++ ':' :: ' ' ::
          (formatDateRfc y mo dd hh mi ss off).toList ++ '\r' :: '\n' ::
        ("Subject".toList ++ ':' :: ' ' :: subj.toList ++ '\r' :: '\n' ::
          '\r' :: '\n' :: []))) := by
  have hCRt : CRLF.toList = ['\r', '\n'] := rfl
  unfold message_format format_header
  rw [if_neg (by simp [mkSetterMsg])]
  unfold sender_to_string reply_address_to_string recipients_to_string
  unfold cc_recipients_to_string bcc_recipients_to_string
  simp only [mkSetterMsg, MailAddress.clear, mailboxesEmpty, datePartOf,
    mimeHeaderOf, message_format_content, mimeContentOf, hfrom, hto,
    Except.bind, Except.map]
  simp only [List.isEmpty_nil, Bool.and_self, if_true, reduceIte]
  have hCRd : CRLF.data = ['\r', '\n'] := rfl
  refine ⟨_, rfl, ?_⟩
  simp [toList_colon_sp, data_colon_sp, hCRt, hCRd, string_append_empty]

theorem no_cr_line_from {a : MailAddress} (hsa : safeMailAddress a) :
    '\r' ∉ ("From".toList ++ ':' :: ' ' ::
      (String.mk (preChars a.name a.address ++ ['>'])).toList) := by
  intro hmem
  rw [string_toList_mk] at hmem
  simp only [List.mem_append, List.mem_cons] at hmem
  rcases hmem with hmem | hco | hsp | hmem
  · exact absurd hmem (by decide)
  · exact absurd hco (by decide)
  · exact absurd hsp (by decide)
  · exact preChars_no_cr hsa.1 hsa.2 _ hmem rfl

theorem no_cr_line_to {R : Mailboxes} (hR : safeRecipients R) {toStr : String}
    (hto : format_mailbox R = .ok toStr) :
    '\r' ∉ ("To".toList ++ ':' :: ' ' :: toStr.toList) := by
  intro hmem
  simp only [List.mem_append, List.mem_cons] at hmem
  rcases hmem with hmem | hco | hsp | hmem
  · exact absurd hmem (by decide)
  · exact absurd hco (by decide)
  · exact absurd hsp (by decide)
  · exact formatted_mailbox_no_cr hR hto _ hmem rfl

theorem no_cr_line_date {y mo dd hh mi ss : Nat} {off : Int}
    (hmo1 : 1 ≤ mo) (hmo2 : mo ≤ 12) :
    '\r' ∉ ("Date".toList ++ ':' :: ' ' ::
      (formatDateRfc y mo dd hh mi ss off).toList) := by
  intro hmem
  simp only [List.mem_append, List.mem_cons] at hmem
  rcases hmem with hmem | hco | hsp | hmem
  · exact absurd hmem (by decide)
  · exact absurd hco (by decide)
  · exact absurd hsp (by decide)
  · exact ((formatDateRfc_chars y mo dd hh mi ss off hmo1 hmo2).1 _ hmem).1 rfl

theorem no_cr_line_subject {subj : String} (hsubcr : noCRLFstr subj) :
    '\r' ∉ ("Subject".toList ++ ':' :: ' ' :: subj.toList) := by
  intro hmem
  simp only [List.mem_append, List.mem_cons] at hmem
  rcases hmem with hmem | hco | hsp | hmem
  · exact absurd hmem (by decide)
  · exact absurd hco (by decide)
  · exact absurd hsp (by decide)
  · exact hsubcr.1 hmem

theorem header_lines_setter {fromList toList2 dateList subjList : List Char}
    (h1 : '\r' ∉ "From".toList ++ ':' :: ' ' :: fromList)
    (h2 : '\r' ∉ "To".toList ++ ':' :: ' ' :: toList2)
    (h3 : '\r' ∉ "Date".toList ++ ':' :: ' ' :: dateList)
    (h4 : '\r' ∉ "Subject".toList ++ ':' :: ' ' :: subjList) :
    header_lines (String.mk
      ("From".toList ++ ':' :: ' ' :: fromList ++ '\r' :: '\n' ::
        ("To".toList ++ ':' :: ' ' :: toList2 ++ '\r' :: '\n' ::
        ("Date".toList ++ ':' :: ' ' :: dateList ++ '\r' :: '\n' ::
        ("Subject".toList ++ ':' :: ' ' :: subjList ++ '\r' :: '\n' ::
          '\r' :: '\n' :: []))))) =
      [String.mk ("From".toList ++ ':' :: ' ' :: fromList),
       String.mk ("To".toList ++ ':' :: ' ' :: toList2),
       String.mk ("Date".toList ++ ':' :: ' ' :: dateList),
       String.mk ("Subject".toList ++ ':' :: ' ' :: subjList)] := by
  unfold header_lines
  rw [string_toList_mk]
  rw [show ("From".toList ++ ':' :: ' ' :: fromList ++ '\r' :: '\n' ::
        ("To".toList ++ ':' :: ' ' :: toList2 ++ '\r' :: '\n' ::
        ("Date".toList ++ ':' :: ' ' :: dateList ++ '\r' :: '\n' ::
        ("Subject".toList ++ ':' :: ' ' :: subjList ++ '\r' :: '\n' ::
          '\r' :: '\n' :: [])))) =
      (("From".toList ++ ':' :: ' ' :: fromList) ++ '\r' :: '\n' ::
        (("To".toList ++ ':' :: ' ' :: toList2) ++ '\r' :: '\n' ::
        (("Date".toList ++ ':' :: ' ' :: dateList) ++ '\r' :: '\n' ::
        (("Subject".toList ++ ':' :: ' ' :: subjList) ++ '\r' :: '\n' ::
          '\r' :: '\n' :: [])))) from by simp]
  rw [splitCRLF_app h1, splitCRLF_app h2, splitCRLF_app h3, splitCRLF_app h4]
  rw [show splitCRLF ('\r' :: '\n' :: []) = [[], []] from rfl]
  have hne : ∀ (nm : String) (l : List Char), nm.toList ≠ [] →
      (String.mk (nm.toList ++ ':' :: ' ' :: l) ≠ "") := by
    intro nm l hnm heq
    have h5 := congrArg String.toList heq
    rw [string_toList_mk] at h5
    rcases List.append_eq_nil.mp h5 with ⟨h6, _⟩
    exact hnm h6
  have hq1 := decide_eq_true (hne "From" fromList (by decide))
  have hq2 := decide_eq_true (hne "To" toList2 (by decide))
  have hq3 := decide_eq_true (hne "Date" dateList (by decide))
  have hq4 := decide_eq_true (hne "Subject" subjList (by decide))
  have hemp : (decide ((String.mk ([] : List Char)) ≠ "")) = false := by decide
  simp only [List.map_cons, List.map_nil, List.filter, hq1, hq2, hq3, hq4, hemp]

set_option maxHeartbeats 1000000 in
theorem parse_format_date {y mo d h mi s : Nat} {off : Int}
    (hy1 : 1400 ≤ y) (hy2 : y ≤ 9999) (hmo1 : 1 ≤ mo) (hmo2 : mo ≤ 12)
    (hd1 : 1 ≤ d) (hd2 : d ≤ daysInMonth y mo) (hh : h ≤ 23) (hmi : mi ≤ 59)
    (hs : s ≤ 59) (hoff : off.natAbs ≤ 5999) :
    parse_date (formatDateRfc y mo d h mi s off) = .ok (.mk y mo d h mi s off) := by
  obtain ⟨dA, dB, dC, hdl, hdA, hdB, hdC, hdmem⟩ :
      ∃ a b c, (dowNames.getD (zellerDow y mo d) "Sun").toList = [a, b, c] ∧
        isAlphaC a = true ∧ isAlphaC b = true ∧ isAlphaC c = true ∧
        dowNames.contains (dowNames.getD (zellerDow y mo d) "Sun") = true := by
    have h7 := zellerDow_lt y mo d
    set W := zellerDow y mo d with hW
    interval_cases W <;> exact ⟨_, _, _, rfl, by decide, by decide, by decide, by decide⟩
  obtain ⟨mA, mB, mC, hml, hmA, hmB, hmC, hmonnum⟩ :
      ∃ a b c, (monName mo).toList = [a, b, c] ∧
        isAlphaC a = true ∧ isAlphaC b = true ∧ isAlphaC c = true ∧
        monthNumber (monName mo) = some mo := by
    interval_cases mo <;> exact ⟨_, _, _, rfl, by decide, by decide, by decide, by decide⟩
  obtain ⟨sgnC, hsgnS, hsgn_or, hsgn_neg⟩ :
      ∃ c, (if off < 0 then ("-" : String) else "+").toList = [c] ∧
        (c = '+' ∨ c = '-') ∧ ((c = '-') ↔ off < 0) := by
    by_cases hneg : off < 0
    · exact ⟨'-', by rw [if_pos hneg]; rfl, Or.inr rfl, by simp [hneg]⟩
    · exact ⟨'+', by rw [if_neg hneg]; rfl, Or.inl rfl, by simp [hneg]⟩
  have hL : (formatDateRfc y mo d h mi s off).toList =
      dA :: dB :: dC :: ',' :: ' ' :: digitChar (d / 10) :: digitChar d :: ' ' ::
      mA :: mB :: mC :: ' ' ::
      digitChar (y / 1000) :: digitChar (y / 100) :: digitChar (y / 10) :: digitChar y ::
      ' ' :: digitChar (h / 10) :: digitChar h :: ':' ::
      digitChar (mi / 10) :: digitChar mi :: ':' ::
      digitChar (s / 10) :: digitChar s :: ' ' :: sgnC ::
      digitChar (off.natAbs / 60 / 10) :: digitChar (off.natAbs / 60) ::
      digitChar (off.natAbs % 60 / 10) :: digitChar (off.natAbs % 60) :: [] := by
    rw [formatDateRfc]
    simp only [string_toList_append, toList_comma_sp, toList_sp_lit, toList_colon_lit,
      pad2, pad4, string_toList_mk, hsgnS, hdl, hml, List.cons_append,
      List.append_assoc, List.nil_append, List.singleton_append]
  have hsgnws : isWsChar sgnC = false := by
    rcases hsgn_or with rfl | rfl <;> decide
  have hsgnsp : isSpaceC sgnC = false := by
    rcases hsgn_or with rfl | rfl <;> decide
  have hsgnok : (decide (sgnC = '+') || decide (sgnC = '-')) = true := by
    rcases hsgn_or with rfl | rfl <;> decide
  have hwsc : isWsChar ',' = false := by decide
  have hwss : isWsChar ' ' = true := by decide
  have hds : isDigitC ' ' = false := by decide
  have hCap : dateRegexCaptures (formatDateRfc y mo d h mi s off) =
      some (String.mk [dA, dB, dC, ','],
        String.mk [digitChar (d / 10), digitChar d, ' ', mA, mB, mC, ' ',
          digitChar (y / 1000), digitChar (y / 100), digitChar (y / 10), digitChar y],
        String.mk [digitChar (h / 10), digitChar h, ':', digitChar (mi / 10),
          digitChar mi, ':', digitChar (s / 10), digitChar s, ' ', sgnC,
          digitChar (off.natAbs / 60 / 10), digitChar (off.natAbs / 60),
          digitChar (off.natAbs % 60 / 10), digitChar (off.natAbs % 60)]) := by
    unfold dateRegexCaptures
    rw [hL]
    simp only [List.take, List.drop, List.takeWhile, List.dropWhile, List.all,
      hdA, hdB, hdC, hmA, hmB, hmC, digitChar_isDigit, digitChar_not_ws,
      alpha_not_ws hmA, hwsc, hwss, hds, hsgnws, hsgnok, Bool.and_true,
      Bool.and_false, Bool.or_false, Bool.false_or, Bool.true_and, Bool.false_and,
      Bool.or_true, Bool.true_or, if_true, if_false, List.isEmpty_cons,
      List.isEmpty_nil, List.length_cons, List.length_nil, List.contains_nil]
    simp
  have hddc : ¬ (digitChar d = ' ') := by
    intro hceq
    have hq := digitChar_isDigit d
    rw [hceq] at hq
    exact absurd hq (by decide)
  have hDttz : dateDttz (formatDateRfc y mo d h mi s off) =
      some (String.mk (dA :: dB :: dC :: ',' :: ' ' ::
        digitChar (d / 10) :: digitChar d :: ' ' :: mA :: mB :: mC :: ' ' ::
        digitChar (y / 1000) :: digitChar (y / 100) :: digitChar (y / 10) ::
        digitChar y :: ' ' :: digitChar (h / 10) :: digitChar h :: ':' ::
        digitChar (mi / 10) :: digitChar mi :: ':' ::
        digitChar (s / 10) :: digitChar s :: ' ' :: sgnC ::
        digitChar (off.natAbs / 60 / 10) :: digitChar (off.natAbs / 60) :: ':' ::
        digitChar (off.natAbs % 60 / 10) :: digitChar (off.natAbs % 60) :: [])) := by
    unfold dateDttz
    rw [hCap]
    have hemp : ("" : String).toList = [] := rfl
    simp only [Option.map]
    refine congrArg some (string_eq_of_toList ?_)
    simp only [string_toList_append, string_toList_mk, toList_sp_lit,
      toList_colon_lit, List.getD, List.get?, List.take, List.drop, hddc,
      if_false, List.getD_cons_succ, List.getD_cons_zero, hemp]
    simp [hddc]
  have hdds : ∀ n, isSpaceC (digitChar n) = false :=
    fun n => digit_not_space (digitChar_isDigit n)
  have halc : isAlphaC ',' = false := by decide
  have halsp : isAlphaC ' ' = false := by decide
  have hdcn : isDigitC ':' = false := by decide
  have hspt : isSpaceC ' ' = true := by decide
  have hcon : dowNames.contains (String.mk [dA, dB, dC]) = true := by
    rw [show String.mk [dA, dB, dC] = dowNames.getD (zellerDow y mo d) "Sun" by
      rw [← hdl, string_mk_toList]]
    exact hdmem
  have hmnum : monthNumber (String.mk [mA, mB, mC]) = some mo := by
    rw [show String.mk [mA, mB, mC] = monName mo by rw [← hml, string_mk_toList]]
    exact hmonnum
  have hd100 : d < 100 := by
    have := daysInMonth_le31 y mo
    omega
  have hvy : digitsVal [digitChar (y / 1000), digitChar (y / 100), digitChar (y / 10),
      digitChar y] = y := digitsVal_pad4 y (by omega)
  have hvd : digitsVal [digitChar (d / 10), digitChar d] = d := digitsVal_pad2 d hd100
  have hvh : digitsVal [digitChar (h / 10), digitChar h] = h := digitsVal_pad2 h (by omega)
  have hvmi : digitsVal [digitChar (mi / 10), digitChar mi] = mi :=
    digitsVal_pad2 mi (by omega)
  have hvs : digitsVal [digitChar (s / 10), digitChar s] = s := digitsVal_pad2 s (by omega)
  have hvz1 : digitsVal [digitChar (off.natAbs / 60 / 10), digitChar (off.natAbs / 60)] =
      off.natAbs / 60 := digitsVal_pad2 _ (by omega)
  have hvz2 : digitsVal [digitChar (off.natAbs % 60 / 10), digitChar (off.natAbs % 60)] =
      off.natAbs % 60 := digitsVal_pad2 _ (by omega)
  have hzm59 : off.natAbs % 60 ≤ 59 := by omega
  have hFacet : facetParse (String.mk (dA :: dB :: dC :: ',' :: ' ' ::
        digitChar (d / 10) :: digitChar d :: ' ' :: mA :: mB :: mC :: ' ' ::
        digitChar (y / 1000) :: digitChar (y / 100) :: digitChar (y / 10) ::
        digitChar y :: ' ' :: digitChar (h / 10) :: digitChar h :: ':' ::
        digitChar (mi / 10) :: digitChar mi :: ':' ::
        digitChar (s / 10) :: digitChar s :: ' ' :: sgnC ::
        digitChar (off.natAbs / 60 / 10) :: digitChar (off.natAbs / 60) :: ':' ::
        digitChar (off.natAbs % 60 / 10) :: digitChar (off.natAbs % 60) :: [])) =
      some (.mk y mo d h mi s off) := by
    unfold facetParse
    simp only [string_toList_mk, List.takeWhile, List.dropWhile,
      hdA, hdB, hdC, hmA, hmB, hmC, halc, halsp, hspt, hdds, hdcn, hds,
      digitChar_isDigit, digit_not_space, alpha_not_space hmA,
      hsgnsp, hcon, hmnum, List.take, List.drop, List.all,
      Bool.and_true, Bool.true_and, Bool.or_false, Bool.false_or,
      List.isEmpty_cons, List.isEmpty_nil, List.length_cons, List.length_nil]
    simp [hsgnok, hvy, hvd, hvh, hvmi, hvs, hvz1, hvz2, hy1, hy2, hd1, hd2,
      hh, hmi, hs, hzm59]
    rcases hsgn_or with rfl | rfl
    · have hnn : ¬ off < 0 := fun hc => absurd (hsgn_neg.mpr hc) (by decide)
      rw [if_neg (by decide : ¬ (('+' : Char) = '-')), abs_of_nonneg (by omega)]
      omega
    · have hn : off < 0 := hsgn_neg.mp rfl
      rw [if_pos rfl, abs_of_neg hn]
      omega
  unfold parse_date
  rw [hDttz]
  simp only [hFacet]

/-- C2 (amended): the settable message fields survive the format/parse
round trip under the formatter-and-parser-compatible side conditions: for
a sender whose name is plain-and-trimmed or quotable and whose address is
in the address class with a monkey char, recipients whose addresses are
such mailboxes and whose groups have non-empty atext names (two or more
characters after the first group), plain trimmed member names whose first
member survives the group-begin quirk, a trimmed subject free of CR and
LF, and a date representable by the underlying library, formatting the
message built by the setters and feeding every produced header line back
through the parsing path reproduces exactly the sender, recipients,
subject and date-time on the target message. -/
theorem roundtrip_amended {a : MailAddress} {R : Mailboxes} {subj : String}
    {d : LocalDateTime} (hsa : safeMailAddress a) (hR : safeRecipients R)
    (hsub : trimCopy subj = subj) (hsubcr : noCRLFstr subj)
    (hd : validDate d) (m0 : Message) :
    roundTrip (mkSetterMsg a R subj d) m0 =
      .ok { m0 with sender := a, recipients := R, subject := subj, dateTime := d } := by
  cases d with
  | notADateTime => exact absurd hd (by simp [validDate])
  | mk y mo dd hh mi ss off =>
    obtain ⟨hy1, hy2, hmo1, hmo2, hdd1, hdd2, hhh, hmi2, hss, hoff⟩ := hd
    have hfrom := format_address_safe hsa.1 hsa.2
    obtain ⟨toStr, hto⟩ := format_mailbox_ok hR
    obtain ⟨hdr, hval, hlist⟩ := @setter_format a R subj
      (String.mk (preChars a.name a.address ++ ['>'])) toStr y mo dd hh mi ss off
      hfrom hto
    have hdate := parse_format_date hy1 hy2 hmo1 hmo2 hdd1 hdd2 hhh hmi2 hss hoff
    have hdch := formatDateRfc_chars y mo dd hh mi ss off hmo1 hmo2
    have hsafeR1 : safeRecipients ⟨[a], []⟩ := by
      refine ⟨?_, ?_, ?_, ?_⟩
      · intro x hx
        rw [List.mem_singleton] at hx
        subst hx
        exact hsa
      · intro g hg
        simp at hg
      · intro hcon
        exact absurd rfl hcon
      · intro g hg
        simp at hg
    have hmb1 : format_mailbox ⟨[a], []⟩ =
        .ok (String.mk (preChars a.name a.address ++ ['>'])) := by
      rw [show format_mailbox ⟨[a], []⟩ = (format_address_list [a]).bind (fun as2 =>
          (format_group_list ([] : List MailGroup)).map (fun gs2 => as2 ++
            (if ([] : List MailGroup).isEmpty then "" else ", ") ++ gs2)) from rfl,
        show format_address_list [a] = format_address a.name a.address from rfl, hfrom]
      simp only [Except.bind, Except.map,
        show format_group_list [] = .ok "" from rfl, List.isEmpty_nil, if_true]
      rw [string_append_empty, string_append_empty]
    have hpf := parse_format_mailbox hsafeR1 hmb1
    have hpt := parse_format_mailbox hR hto
    have hhl := header_lines_setter (no_cr_line_from hsa) (no_cr_line_to hR hto)
      (@no_cr_line_date y mo dd hh mi ss off hmo1 hmo2) (no_cr_line_subject hsubcr)
    have hhdrBig : String.mk
        ("From".toList ++ ':' :: ' ' ::
          (String.mk (preChars a.name a.address ++ ['>'])).toList ++ '\r' :: '\n' ::
        ("To".toList ++ ':' :: ' ' :: toStr.toList ++ '\r' :: '\n' ::
        ("Date".toList ++ ':' :: ' ' ::
          (formatDateRfc y mo dd hh mi ss off).toList ++ '\r' :: '\n' ::
        ("Subject".toList ++ ':' :: ' ' :: subj.toList ++ '\r' :: '\n' ::
          '\r' :: '\n' :: [])))) = hdr := by
      rw [← hlist, string_mk_toList]
    rw [hhdrBig] at hhl
    unfold roundTrip
    rw [hval]
    simp only [Except.bind]
    rw [hhl]
    simp only [feed_header_lines]
    rw [parse_line_from m0 hsa hpf]
    simp only [Except.bind]
    rw [parse_line_to _ hpt]
    simp only [Except.bind]
    rw [parse_line_date _ hdch.2 hdate]
    simp only [Except.bind]
    rw [parse_line_subject _ hsub]

theorem roundtrip_amended_witness :
    safeMailAddress ⟨"", "s@x"⟩ ∧ safeRecipients ⟨[⟨"", "t@x"⟩], []⟩ ∧
    trimCopy "x" = "x" ∧ noCRLFstr "x" ∧
    validDate (.mk 2014 7 17 10 31 49 120) ∧
    roundTrip (mkSetterMsg ⟨"", "s@x"⟩ ⟨[⟨"", "t@x"⟩], []⟩ "x"
        (.mk 2014 7 17 10 31 49 120)) {} =
      .ok { ({} : Message) with
        sender := ⟨"", "s@x"⟩,
        recipients := ⟨[⟨"", "t@x"⟩], []⟩,
        subject := "x",
        dateTime := .mk 2014 7 17 10 31 49 120 } :=
  ⟨by simp only [safeMailAddress, safeName, safeAddr]; decide,
    ⟨by simp only [safeMailAddress, safeName, safeAddr]; decide,
      by simp, fun h => absurd rfl h, by simp⟩,
    by decide,
    by simp only [noCRLFstr]; decide,
    by simp only [validDate]; decide,
    roundtrip_amended
      (by simp only [safeMailAddress, safeName, safeAddr]; decide)
      ⟨by simp only [safeMailAddress, safeName, safeAddr]; decide,
        by simp, fun h => absurd rfl h, by simp⟩
      (by decide)
      (by simp only [noCRLFstr]; decide)
      (by simp only [validDate]; decide) {}⟩

end Mailio
